import Mathlib

/-! TCanny: a shallow embedding of `TCanny.cpp` and proofs about it.

Buffers are functions from an element index to a value, exactly as the C++
code addresses them through a base pointer (`srcp[x + y * stride]`; a row
pointer advanced by `stride` per row is the same index).  Pixel values live in
an ordered type `α` (an ordered field where the code does arithmetic): exact
arithmetic stands for binary floating point, so there is no rounding and no
NaN.  The `<cmath>` functions are the fields of `FloatOps`; statements that
need their mathematical meaning take the real functions (`Real.sqrt`,
`Real.tan`, `Real.exp`, and `Complex.arg (x + i y)` for `atan2(y, x)`).
Integers are unbounded `Int`.  Line numbers refer to `TCanny.cpp`.

Control flow, comparisons and index arithmetic are the same in exact
arithmetic and in `float`.  Where a statement depends on the value a `float`
expression takes, the function is embedded a second time over the rationals
with every operation rounded to binary32 (`f32`) and the conversion to `int`
bounded (`castInt32`); these definitions carry the suffix `32`.
-/

namespace TCanny

/-! ## Loops -/

/-- The loop `for (int i = lo; i < hi; i++) s = body(i, s);`. -/
def forLoop {σ : Type} (lo hi : Int) (body : Int → σ → σ) (s : σ) : σ :=
  (List.range (hi - lo).toNat).foldl (fun acc (k : Nat) => body (lo + (k : Int)) acc) s

/-- The same loop when the body may fail to return (it contains a `while`). -/
def forLoopM {σ : Type} (lo hi : Int) (body : Int → σ → Option σ) (s : σ) : Option σ :=
  (List.range (hi - lo).toNat).foldlM (fun acc (k : Nat) => body (lo + (k : Int)) acc) s

/-! ## The hysteresis work stack (`struct Stack`, `push`, `pop`) -/

/-- The C++ `Stack`: visited map, coordinate array and index of the top. -/
structure Stack where
  map : Int → Nat
  pos : Int → Int × Int
  index : Int

/-- The function `push`: `s.pos[++s.index] = (x, y)`. -/
def push (s : Stack) (x y : Int) : Stack :=
  { s with pos := Function.update s.pos (s.index + 1) (x, y), index := s.index + 1 }

/-- The function `pop`: `return s.pos[s.index--]`. -/
def pop (s : Stack) : (Int × Int) × Stack :=
  (s.pos s.index, { s with index := s.index - 1 })

/-- The constant `UINT8_MAX`. -/
def UINT8_MAX : Nat := 255

/-! ## `hystersis` -/

/-- What `hystersis` mutates: the plane `srcp` and the stack. -/
structure HystState (α : Type) where
  srcp : Int → α
  stack : Stack

section Hyst
variable {α : Type} [LinearOrder α]

/-- The three statements that promote a pixel (lines 211-213 and 223-225):
`srcp[x + y * stride] = FLT_MAX; stack.map[x + y * width] = UINT8_MAX; push(stack, x, y);`. -/
def hystMark (width stride : Int) (fltMax : α) (y x : Int) (st : HystState α) : HystState α :=
  { srcp := Function.update st.srcp (x + y * stride) fltMax
    stack := push { st.stack with
                    map := Function.update st.stack.map (x + y * width) UINT8_MAX } x y }

/-- Body of the innermost loops of `hystersis` (lines 222-226). -/
def hystVisit (width stride : Int) (fltMax t_l : α) (yy xx : Int) (st : HystState α) :
    HystState α :=
  if t_l < st.srcp (xx + yy * stride) ∧ st.stack.map (xx + yy * width) = 0 then
    hystMark width stride fltMax yy xx st
  else st

/-- One iteration of `while (stack.index > -1)` (lines 215-228). -/
def hystBody (width height stride : Int) (fltMax t_l : α) (st : HystState α) : HystState α :=
  let pos := (pop st.stack).1
  let stk := (pop st.stack).2
  let xMin := if pos.1 > 1 then pos.1 - 1 else 1
  let xMax := if pos.1 < width - 2 then pos.1 + 1 else pos.1
  let yMin := if pos.2 > 1 then pos.2 - 1 else 1
  let yMax := if pos.2 < height - 2 then pos.2 + 1 else pos.2
  forLoop yMin (yMax + 1)
    (fun yy s => forLoop xMin (xMax + 1) (fun xx s => hystVisit width stride fltMax t_l yy xx s) s)
    { st with stack := stk }

/-- The loop `while (stack.index > -1) { ... }`, with `fuel` bounding the
number of iterations; `none` when the fuel runs out before the stack is empty. -/
def hystWhile (width height stride : Int) (fltMax t_l : α) :
    Nat → HystState α → Option (HystState α)
  | 0, st => if st.stack.index > -1 then none else some st
  | fuel + 1, st =>
    if st.stack.index > -1 then
      hystWhile width height stride fltMax t_l fuel (hystBody width height stride fltMax t_l st)
    else some st

/-- Body of the seed loops of `hystersis` (lines 209-229). -/
def hystSeed (fuel : Nat) (width height stride : Int) (t_h t_l fltMax : α) (y x : Int)
    (st : HystState α) : Option (HystState α) :=
  if st.srcp (x + y * stride) < t_h ∨ st.stack.map (x + y * width) ≠ 0 then some st
  else
    hystWhile width height stride fltMax t_l fuel (hystMark width stride fltMax y x st)

/-- The function `hystersis` (lines 204-232).  `fltMax` is `FLT_MAX`; `fuel`
bounds the iterations of each run of the `while` loop. -/
def hystersis (fuel : Nat) (srcp : Int → α) (stack : Stack) (width height stride : Int)
    (t_h t_l fltMax : α) : Option (HystState α) :=
  let stack0 : Stack :=
    { stack with
      map := fun i => if 0 ≤ i ∧ i < width * height then 0 else stack.map i
      index := -1 }
  forLoopM 1 (height - 1)
    (fun y s => forLoopM 1 (width - 1)
      (fun x s => hystSeed fuel width height stride t_h t_l fltMax y x s) s)
    { srcp := srcp, stack := stack0 }

end Hyst

/-! ## Numeric primitives -/

/-- The library functions and constants of `<cmath>` / `<cfloat>` the code
calls, over the value type `α`: `std::sqrt`, `std::atan2`, `std::tan`,
`std::exp`, the constant `M_PIF` and the constant `FLT_MAX`. -/
structure FloatOps (α : Type) where
  sqrt : α → α
  atan2 : α → α → α
  tan : α → α
  exp : α → α
  pi : α
  fltMax : α

/-- The expression `n & 1` on a two's-complement `int`: the parity bit (`-1 & 1 = 1`). -/
def and1 (n : Int) : Int := n % 2

/-- The expression `n & 2` on a two's-complement `int`: bit 1, as `0` or `2` (`3 & 2 = 2`,
`-1 & 2 = 2`, `1 & 2 = 0`). -/
def and2 (n : Int) : Int := n % 4 - n % 2

section Numeric
variable {α : Type} [LinearOrderedField α] [FloorRing α]

/-- The cast `static_cast<int>(x)`: truncation toward zero (the result is an unbounded
`Int`; values outside the range of `int` are not modelled). -/
def truncToInt (x : α) : Int := if 0 ≤ x then ⌊x⌋ else ⌈x⌉

/-! ## `gaussianWeights` -/

/-- The local `dia` of `gaussianWeights` (line 60): the kernel length. -/
def gaussianDia (sigma : α) : Int := max (truncToInt (sigma * 3 + 1 / 2)) 1 * 2 + 1

/-- The radius `rad = dia >> 1` that `gaussianWeights` stores (line 61). -/
def gaussianRad (sigma : α) : Int := gaussianDia sigma >>> (1 : Nat)

/-- The weight of tap `k` before normalisation (line 67). -/
def gaussianTap (ops : FloatOps α) (sigma : α) (k : Int) : α :=
  ops.exp (((-(k * k) : Int) : α) / (2 * sigma * sigma))

/-- The function `gaussianWeights` (lines 59-74): the weight array, indexed
from 0, and the radius.  The freshly allocated array starts as zeros here; the
first loop overwrites every cell of `[0, dia)` before the second reads it. -/
def gaussianWeights (ops : FloatOps α) (sigma : α) : (Int → α) × Int :=
  let dia := gaussianDia sigma
  let rad := dia >>> (1 : Nat)
  let acc := forLoop (-rad) (rad + 1)
    (fun k (ws : (Int → α) × α) =>
      let w := gaussianTap ops sigma k
      (Function.update ws.1 (k + rad) w, ws.2 + w))
    (fun _ => 0, 0)
  let weights := forLoop 0 dia
    (fun k (ws : Int → α) => Function.update ws k (ws k / acc.2)) acc.1
  (weights, rad)

/-! ## `genConvV`, `genConvH` -/

/-- The mirrored tap index of `genConvV` (lines 84-87) and `genConvH`
(lines 103-106): one reflection at each end. -/
def reflect (i n : Int) : Int :=
  if i < 0 then -i else if i ≥ n then 2 * (n - 1) - i else i

/-- The function `genConvV` (lines 76-94); `weights` is the array as returned
by `gaussianWeights`, so the shifted `weights[v]` is `weights (rad + v)`. -/
def genConvV (srcp dstp : Int → α) (width height stride rad : Int) (weights : Int → α)
    (offset : α) : Int → α :=
  forLoop 0 height
    (fun y dst => forLoop 0 width
      (fun x dst =>
        let sum := forLoop (-rad) (rad + 1)
          (fun v sum =>
            let yc := reflect (y + v) height
            sum + (srcp (x + yc * stride) + offset) * weights (rad + v)) 0
        Function.update dst (x + y * stride) sum) dst)
    dstp

/-- The function `genConvH` (lines 96-114). -/
def genConvH (srcp dstp : Int → α) (width height stride rad : Int) (weights : Int → α) :
    Int → α :=
  forLoop 0 height
    (fun y dst => forLoop 0 width
      (fun x dst =>
        let sum := forLoop (-rad) (rad + 1)
          (fun v sum =>
            let xc := reflect (x + v) width
            sum + srcp (xc + y * stride) * weights (rad + v)) 0
        Function.update dst (x + y * stride) sum) dst)
    dstp

/-! ## `getBin`, `gmDirImages` -/

/-- The function `getBin<int>` (lines 116-120). -/
def getBin (ops : FloatOps α) (dir : α) (n : Int) : Int :=
  let bin := truncToInt (dir * ((n : α) / ops.pi) + 1 / 2)
  if bin ≥ n then 0 else bin

/-- The array `offTable` (line 161), read at index `b` (`0 ≤ b ≤ 3` is what
`getBin` returns for a direction in `[0, pi]`). -/
def offTable (stride : Int) (b : Int) : Int :=
  [1, -stride + 1, -stride, -stride - 1].getD b.toNat 0

/-- The three buffers of `gmDirImages`: A (`srcp`), B (`gimg`), C (`dimg`). -/
structure GmState (α : Type) where
  srcp : Int → α
  gimg : Int → α
  dimg : Int → α

/-- The partial derivatives `(dx, dy)` at the pixel with index `i` (lines 138-147). -/
def gmGradient (op : Int) (stride : Int) (srcp : Int → α) (i : Int) : α × α :=
  if op = 0 then
    (srcp (i + 1) - srcp (i - 1), srcp (i - stride) - srcp (i + stride))
  else if op = 1 then
    ((srcp (i - stride + 1) + srcp (i + 1) + srcp (i + stride + 1) - srcp (i - stride - 1)
        - srcp (i - 1) - srcp (i + stride - 1)) / 2,
     (srcp (i - stride - 1) + srcp (i - stride) + srcp (i - stride + 1) - srcp (i + stride - 1)
        - srcp (i + stride) - srcp (i + stride + 1)) / 2)
  else
    (srcp (i - stride + 1) + 2 * srcp (i + 1) + srcp (i + stride + 1) - srcp (i - stride - 1)
        - 2 * srcp (i - 1) - srcp (i + stride - 1),
     srcp (i - stride - 1) + 2 * srcp (i - stride) + srcp (i - stride + 1)
        - srcp (i + stride - 1) - 2 * srcp (i + stride) - srcp (i + stride + 1))

/-- The magnitude `std::sqrt(dx * dx + dy * dy)` (line 148). -/
def gmMagnitude (ops : FloatOps α) (d : α × α) : α :=
  ops.sqrt (d.1 * d.1 + d.2 * d.2)

/-- The direction `dr + (dr < 0.f ? M_PIF : 0.f)` with `dr = atan2(dy, dx)`
(lines 151-152). -/
def gmDirection (ops : FloatOps α) (d : α × α) : α :=
  let dr := ops.atan2 d.2 d.1
  dr + (if dr < 0 then ops.pi else 0)

/-- Body of the first pair of loops of `gmDirImages` (lines 137-152). -/
def gmPixel (ops : FloatOps α) (stride mode op : Int) (y x : Int) (st : GmState α) :
    GmState α :=
  let d := gmGradient op stride st.srcp (x + y * stride)
  let st1 := { st with gimg := Function.update st.gimg (x + y * stride) (gmMagnitude ops d) }
  if mode = 1 then st1
  else { st1 with dimg := Function.update st1.dimg (x + y * stride) (gmDirection ops d) }

/-- The test of the coarse variant (lines 169-170): the magnitude is not below
either neighbour along the quantized axis. -/
def nmsCoarsePass (ops : FloatOps α) (stride : Int) (gmn dimg : Int → α) (i : Int) : Prop :=
  let off := offTable stride (getBin ops (dimg i) 4)
  gmn i ≥ max (gmn (i + off)) (gmn (i - off))

/-- The two interpolated values `(val1, val2)` of the fine variant (lines 174-192). -/
def nmsFineVals (ops : FloatOps α) (stride : Int) (gmn dimg : Int → α) (i : Int) : α × α :=
  let dir := dimg i
  let c := truncToInt (dir * (4 / ops.pi))
  if c = 0 ∨ c ≥ 4 then
    let h := ops.tan dir
    ((1 - h) * gmn (i + 1) + h * gmn (i - stride + 1),
     (1 - h) * gmn (i - 1) + h * gmn (i + stride - 1))
  else if c = 1 then
    let w := 1 / ops.tan dir
    ((1 - w) * gmn (i - stride) + w * gmn (i - stride + 1),
     (1 - w) * gmn (i + stride) + w * gmn (i + stride - 1))
  else if c = 2 then
    let w := 1 / ops.tan (ops.pi - dir)
    ((1 - w) * gmn (i - stride) + w * gmn (i - stride - 1),
     (1 - w) * gmn (i + stride) + w * gmn (i + stride + 1))
  else
    let h := ops.tan (ops.pi - dir)
    ((1 - h) * gmn (i - 1) + h * gmn (i - stride - 1),
     (1 - h) * gmn (i + 1) + h * gmn (i + stride + 1))

/-- The test of the fine variant (line 193). -/
def nmsFinePass (ops : FloatOps α) (stride : Int) (gmn dimg : Int → α) (i : Int) : Prop :=
  gmn i ≥ max (nmsFineVals ops stride gmn dimg i).1 (nmsFineVals ops stride gmn dimg i).2

instance (ops : FloatOps α) (stride : Int) (gmn dimg : Int → α) (i : Int) :
    Decidable (nmsCoarsePass ops stride gmn dimg i) := by
  unfold nmsCoarsePass; infer_instance

instance (ops : FloatOps α) (stride : Int) (gmn dimg : Int → α) (i : Int) :
    Decidable (nmsFinePass ops stride gmn dimg i) := by
  unfold nmsFinePass; infer_instance

/-- Body of the second pair of loops of `gmDirImages` (lines 167-196): each
enabled variant leaves the loop body early (`continue`) when its test passes;
otherwise the sentinel `-FLT_MAX` is stored. -/
def nmsPixel (ops : FloatOps α) (stride nms : Int) (y x : Int) (st : GmState α) : GmState α :=
  if and1 nms ≠ 0 ∧ nmsCoarsePass ops stride st.gimg st.dimg (x + y * stride) then st
  else if and2 nms ≠ 0 ∧ nmsFinePass ops stride st.gimg st.dimg (x + y * stride) then st
  else { st with srcp := Function.update st.srcp (x + y * stride) (-ops.fltMax) }

/-- The first part of `gmDirImages` (lines 130-158): clear B and C, fill the
interior of B and C, copy B over A. -/
def gmGradientPass (ops : FloatOps α) (srcp gimg dimg : Int → α)
    (width height stride mode op : Int) : GmState α :=
  let st0 : GmState α :=
    { srcp := srcp
      gimg := fun i => if 0 ≤ i ∧ i < stride * height then 0 else gimg i
      dimg := fun i => if 0 ≤ i ∧ i < stride * height then 0 else dimg i }
  let st1 := forLoop 1 (height - 1)
    (fun y s => forLoop 1 (width - 1) (fun x s => gmPixel ops stride mode op y x s) s) st0
  { st1 with srcp := fun i => if 0 ≤ i ∧ i < stride * height then st1.gimg i else st1.srcp i }

/-- The second part of `gmDirImages` (lines 161-201): non-maximum suppression. -/
def gmSuppressPass (ops : FloatOps α) (width height stride nms : Int) (st : GmState α) :
    GmState α :=
  forLoop 1 (height - 1)
    (fun y s => forLoop 1 (width - 1) (fun x s => nmsPixel ops stride nms y x s) s) st

/-- The function `gmDirImages` (lines 128-202). -/
def gmDirImages (ops : FloatOps α) (srcp gimg dimg : Int → α)
    (width height stride nms mode op : Int) : GmState α :=
  let st := gmGradientPass ops srcp gimg dimg width height stride mode op
  if and1 mode ≠ 0 then st
  else gmSuppressPass ops width height stride nms st

end Numeric

/-! ## Pixels, interior, adjacency -/

/-- Pixel `(x, y)` is not on the one-pixel border of the plane. -/
def interior (width height x y : Int) : Prop :=
  1 ≤ x ∧ x ≤ width - 2 ∧ 1 ≤ y ∧ y ≤ height - 2

instance (width height x y : Int) : Decidable (interior width height x y) := by
  unfold interior; infer_instance

/-- Two distinct pixels that touch by an edge or a corner. -/
def adjacent8 (p q : Int × Int) : Prop :=
  p ≠ q ∧ -1 ≤ q.1 - p.1 ∧ q.1 - p.1 ≤ 1 ∧ -1 ≤ q.2 - p.2 ∧ q.2 - p.2 ≤ 1

instance (p q : Int × Int) : Decidable (adjacent8 p q) := by
  unfold adjacent8; infer_instance

/-- One link of a hysteresis chain: `q` is an interior pixel 8-adjacent to `p`
whose input value is above the low threshold. -/
def hystLink {α : Type} [LinearOrder α] (inp : Int → α) (width height stride : Int) (t_l : α)
    (p q : Int × Int) : Prop :=
  interior width height q.1 q.2 ∧ adjacent8 p q ∧ t_l < inp (q.1 + q.2 * stride)

/-- The flood-fill set: interior pixels that are strong, or joined to a strong
interior pixel by a chain of links. -/
def hystReach {α : Type} [LinearOrder α] (inp : Int → α) (width height stride : Int)
    (t_h t_l : α) (x y : Int) : Prop :=
  interior width height x y ∧
    ∃ sx sy, interior width height sx sy ∧ t_h ≤ inp (sx + sy * stride) ∧
      Relation.ReflTransGen (hystLink inp width height stride t_l) (sx, sy) (x, y)

/-- A pixel is retained: marked in the visited map and set to `FLT_MAX`. -/
def retained {α : Type} (out : HystState α) (width stride : Int) (fltMax : α) (x y : Int) :
    Prop :=
  out.stack.map (x + y * width) = UINT8_MAX ∧ out.srcp (x + y * stride) = fltMax

/-! ## Invariants of the flood fill -/

/-- Number of cells of the visited map (indices `0 .. width*height-1`) that
are not marked. -/
def unmarked (width height : Int) (m : Int → Nat) : Nat :=
  ((Finset.Ico (0 : Int) (width * height)).filter (fun i => m i = 0)).card

/-- Termination measure of the `while` loop: stack entries plus unmarked cells. -/
def hystMeasure {α : Type} (width height : Int) (st : HystState α) : Nat :=
  (st.stack.index + 1).toNat + unmarked width height st.stack.map

/-- The marks of `s` are still marks of `t`. -/
def marksGrow {α : Type} (s t : HystState α) : Prop :=
  ∀ i, s.stack.map i ≠ 0 → t.stack.map i ≠ 0

/-- Invariant of `hystersis` relative to its input plane `inp`.  `ex` names
the pixel that has been popped and whose neighbours are being scanned. -/
structure HystInv {α : Type} [LinearOrder α] (inp : Int → α) (width height stride : Int)
    (t_h t_l fltMax : α) (ex : Int × Int → Prop) (st : HystState α) : Prop where
  sound : ∀ x y, 0 ≤ x → x < width → 0 ≤ y → y < height → st.stack.map (x + y * width) ≠ 0 →
    hystReach inp width height stride t_h t_l x y ∧ st.stack.map (x + y * width) = UINT8_MAX
  buf : ∀ x y, 0 ≤ x → x < width → 0 ≤ y → y < height →
    st.srcp (x + y * stride) =
      if st.stack.map (x + y * width) ≠ 0 then fltMax else inp (x + y * stride)
  stk : ∀ k, 0 ≤ k → k ≤ st.stack.index →
    interior width height (st.stack.pos k).1 (st.stack.pos k).2 ∧
      st.stack.map ((st.stack.pos k).1 + (st.stack.pos k).2 * width) ≠ 0
  closed : ∀ x y, interior width height x y → st.stack.map (x + y * width) ≠ 0 →
    (∃ k, 0 ≤ k ∧ k ≤ st.stack.index ∧ st.stack.pos k = (x, y)) ∨ ex (x, y) ∨
      ∀ x' y', interior width height x' y' →
        -1 ≤ x' - x → x' - x ≤ 1 → -1 ≤ y' - y → y' - y ≤ 1 →
        t_l < inp (x' + y' * stride) → st.stack.map (x' + y' * width) ≠ 0
  idx : -1 ≤ st.stack.index

/-- Every strong interior pixel that the seed scan has passed is marked. -/
def seedsDone {α : Type} [LinearOrder α] (inp : Int → α) (width height stride : Int) (t_h : α)
    (y x : Int) (st : HystState α) : Prop :=
  ∀ x' y', interior width height x' y' → (y' < y ∨ (y' = y ∧ x' < x)) →
    t_h ≤ inp (x' + y' * stride) → st.stack.map (x' + y' * width) ≠ 0

/-! ## Output routines (lines 234-341) -/

/-- The pixel loops every output routine shares:
`for y, for x: dstp[x] = (value for this pixel); ...; dstp += stride`. -/
def writePlane {β : Type} (f : Int → β) (dstp : Int → β) (width height stride : Int) :
    Int → β :=
  forLoop 0 height
    (fun y dst => forLoop 0 width
      (fun x dst => Function.update dst (x + y * stride) (f (x + y * stride))) dst)
    dstp

section Output
variable {α : Type} [LinearOrderedField α] [FloorRing α]

/-- The function `getBin<float>` (lines 122-126). -/
def getBinF (ops : FloatOps α) (dir : α) (n : Int) : α :=
  let bin := dir * ((n : α) / ops.pi)
  if bin > (n : α) then 0 else bin

/-- The function `outputGB<T>` for an integer `T` (lines 234-243).  An output
sample of integer depth is an `Int`; the store into `T` keeps a value of
`[0, peak]` as it is. -/
def outputGB (srcp : Int → α) (dstp : Int → Int) (width height stride peak : Int) :
    Int → Int :=
  writePlane (fun i => min (max (truncToInt (srcp i + 1 / 2)) 0) peak) dstp width height stride

/-- The function `outputGB<float>` (lines 245-254). -/
def outputGBF (srcp dstp : Int → α) (width height stride : Int) (offset lower upper : α) :
    Int → α :=
  writePlane (fun i => min (max (srcp i - offset) lower) upper) dstp width height stride

/-- The function `binarizeCE<T>` for an integer `T` (lines 256-264). -/
def binarizeCE (srcp : Int → α) (dstp : Int → Int) (width height stride : Int) (t_h : α)
    (peak : Int) : Int → Int :=
  writePlane (fun i => if srcp i ≥ t_h then peak else 0) dstp width height stride

/-- The function `binarizeCE<float>` (lines 266-275). -/
def binarizeCEF (srcp dstp : Int → α) (width height stride : Int) (t_h lower upper : α) :
    Int → α :=
  writePlane (fun i => if srcp i ≥ t_h then upper else lower) dstp width height stride

/-- The function `discretizeGM<T>` for an integer `T` (lines 277-286). -/
def discretizeGM (gimg : Int → α) (dstp : Int → Int) (width height stride : Int)
    (magnitude : α) (peak : Int) : Int → Int :=
  writePlane (fun i => min (truncToInt (gimg i * magnitude + 1 / 2)) peak) dstp
    width height stride

/-- The function `discretizeGM<float>` (lines 288-297). -/
def discretizeGMF (gimg dstp : Int → α) (width height stride : Int)
    (magnitude offset upper : α) : Int → α :=
  writePlane (fun i => min (gimg i * magnitude - offset) upper) dstp width height stride

/-- The function `discretizeDM_T<T>` for an integer `T` (lines 299-309). -/
def discretizeDM_T (ops : FloatOps α) (srcp dimg : Int → α) (dstp : Int → Int)
    (width height stride : Int) (t_h : α) (bins : Int) : Int → Int :=
  writePlane (fun i => if srcp i ≥ t_h then getBin ops (dimg i) bins else 0) dstp
    width height stride

/-- The function `discretizeDM_T<float>` (lines 311-321). -/
def discretizeDM_TF (ops : FloatOps α) (srcp dimg dstp : Int → α)
    (width height stride : Int) (t_h : α) (bins : Int) (offset lower : α) : Int → α :=
  writePlane (fun i => if srcp i ≥ t_h then getBinF ops (dimg i) bins - offset else lower) dstp
    width height stride

/-- The function `discretizeDM<T>` for an integer `T` (lines 323-331). -/
def discretizeDM (ops : FloatOps α) (dimg : Int → α) (dstp : Int → Int)
    (width height stride : Int) (bins : Int) : Int → Int :=
  writePlane (fun i => getBin ops (dimg i) bins) dstp width height stride

/-- The function `discretizeDM<float>` (lines 333-341). -/
def discretizeDMF (ops : FloatOps α) (dimg dstp : Int → α)
    (width height stride : Int) (bins : Int) (offset : α) : Int → α :=
  writePlane (fun i => getBinF ops (dimg i) bins - offset) dstp width height stride

end Output

/-! ## Configuration (`TCannyData`, `tcannyCreate`) -/

/-- The sample types of the host (`stInteger`, `stFloat`). -/
inductive SampleType where
  | stInteger
  | stFloat
  deriving DecidableEq

/-- The colour families of the host; the code tests for `cmRGB` only. -/
inductive ColorFamily where
  | cmGray
  | cmRGB
  | cmYUV
  | cmYCoCg
  | cmCompat
  deriving DecidableEq

/-- What the code reads of the clip's `VSVideoInfo`: the result of the host
helper `isConstantFormat(vi)` and four fields of `vi->format`. -/
structure VideoInfo where
  constantFormat : Bool
  sampleType : SampleType
  bitsPerSample : Int
  numPlanes : Int
  colorFamily : ColorFamily

/-- The struct `TCannyData` (lines 31-42); `process`, `lower`, `upper` are the
three-element arrays.  A field the C++ leaves uninitialised (`peak` for float
clips, `lower`/`upper` for integer clips and unprocessed planes) is 0 here; the
code does not read it. -/
structure TCannyData (α : Type) where
  vi : VideoInfo
  sigma : α
  t_h : α
  t_l : α
  gmmax : α
  nms : Int
  mode : Int
  op : Int
  process : Int → Bool
  grad : Int
  bins : Int
  weights : Int → α
  magnitude : α
  peak : Int
  lower : Int → α
  upper : Int → α

/-- The arguments of the filter, as the map `in` holds them: an optional
parameter is `none` when the caller omitted it. -/
structure TCannyArgs (α : Type) where
  clip : VideoInfo
  sigma : Option α
  t_h : Option α
  t_l : Option α
  nms : Option Int
  mode : Option Int
  op : Option Int
  gmmax : Option α
  planes : Option (List Int)

/-- The errors `tcannyCreate` reports through `setError`, in source order:
sigma (line 468), nms (472), mode (476), op (480), gmmax (484), format (493),
plane index out of range (507), plane specified twice (513), malloc failure
of the weights (547). -/
inductive CreateError where
  | sigma
  | nms
  | mode
  | op
  | gmmax
  | format
  | planeRange
  | planeTwice
  | mallocWeights
  deriving DecidableEq

/-- Modelled from the spec: the host's `propGetFloat(in, key, 0, &err)`, which
yields 0 and reports an error when the key is absent.  The result is the
value and `err`. -/
def propGetFloat {α : Type} [Zero α] (v : Option α) : α × Bool :=
  match v with
  | some x => (x, false)
  | none => (0, true)

/-- Modelled from the spec: the host's `propGetInt(in, key, 0, &err)` followed
by `int64ToIntS`, which yields 0 and reports an error when the key is absent. -/
def propGetInt (v : Option Int) : Int × Bool :=
  match v with
  | some x => (x, false)
  | none => (0, true)

/-- Modelled from the spec: the host's `propNumElements(in, key)`, the number
of elements of the key, or -1 when the key is absent. -/
def propNumElements (v : Option (List Int)) : Int :=
  match v with
  | some l => (l.length : Int)
  | none => -1

/-- The loop over the `planes` elements (lines 503-519), on the elements still
to be read and the `process` array so far. -/
def planesLoop (numPlanes : Int) : List Int → (Int → Bool) → Except CreateError (Int → Bool)
  | [], process => .ok process
  | n :: rest, process =>
    if n < 0 ∨ n ≥ numPlanes then .error .planeRange
    else if process n then .error .planeTwice
    else planesLoop numPlanes rest (Function.update process n true)

section Create
variable {α : Type} [LinearOrderedField α] [FloorRing α]

/-- The function `tcannyCreate` (lines 443-557), up to the call of
`createFilter`: the error it reports, or the `TCannyData` it hands to the
filter.  `mallocOk` tells whether the allocation inside `gaussianWeights`
succeeds; `1 << k` is `2 ^ k`. -/
def tcannyCreate (ops : FloatOps α) (args : TCannyArgs α) (mallocOk : Bool) :
    Except CreateError (TCannyData α) :=
  let sigma := if (propGetFloat args.sigma).2 then 3 / 2 else (propGetFloat args.sigma).1
  let t_h := if (propGetFloat args.t_h).2 then 8 else (propGetFloat args.t_h).1
  let t_l := if (propGetFloat args.t_l).2 then 1 else (propGetFloat args.t_l).1
  let nms := if (propGetInt args.nms).2 then 3 else (propGetInt args.nms).1
  let mode := (propGetInt args.mode).1
  let op := if (propGetInt args.op).2 then 1 else (propGetInt args.op).1
  let gmmax := if (propGetFloat args.gmmax).2 then 50 else (propGetFloat args.gmmax).1
  let vi := args.clip
  if sigma ≤ 0 then .error .sigma
  else if nms < 0 ∨ nms > 3 then .error .nms
  else if mode < -1 ∨ mode > 3 then .error .mode
  else if op < 0 ∨ op > 2 then .error .op
  else if gmmax < 1 then .error .gmmax
  else if vi.constantFormat = false ∨
      (vi.sampleType = SampleType.stInteger ∧ vi.bitsPerSample > 16) ∨
      (vi.sampleType = SampleType.stFloat ∧ vi.bitsPerSample ≠ 32) then .error .format
  else
    let m := propNumElements args.planes
    let process0 : Int → Bool := fun i => if 0 ≤ i ∧ i < 3 then decide (m ≤ 0) else false
    match planesLoop vi.numPlanes (args.planes.getD []) process0 with
    | .error e => .error e
    | .ok process =>
      let isInt := vi.sampleType = SampleType.stInteger
      let scale : α := ((2 ^ (vi.bitsPerSample - 8).toNat : Int) : α)
      let bins : Int := if isInt then 2 ^ vi.bitsPerSample.toNat else 1
      let flat := fun plane : Int => plane = 0 ∨ vi.colorFamily = ColorFamily.cmRGB
      let written := fun plane : Int =>
        ¬ isInt ∧ 0 ≤ plane ∧ plane < vi.numPlanes ∧ process plane = true
      if mallocOk = false then .error .mallocWeights
      else
        .ok
          { vi := vi
            sigma := sigma
            t_h := if isInt then t_h * scale else t_h / 255
            t_l := if isInt then t_l * scale else t_l / 255
            gmmax := gmmax
            nms := nms
            mode := mode
            op := op
            process := process
            grad := (gaussianWeights ops sigma).2
            bins := bins
            weights := (gaussianWeights ops sigma).1
            magnitude := 255 / gmmax
            peak := if isInt then bins - 1 else 0
            lower := fun plane => if written plane then (if flat plane then 0 else -(1 / 2)) else 0
            upper := fun plane => if written plane then (if flat plane then 1 else 1 / 2) else 0 }

/-! ## The plane loop of `TCanny<T>` (lines 343-375) -/

/-- The working buffers `fa[0]`, `fa[1]`, `fa[2]` and the stack that
`tcannyGetFrame` allocates and `TCanny<T>` receives. -/
structure Buffers (α : Type) where
  fa0 : Int → α
  fa1 : Int → α
  fa2 : Int → α
  stack : Stack

/-- The local `offset` of the plane loop (line 352). -/
def planeOffset (vi : VideoInfo) (plane : Int) : α :=
  if vi.sampleType = SampleType.stInteger ∨ plane = 0 ∨ vi.colorFamily = ColorFamily.cmRGB
  then 0 else 1 / 2

/-- Lines 354-355: the smoothed plane, `genConvV` into `fa[1]` then `genConvH`
into `fa[0]`. -/
def tcannySmooth (d : TCannyData α) (srcp : Int → α) (b : Buffers α)
    (width height stride : Int) (offset : α) : Int → α :=
  genConvH (genConvV srcp b.fa1 width height stride d.grad d.weights offset) b.fa0
    width height stride d.grad d.weights

/-- Lines 354-358: the buffers A, B, C after smoothing and, unless the mode is
-1, `gmDirImages`. -/
def tcannyGradient (ops : FloatOps α) (d : TCannyData α) (srcp : Int → α) (b : Buffers α)
    (width height stride : Int) (offset : α) : GmState α :=
  if d.mode ≠ -1 then
    gmDirImages ops (tcannySmooth d srcp b width height stride offset)
      (genConvV srcp b.fa1 width height stride d.grad d.weights offset) b.fa2
      width height stride d.nms d.mode d.op
  else
    { srcp := tcannySmooth d srcp b width height stride offset
      gimg := genConvV srcp b.fa1 width height stride d.grad d.weights offset
      dimg := b.fa2 }

/-- Lines 354-361: the buffers after smoothing, gradient and, when
`!(d->mode & 1)`, hysteresis. -/
def tcannyStages (fuel : Nat) (ops : FloatOps α) (d : TCannyData α) (srcp : Int → α)
    (b : Buffers α) (width height stride : Int) (offset : α) : Option (Buffers α) :=
  let g := tcannyGradient ops d srcp b width height stride offset
  if and1 d.mode = 0 then
    (hystersis fuel g.srcp b.stack width height stride d.t_h d.t_l ops.fltMax).map
      (fun h => { fa0 := h.srcp, fa1 := g.gimg, fa2 := g.dimg, stack := h.stack })
  else some { fa0 := g.srcp, fa1 := g.gimg, fa2 := g.dimg, stack := b.stack }

/-- Lines 363-372 for an integer `T`: the output routine of the mode. -/
def tcannyOutput (ops : FloatOps α) (d : TCannyData α) (b : Buffers α) (dstp : Int → Int)
    (width height stride : Int) : Int → Int :=
  if d.mode = -1 then outputGB b.fa0 dstp width height stride d.peak
  else if d.mode = 0 then binarizeCE b.fa0 dstp width height stride d.t_h d.peak
  else if d.mode = 1 then discretizeGM b.fa1 dstp width height stride d.magnitude d.peak
  else if d.mode = 2 then discretizeDM_T ops b.fa0 b.fa2 dstp width height stride d.t_h d.bins
  else discretizeDM ops b.fa2 dstp width height stride d.bins

/-- Lines 363-372 for `T = float`. -/
def tcannyOutputF (ops : FloatOps α) (d : TCannyData α) (plane : Int) (b : Buffers α)
    (dstp : Int → α) (width height stride : Int) (offset : α) : Int → α :=
  if d.mode = -1 then
    outputGBF b.fa0 dstp width height stride offset (d.lower plane) (d.upper plane)
  else if d.mode = 0 then
    binarizeCEF b.fa0 dstp width height stride d.t_h (d.lower plane) (d.upper plane)
  else if d.mode = 1 then
    discretizeGMF b.fa1 dstp width height stride d.magnitude offset (d.upper plane)
  else if d.mode = 2 then
    discretizeDM_TF ops b.fa0 b.fa2 dstp width height stride d.t_h d.bins offset (d.lower plane)
  else discretizeDMF ops b.fa2 dstp width height stride d.bins offset

/-- The body of the plane loop of `TCanny<T>` (lines 347-372) for an integer
`T` (`uint8_t` or `uint16_t`): the destination plane.  `srcp` holds the integer
samples; `fuel` bounds the `while` loop of `hystersis`. -/
def tcannyPlane (fuel : Nat) (ops : FloatOps α) (d : TCannyData α) (plane : Int)
    (srcp : Int → Int) (b : Buffers α) (dstp : Int → Int) (width height stride : Int) :
    Option (Int → Int) :=
  (tcannyStages fuel ops d (fun i => ((srcp i : Int) : α)) b width height stride
    (planeOffset d.vi plane)).map
    (fun b' => tcannyOutput ops d b' dstp width height stride)

/-- The body of the plane loop of `TCanny<T>` (lines 347-372) for `T = float`. -/
def tcannyPlaneF (fuel : Nat) (ops : FloatOps α) (d : TCannyData α) (plane : Int)
    (srcp : Int → α) (b : Buffers α) (dstp : Int → α) (width height stride : Int) :
    Option (Int → α) :=
  (tcannyStages fuel ops d srcp b width height stride (planeOffset d.vi plane)).map
    (fun b' => tcannyOutputF ops d plane b' dstp width height stride (planeOffset d.vi plane))

end Create


/-- The tests that make `tcannyCreate` return early (lines 467-519), on the
values it has read: an omitted argument reads as its default (as 0 for
`mode`, which has none). -/
def createInvalid {α : Type} [LinearOrderedField α] (args : TCannyArgs α) : Prop :=
  args.sigma.getD (3 / 2) ≤ 0 ∨
  (args.nms.getD 3 < 0 ∨ args.nms.getD 3 > 3) ∨
  (args.mode.getD 0 < -1 ∨ args.mode.getD 0 > 3) ∨
  (args.op.getD 1 < 0 ∨ args.op.getD 1 > 2) ∨
  args.gmmax.getD 50 < 1 ∨
  (args.clip.constantFormat = false ∨
    (args.clip.sampleType = SampleType.stInteger ∧ args.clip.bitsPerSample > 16) ∨
    (args.clip.sampleType = SampleType.stFloat ∧ args.clip.bitsPerSample ≠ 32)) ∨
  (∃ n ∈ args.planes.getD [], n < 0 ∨ n ≥ args.clip.numPlanes) ∨
  ¬ (args.planes.getD []).Nodup

/-- The rejection condition in the spec's words, on the arguments as given:
a sigma that is not positive, `nms` outside 0..3, `mode` outside -1..3, `op`
outside 0..2, `gmmax` below 1, a clip format that is not constant 8-16 bit
integer or 32 bit float, a listed plane index outside `[0, numPlanes)`, or an
index listed twice. -/
def specInvalid {α : Type} [LinearOrderedField α] (args : TCannyArgs α) : Prop :=
  (∃ s, args.sigma = some s ∧ s ≤ 0) ∨
  (∃ n, args.nms = some n ∧ ¬ (0 ≤ n ∧ n ≤ 3)) ∨
  (∃ m, args.mode = some m ∧ ¬ (-1 ≤ m ∧ m ≤ 3)) ∨
  (∃ o, args.op = some o ∧ ¬ (0 ≤ o ∧ o ≤ 2)) ∨
  (∃ g, args.gmmax = some g ∧ g < 1) ∨
  ¬ (args.clip.constantFormat = true ∧
    ((args.clip.sampleType = SampleType.stInteger ∧
        8 ≤ args.clip.bitsPerSample ∧ args.clip.bitsPerSample ≤ 16) ∨
      (args.clip.sampleType = SampleType.stFloat ∧ args.clip.bitsPerSample = 32))) ∨
  (∃ l, args.planes = some l ∧
    ((∃ n ∈ l, ¬ (0 ≤ n ∧ n < args.clip.numPlanes)) ∨ ¬ l.Nodup))


/-! ## `hystersis` with the stack accesses checked

The same statements as `hystersis`, run on a pair of the state and the number
of `push` calls so far.  A step returns `none` when it would write `stack.pos`
outside `[0, cap)` (`cap` is the number of pairs `tcannyGetFrame` allocates,
lines 404-407), when `pop` would read outside `[0, cap)` (an empty stack has
index -1), or when a seed pixel is examined with a stack that is not empty. -/

section HystChecked
variable {α : Type} [LinearOrder α]

/-- The statements of `hystMark`, with the index `push` writes at checked. -/
def hystMarkC (cap width stride : Int) (fltMax : α) (y x : Int) (r : HystState α × Nat) :
    Option (HystState α × Nat) :=
  if 0 ≤ r.1.stack.index + 1 ∧ r.1.stack.index + 1 < cap then
    some (hystMark width stride fltMax y x r.1, r.2 + 1)
  else none

/-- The statements of `hystVisit` (lines 222-226), with the push checked. -/
def hystVisitC (cap width stride : Int) (fltMax t_l : α) (yy xx : Int)
    (r : HystState α × Nat) : Option (HystState α × Nat) :=
  if t_l < r.1.srcp (xx + yy * stride) ∧ r.1.stack.map (xx + yy * width) = 0 then
    hystMarkC cap width stride fltMax yy xx r
  else some r

/-- One iteration of the `while` loop (lines 215-228), with the index `pop`
reads at checked. -/
def hystBodyC (cap width height stride : Int) (fltMax t_l : α) (r : HystState α × Nat) :
    Option (HystState α × Nat) :=
  if 0 ≤ r.1.stack.index ∧ r.1.stack.index < cap then
    let pos := (pop r.1.stack).1
    let stk := (pop r.1.stack).2
    let xMin := if pos.1 > 1 then pos.1 - 1 else 1
    let xMax := if pos.1 < width - 2 then pos.1 + 1 else pos.1
    let yMin := if pos.2 > 1 then pos.2 - 1 else 1
    let yMax := if pos.2 < height - 2 then pos.2 + 1 else pos.2
    forLoopM yMin (yMax + 1)
      (fun yy s => forLoopM xMin (xMax + 1)
        (fun xx s => hystVisitC cap width stride fltMax t_l yy xx s) s)
      ({ r.1 with stack := stk }, r.2)
  else none

/-- The loop `while (stack.index > -1) { ... }` over the checked body. -/
def hystWhileC (cap width height stride : Int) (fltMax t_l : α) :
    Nat → HystState α × Nat → Option (HystState α × Nat)
  | 0, r => if r.1.stack.index > -1 then none else some r
  | fuel + 1, r =>
    if r.1.stack.index > -1 then
      (hystBodyC cap width height stride fltMax t_l r).bind
        (hystWhileC cap width height stride fltMax t_l fuel)
    else some r

/-- Body of the seed loops (lines 209-229), checked: the stack is empty when
the pixel is examined. -/
def hystSeedC (cap : Int) (fuel : Nat) (width height stride : Int) (t_h t_l fltMax : α)
    (y x : Int) (r : HystState α × Nat) : Option (HystState α × Nat) :=
  if r.1.stack.index ≠ -1 then none
  else if r.1.srcp (x + y * stride) < t_h ∨ r.1.stack.map (x + y * width) ≠ 0 then some r
  else
    (hystMarkC cap width stride fltMax y x r).bind
      (hystWhileC cap width height stride fltMax t_l fuel)

/-- The function `hystersis` (lines 204-232) with the stack accesses checked
and the pushes counted from 0. -/
def hystersisC (cap : Int) (fuel : Nat) (srcp : Int → α) (stack : Stack)
    (width height stride : Int) (t_h t_l fltMax : α) : Option (HystState α × Nat) :=
  let stack0 : Stack :=
    { stack with
      map := fun i => if 0 ≤ i ∧ i < width * height then 0 else stack.map i
      index := -1 }
  forLoopM 1 (height - 1)
    (fun y s => forLoopM 1 (width - 1)
      (fun x s => hystSeedC cap fuel width height stride t_h t_l fltMax y x s) s)
    ({ srcp := srcp, stack := stack0 }, 0)

/-- Invariant of the checked run after `m` pushes: every stack entry is an
interior pixel, the pushes and the unmarked cells of the visited map add up to
`width * height`, and the stack holds at most `m` entries. -/
structure StackInv (width height : Int) (st : HystState α) (m : Nat) : Prop where
  idx : -1 ≤ st.stack.index
  stk : ∀ k, 0 ≤ k → k ≤ st.stack.index →
    interior width height (st.stack.pos k).1 (st.stack.pos k).2
  cnt : m + unmarked width height st.stack.map = (width * height).toNat
  depth : st.stack.index + 1 ≤ (m : Int)

end HystChecked


/-! ## The fine variant, by parts -/

section FineParts
variable {α : Type} [LinearOrderedField α] [FloorRing α]

end FineParts


/-! ## Binary32 rounding

The source computes in `float`.  A finite binary32 value is a rational, and
each of `+ - * /` and the conversion from `double` returns the nearest
binary32 value of the exact result, ties to even: that is `f32`.  Overflow to
infinity and NaN are not modelled (`f32` keeps rounding to 24 bits above
`FLT_MAX`).  The constant `M_PIF` is the binary32 value of pi, which lies
above pi. -/

/-- The nearest integer, ties to the even one. -/
def roundEven (x : ℚ) : Int :=
  let f := ⌊x⌋
  let r := x - (f : ℚ)
  if r < 1 / 2 then f else if 1 / 2 < r then f + 1 else if f % 2 = 0 then f else f + 1

/-- The exponent of the binade of `q`: `floor (log2 |q|)`, and -126 for the
subnormal range. -/
def f32Exp (q : ℚ) : Int := max (Int.log 2 |q|) (-126)

/-- The binary32 value nearest to `q` (24 significant bits, ties to even). -/
def f32 (q : ℚ) : ℚ := (roundEven (q / 2 ^ (f32Exp q - 23)) : ℚ) * 2 ^ (f32Exp q - 23)

/-- The conversion `static_cast<int>(x)` of a float to a 32-bit `int`:
truncation toward zero.  Outside `[-2^31, 2^31)` the C++ conversion is
undefined; the value taken here is the one the x86 conversion returns,
`INT_MIN`. -/
def castInt32 (x : ℚ) : Int :=
  if -(2 ^ 31) ≤ truncToInt x ∧ truncToInt x < 2 ^ 31 then truncToInt x else -(2 ^ 31)

/-- The local `dia` of `gaussianWeights` (line 60) in binary32:
`std::max(static_cast<int>(sigma * 3.f + 0.5f), 1) * 2 + 1`. -/
def gaussianDia32 (sigma : ℚ) : Int :=
  max (castInt32 (f32 (f32 (sigma * 3) + 1 / 2))) 1 * 2 + 1

/-- The radius `rad = dia >> 1` that `gaussianWeights` stores (line 61), in
binary32. -/
def gaussianRad32 (sigma : ℚ) : Int := gaussianDia32 sigma >>> (1 : Nat)


/-- The conversions `static_cast<float>` of lines 447-465: `propGetFloat`
returns a `double`, and `sigma`, `t_h`, `t_l` and `gmmax` are stored as
`float`. -/
def castFloatArgs (args : TCannyArgs ℚ) : TCannyArgs ℚ :=
  { args with
    sigma := args.sigma.map f32
    t_h := args.t_h.map f32
    t_l := args.t_l.map f32
    gmmax := args.gmmax.map f32 }

/-- The function `tcannyCreate` on the arguments as the caller passes them
(the float parameters are doubles): `tcannyCreate` after the conversions to
`float`, so that the tests of lines 467-487 see the binary32 values.  The
fields derived after the tests (weights, magnitude, scaled thresholds) are
those of `tcannyCreate`, in exact arithmetic. -/
def tcannyCreate32 (ops : FloatOps ℚ) (args : TCannyArgs ℚ) (mallocOk : Bool) :
    Except CreateError (TCannyData ℚ) :=
  tcannyCreate ops (castFloatArgs args) mallocOk

/-- The inputs the program rejects, on the arguments as passed: a sigma of at
most `2^-150` (the doubles whose binary32 value is not positive), `nms`
outside 0..3, `mode` outside -1..3, `op` outside 0..2, a `gmmax` below
`1 - 2^-25` (the doubles whose binary32 value is below 1), a clip format that
is not constant, is integer with more than 16 bits or is float with other than
32 bits, a listed plane index outside `[0, numPlanes)`, or an index listed
twice. -/
def invalidInput32 (args : TCannyArgs ℚ) : Prop :=
  (∃ s, args.sigma = some s ∧ s ≤ 2 ^ (-150 : Int)) ∨
  (∃ n, args.nms = some n ∧ ¬ (0 ≤ n ∧ n ≤ 3)) ∨
  (∃ m, args.mode = some m ∧ ¬ (-1 ≤ m ∧ m ≤ 3)) ∨
  (∃ o, args.op = some o ∧ ¬ (0 ≤ o ∧ o ≤ 2)) ∨
  (∃ g, args.gmmax = some g ∧ g < 1 - 2 ^ (-25 : Int)) ∨
  (args.clip.constantFormat = false ∨
    (args.clip.sampleType = SampleType.stInteger ∧ args.clip.bitsPerSample > 16) ∨
    (args.clip.sampleType = SampleType.stFloat ∧ args.clip.bitsPerSample ≠ 32)) ∨
  (∃ l, args.planes = some l ∧
    ((∃ n ∈ l, ¬ (0 ≤ n ∧ n < args.clip.numPlanes)) ∨ ¬ l.Nodup))


theorem forLoop_empty {σ : Type} (lo hi : Int) (body : Int → σ → σ) (s : σ) (h : hi ≤ lo) :
    forLoop lo hi body s = s := by
  unfold forLoop
  have : (hi - lo).toNat = 0 := by omega
  simp [this]

theorem forLoop_induct {σ : Type} (P : Int → σ → Prop) (lo hi : Int) (body : Int → σ → σ)
    (s : σ) (h0 : P lo s)
    (hstep : ∀ i t, lo ≤ i → i < hi → P i t → P (i + 1) (body i t)) :
    P (max lo hi) (forLoop lo hi body s) := by
  rcases lt_or_le hi lo with hlt | hle
  · rw [forLoop_empty lo hi body s (by omega), max_eq_left (by omega)]; exact h0
  rw [max_eq_right hle]
  unfold forLoop
  have key : ∀ n : Nat, lo + (n : Int) ≤ hi →
      P (lo + (n : Int))
        ((List.range n).foldl (fun acc (k : Nat) => body (lo + (k : Int)) acc) s) := by
    intro n
    induction n with
    | zero => intro _; simpa using h0
    | succ n ih =>
      intro hn
      have hn' : lo + (n : Int) ≤ hi := by push_cast at hn; omega
      have h := hstep (lo + (n : Int)) _ (by omega) (by push_cast at hn; omega) (ih hn')
      rw [List.range_succ, List.foldl_append]
      simp only [List.foldl_cons, List.foldl_nil]
      have e : lo + ((n + 1 : Nat) : Int) = lo + (n : Int) + 1 := by push_cast; ring
      rw [e]; exact h
  have := key (hi - lo).toNat (by omega)
  have e : lo + ((hi - lo).toNat : Int) = hi := by omega
  rw [e] at this; exact this

theorem forLoopM_empty {σ : Type} (lo hi : Int) (body : Int → σ → Option σ) (s : σ)
    (h : hi ≤ lo) : forLoopM lo hi body s = some s := by
  unfold forLoopM
  have : (hi - lo).toNat = 0 := by omega
  simp [this]

theorem forLoopM_induct {σ : Type} (P : Int → σ → Prop) (lo hi : Int)
    (body : Int → σ → Option σ) (s : σ) (h0 : P lo s)
    (hstep : ∀ i t, lo ≤ i → i < hi → P i t → ∃ t', body i t = some t' ∧ P (i + 1) t') :
    ∃ t, forLoopM lo hi body s = some t ∧ P (max lo hi) t := by
  rcases lt_or_le hi lo with hlt | hle
  · rw [forLoopM_empty lo hi body s (by omega), max_eq_left (by omega)]; exact ⟨s, rfl, h0⟩
  rw [max_eq_right hle]
  unfold forLoopM
  have key : ∀ n : Nat, lo + (n : Int) ≤ hi →
      ∃ t, (List.range n).foldlM (fun acc (k : Nat) => body (lo + (k : Int)) acc) s = some t ∧
        P (lo + (n : Int)) t := by
    intro n
    induction n with
    | zero => intro _; exact ⟨s, by simp, by simpa using h0⟩
    | succ n ih =>
      intro hn
      have hn' : lo + (n : Int) ≤ hi := by push_cast at hn; omega
      obtain ⟨t, ht, hP⟩ := ih hn'
      obtain ⟨t', ht', hP'⟩ := hstep (lo + (n : Int)) t (by omega) (by push_cast at hn; omega) hP
      refine ⟨t', ?_, ?_⟩
      · rw [List.range_succ, List.foldlM_append, ht]
        simp [ht']
      · have e : lo + ((n + 1 : Nat) : Int) = lo + (n : Int) + 1 := by push_cast; ring
        rw [e]; exact hP'
  have := key (hi - lo).toNat (by omega)
  have e : lo + ((hi - lo).toNat : Int) = hi := by omega
  rw [e] at this; exact this

theorem forLoop_preserve {σ : Type} (P : σ → Prop) (lo hi : Int) (body : Int → σ → σ) (s : σ)
    (h0 : P s) (hstep : ∀ i t, lo ≤ i → i < hi → P t → P (body i t)) :
    P (forLoop lo hi body s) :=
  forLoop_induct (fun _ t => P t) lo hi body s h0 hstep

/-- A loop in which iteration `i0` establishes `Q` from `Q0`, and no other
iteration disturbs `Q0` or `Q`; `P` is a property every iteration keeps. -/
theorem forLoop_cell {σ : Type} (P Q0 Q : σ → Prop) (lo hi i0 : Int) (body : Int → σ → σ)
    (s : σ) (hlo : lo ≤ i0) (hhi : i0 < hi)
    (hP : ∀ i t, lo ≤ i → i < hi → P t → P (body i t))
    (hQ0 : ∀ i t, lo ≤ i → i < hi → i ≠ i0 → P t → Q0 t → Q0 (body i t))
    (hstep : ∀ t, P t → Q0 t → Q (body i0 t))
    (hQ : ∀ i t, lo ≤ i → i < hi → i ≠ i0 → P t → Q t → Q (body i t))
    (h0 : P s) (h00 : Q0 s) :
    P (forLoop lo hi body s) ∧ Q (forLoop lo hi body s) := by
  have key := forLoop_induct (fun i t => P t ∧ (i ≤ i0 → Q0 t) ∧ (i0 < i → Q t))
    lo hi body s ⟨h0, fun _ => h00, fun h => by omega⟩
    (by
      intro i t h1 h2 ⟨a, b, c⟩
      refine ⟨hP i t h1 h2 a, ?_, ?_⟩
      · intro h3
        exact hQ0 i t h1 h2 (by omega) a (b (by omega))
      · intro h3
        by_cases e : i = i0
        · subst e; exact hstep t a (b (le_refl _))
        · exact hQ i t h1 h2 e a (c (by omega)))
  rw [max_eq_right (by omega)] at key
  exact ⟨key.1, key.2.2 hhi⟩

theorem forLoop2_preserve {σ : Type} (P : σ → Prop) (ylo yhi xlo xhi : Int)
    (body : Int → Int → σ → σ) (s : σ) (h0 : P s)
    (hstep : ∀ y x t, ylo ≤ y → y < yhi → xlo ≤ x → x < xhi → P t → P (body y x t)) :
    P (forLoop ylo yhi (fun y t => forLoop xlo xhi (fun x t => body y x t) t) s) :=
  forLoop_preserve P ylo yhi _ s h0 (fun y t h1 h2 h3 =>
    forLoop_preserve P xlo xhi _ t h3 (fun x t h4 h5 h6 => hstep y x t h1 h2 h4 h5 h6))

/-- The two-dimensional form of `forLoop_cell`. -/
theorem forLoop2_cell {σ : Type} (P Q0 Q : σ → Prop) (ylo yhi xlo xhi y0 x0 : Int)
    (body : Int → Int → σ → σ) (s : σ)
    (hy : ylo ≤ y0 ∧ y0 < yhi) (hx : xlo ≤ x0 ∧ x0 < xhi)
    (hP : ∀ y x t, ylo ≤ y → y < yhi → xlo ≤ x → x < xhi → P t → P (body y x t))
    (hQ0 : ∀ y x t, ylo ≤ y → y < yhi → xlo ≤ x → x < xhi → (y ≠ y0 ∨ x ≠ x0) →
      P t → Q0 t → Q0 (body y x t))
    (hstep : ∀ t, P t → Q0 t → Q (body y0 x0 t))
    (hQ : ∀ y x t, ylo ≤ y → y < yhi → xlo ≤ x → x < xhi → (y ≠ y0 ∨ x ≠ x0) →
      P t → Q t → Q (body y x t))
    (h0 : P s) (h00 : Q0 s) :
    P (forLoop ylo yhi (fun y t => forLoop xlo xhi (fun x t => body y x t) t) s) ∧
      Q (forLoop ylo yhi (fun y t => forLoop xlo xhi (fun x t => body y x t) t) s) := by
  refine forLoop_cell P Q0 Q ylo yhi y0 _ s hy.1 hy.2 ?_ ?_ ?_ ?_ h0 h00
  · intro y t h1 h2 h3
    exact forLoop_preserve P xlo xhi _ t h3 (fun x t h4 h5 h6 => hP y x t h1 h2 h4 h5 h6)
  · intro y t h1 h2 hne h3 h4
    exact (forLoop_preserve (fun t => P t ∧ Q0 t) xlo xhi _ t ⟨h3, h4⟩
      (fun x t h5 h6 h7 =>
        ⟨hP y x t h1 h2 h5 h6 h7.1, hQ0 y x t h1 h2 h5 h6 (Or.inl hne) h7.1 h7.2⟩)).2
  · intro t h3 h4
    exact (forLoop_cell P Q0 Q xlo xhi x0 _ t hx.1 hx.2
      (fun x t h5 h6 h7 => hP y0 x t hy.1 hy.2 h5 h6 h7)
      (fun x t h5 h6 hne h7 h8 => hQ0 y0 x t hy.1 hy.2 h5 h6 (Or.inr hne) h7 h8)
      hstep
      (fun x t h5 h6 hne h7 h8 => hQ y0 x t hy.1 hy.2 h5 h6 (Or.inr hne) h7 h8)
      h3 h4).2
  · intro y t h1 h2 hne h3 h4
    exact (forLoop_preserve (fun t => P t ∧ Q t) xlo xhi _ t ⟨h3, h4⟩
      (fun x t h5 h6 h7 =>
        ⟨hP y x t h1 h2 h5 h6 h7.1, hQ y x t h1 h2 h5 h6 (Or.inl hne) h7.1 h7.2⟩)).2

/-- The value a loop of additions leaves in its accumulator. -/
theorem forLoop_sum {β : Type} [AddCommMonoid β] (lo hi : Int) (f : Int → β) (a : β) :
    forLoop lo hi (fun v acc => acc + f v) a =
      a + ∑ k in Finset.range (hi - lo).toNat, f (lo + (k : Int)) := by
  unfold forLoop
  generalize (hi - lo).toNat = n
  induction n with
  | zero => simp
  | succ n ih =>
    rw [List.range_succ, List.foldl_append, ih, Finset.sum_range_succ]
    simp only [List.foldl_cons, List.foldl_nil]
    rw [add_assoc]

/-! ## Index arithmetic -/

theorem idx_inj (w x y x' y' : Int) (hx : 0 ≤ x) (hxw : x < w) (hx' : 0 ≤ x') (hxw' : x' < w)
    (h : x + y * w = x' + y' * w) : x = x' ∧ y = y' := by
  have hy : y = y' := by
    rcases lt_trichotomy y y' with hlt | heq | hgt
    · exfalso
      have : (y' - y) * w ≥ 1 * w := by
        apply mul_le_mul_of_nonneg_right <;> omega
      have e : (y' - y) * w = y' * w - y * w := by ring
      omega
    · exact heq
    · exfalso
      have : (y - y') * w ≥ 1 * w := by
        apply mul_le_mul_of_nonneg_right <;> omega
      have e : (y - y') * w = y * w - y' * w := by ring
      omega
  subst hy
  exact ⟨by omega, rfl⟩

theorem idx_bound (w h x y : Int) (hx : 0 ≤ x) (hxw : x < w) (hy : 0 ≤ y) (hyh : y < h) :
    0 ≤ x + y * w ∧ x + y * w < w * h := by
  have h1 : 0 ≤ y * w := mul_nonneg hy (by omega)
  have h2 : (y + 1) * w ≤ h * w := by
    apply mul_le_mul_of_nonneg_right <;> omega
  have e1 : (y + 1) * w = y * w + w := by ring
  have e2 : h * w = w * h := by ring
  omega

/-! ## The visited map -/

theorem unmarked_le (width height : Int) (m : Int → Nat) :
    unmarked width height m ≤ (width * height).toNat := by
  unfold unmarked
  calc ((Finset.Ico (0 : Int) (width * height)).filter (fun i => m i = 0)).card
      ≤ (Finset.Ico (0 : Int) (width * height)).card := Finset.card_filter_le _ _
    _ = (width * height).toNat := by simp

theorem unmarked_update (width height : Int) (m : Int → Nat) (i : Int) (v : Nat)
    (h0 : 0 ≤ i) (h1 : i < width * height) (hm : m i = 0) (hv : v ≠ 0) :
    unmarked width height (Function.update m i v) + 1 = unmarked width height m := by
  unfold unmarked
  have hmem : i ∈ (Finset.Ico (0 : Int) (width * height)).filter (fun j => m j = 0) := by
    simp [h0, h1, hm]
  have e : (Finset.Ico (0 : Int) (width * height)).filter
        (fun j => Function.update m i v j = 0) =
      ((Finset.Ico (0 : Int) (width * height)).filter (fun j => m j = 0)).erase i := by
    ext j
    by_cases hj : j = i
    · subst hj; simp [hv]
    · simp [Function.update_noteq hj, hj]
  rw [e, Finset.card_erase_of_mem hmem]
  have : 0 < ((Finset.Ico (0 : Int) (width * height)).filter (fun j => m j = 0)).card :=
    Finset.card_pos.mpr ⟨i, hmem⟩
  omega

/-! ## Correctness of the flood fill -/

section HystProof
variable {α : Type} [LinearOrder α] {inp : Int → α} {width height stride : Int}
  {t_h t_l fltMax : α}

theorem interior_in_plane {x y : Int} (h : interior width height x y) :
    0 ≤ x ∧ x < width ∧ 0 ≤ y ∧ y < height := by
  unfold interior at h; omega

theorem hystMark_inv (hs : width ≤ stride) {ex : Int × Int → Prop} {st : HystState α}
    (h : HystInv inp width height stride t_h t_l fltMax ex st)
    (xx yy : Int) (hq : interior width height xx yy)
    (hm0 : st.stack.map (xx + yy * width) = 0)
    (hreach : hystReach inp width height stride t_h t_l xx yy) :
    HystInv inp width height stride t_h t_l fltMax ex (hystMark width stride fltMax yy xx st) ∧
      hystMeasure width height (hystMark width stride fltMax yy xx st) =
        hystMeasure width height st ∧
      marksGrow st (hystMark width stride fltMax yy xx st) ∧
      (hystMark width stride fltMax yy xx st).stack.map (xx + yy * width) ≠ 0 ∧
      (hystMark width stride fltMax yy xx st).stack.index = st.stack.index + 1 := by
  obtain ⟨hq0, hq1, hq2, hq3⟩ := interior_in_plane hq
  have hidx := h.idx
  have hmono : ∀ i, st.stack.map i ≠ 0 →
      Function.update st.stack.map (xx + yy * width) UINT8_MAX i ≠ 0 := by
    intro i hi
    by_cases e : i = xx + yy * width
    · subst e; exact absurd hm0 hi
    · rw [Function.update_noteq e]; exact hi
  have hU : UINT8_MAX ≠ 0 := by decide
  unfold hystMark
  refine ⟨⟨?_, ?_, ?_, ?_, ?_⟩, ?_, ?_, ?_, ?_⟩
  · intro x y hx0 hx1' hy0 hy1' hm
    simp only [push] at hm ⊢
    by_cases e : x + y * width = xx + yy * width
    · obtain ⟨e1, e2⟩ := idx_inj width x y xx yy hx0 hx1' hq0 hq1 e
      subst e1; subst e2
      exact ⟨hreach, by simp⟩
    · rw [Function.update_noteq e] at hm ⊢
      exact h.sound x y hx0 hx1' hy0 hy1' hm
  · intro x y hx0 hx1' hy0 hy1'
    simp only [push]
    by_cases e : x + y * width = xx + yy * width
    · obtain ⟨e1, e2⟩ := idx_inj width x y xx yy hx0 hx1' hq0 hq1 e
      subst e1; subst e2
      simp [hU]
    · have e' : x + y * stride ≠ xx + yy * stride := by
        intro e'
        obtain ⟨e1, e2⟩ := idx_inj stride x y xx yy hx0 (by omega) hq0 (by omega) e'
        subst e1; subst e2
        exact e rfl
      simp only [Function.update_noteq e, Function.update_noteq e']
      exact h.buf x y hx0 hx1' hy0 hy1'
  · intro k hk0 hk1
    simp only [push] at hk1 ⊢
    by_cases e : k = st.stack.index + 1
    · subst e
      have e1 : Function.update st.stack.pos (st.stack.index + 1) (xx, yy)
          (st.stack.index + 1) = (xx, yy) := Function.update_same _ _ _
      rw [e1]
      refine ⟨hq, ?_⟩
      show Function.update st.stack.map (xx + yy * width) UINT8_MAX (xx + yy * width) ≠ 0
      rw [Function.update_same]; exact hU
    · rw [Function.update_noteq e]
      obtain ⟨a, b⟩ := h.stk k hk0 (by omega)
      exact ⟨a, hmono _ b⟩
  · intro x y hxy hm
    simp only [push] at hm ⊢
    obtain ⟨hx0, hx1', hy0, hy1'⟩ := interior_in_plane hxy
    by_cases e : x + y * width = xx + yy * width
    · obtain ⟨e1, e2⟩ := idx_inj width x y xx yy hx0 hx1' hq0 hq1 e
      subst e1; subst e2
      exact Or.inl ⟨st.stack.index + 1, by omega, le_refl _, by simp⟩
    · rw [Function.update_noteq e] at hm
      rcases h.closed x y hxy hm with ⟨k, hk0, hk1, hk2⟩ | hex | hcl
      · refine Or.inl ⟨k, hk0, by omega, ?_⟩
        rw [Function.update_noteq (by omega)]; exact hk2
      · exact Or.inr (Or.inl hex)
      · refine Or.inr (Or.inr ?_)
        intro x' y' h1 h2 h3 h4 h5 h6
        exact hmono _ (hcl x' y' h1 h2 h3 h4 h5 h6)
  · simp only [push]; omega
  · obtain ⟨b0, b1⟩ := idx_bound width height xx yy hq0 hq1 hq2 hq3
    have := unmarked_update width height st.stack.map (xx + yy * width) UINT8_MAX b0 b1 hm0 hU
    simp only [hystMeasure, push]
    omega
  · intro i hi
    simp only [push]
    exact hmono i hi
  · simp [push, hU]
  · simp [push]

theorem hystVisit_inv (hs : width ≤ stride) {ex : Int × Int → Prop} {st : HystState α}
    (h : HystInv inp width height stride t_h t_l fltMax ex st)
    (px py xx yy : Int) (hp : interior width height px py)
    (hpm : st.stack.map (px + py * width) ≠ 0)
    (hq : interior width height xx yy)
    (hx1 : -1 ≤ xx - px) (hx2 : xx - px ≤ 1) (hy1 : -1 ≤ yy - py) (hy2 : yy - py ≤ 1) :
    HystInv inp width height stride t_h t_l fltMax ex
        (hystVisit width stride fltMax t_l yy xx st) ∧
      hystMeasure width height (hystVisit width stride fltMax t_l yy xx st) =
        hystMeasure width height st ∧
      marksGrow st (hystVisit width stride fltMax t_l yy xx st) ∧
      (t_l < inp (xx + yy * stride) →
        (hystVisit width stride fltMax t_l yy xx st).stack.map (xx + yy * width) ≠ 0) := by
  obtain ⟨hq0, hq1, hq2, hq3⟩ := interior_in_plane hq
  obtain ⟨hp0, hp1, hp2, hp3⟩ := interior_in_plane hp
  have hbq := h.buf xx yy hq0 hq1 hq2 hq3
  unfold hystVisit
  split_ifs with hc
  · obtain ⟨hgt, hm0⟩ := hc
    have hin : t_l < inp (xx + yy * stride) := by
      rw [hbq] at hgt; simpa [hm0] using hgt
    have hne : (px, py) ≠ (xx, yy) := by
      intro e
      injection e with e1 e2
      subst e1; subst e2
      exact hpm hm0
    have hreach : hystReach inp width height stride t_h t_l xx yy := by
      obtain ⟨⟨_, sx, sy, hs1, hs2, hs3⟩, _⟩ := h.sound px py hp0 hp1 hp2 hp3 hpm
      exact ⟨hq, sx, sy, hs1, hs2, hs3.tail ⟨hq, ⟨hne, hx1, hx2, hy1, hy2⟩, hin⟩⟩
    obtain ⟨a, b, c, d, _⟩ := hystMark_inv hs h xx yy hq hm0 hreach
    exact ⟨a, b, c, fun _ => d⟩
  · refine ⟨h, rfl, fun i hi => hi, ?_⟩
    intro hin hm0
    apply hc
    refine ⟨?_, hm0⟩
    rw [hbq]; simpa [hm0] using hin

theorem hystRow_inv (hs : width ≤ stride) {ex : Int × Int → Prop} {s0 : HystState α}
    (h : HystInv inp width height stride t_h t_l fltMax ex s0)
    (px py yy xMin xMax : Int) (hp : interior width height px py)
    (hpm : s0.stack.map (px + py * width) ≠ 0)
    (hy : 1 ≤ yy ∧ yy ≤ height - 2 ∧ -1 ≤ yy - py ∧ yy - py ≤ 1)
    (hlo : 1 ≤ xMin ∧ px - 1 ≤ xMin) (hhi : xMax ≤ width - 2 ∧ xMax ≤ px + 1)
    (hle : xMin ≤ xMax + 1) :
    HystInv inp width height stride t_h t_l fltMax ex
        (forLoop xMin (xMax + 1) (fun xx s => hystVisit width stride fltMax t_l yy xx s) s0) ∧
      hystMeasure width height
        (forLoop xMin (xMax + 1) (fun xx s => hystVisit width stride fltMax t_l yy xx s) s0) =
        hystMeasure width height s0 ∧
      marksGrow s0
        (forLoop xMin (xMax + 1) (fun xx s => hystVisit width stride fltMax t_l yy xx s) s0) ∧
      ∀ x', xMin ≤ x' → x' ≤ xMax → t_l < inp (x' + yy * stride) →
        (forLoop xMin (xMax + 1) (fun xx s => hystVisit width stride fltMax t_l yy xx s)
          s0).stack.map (x' + yy * width) ≠ 0 := by
  have key := forLoop_induct
    (fun xx s => HystInv inp width height stride t_h t_l fltMax ex s ∧
      hystMeasure width height s = hystMeasure width height s0 ∧ marksGrow s0 s ∧
      ∀ x', xMin ≤ x' → x' < xx → t_l < inp (x' + yy * stride) →
        s.stack.map (x' + yy * width) ≠ 0)
    xMin (xMax + 1) (fun xx s => hystVisit width stride fltMax t_l yy xx s) s0
    ⟨h, rfl, fun i hi => hi, fun x' h1 h2 => by omega⟩
    (by
      intro xx s hx1 hx2 ⟨hI, hM, hG, hD⟩
      have hq : interior width height xx yy := by unfold interior; omega
      obtain ⟨a, b, c, d⟩ := hystVisit_inv hs hI px py xx yy hp (hG _ hpm) hq
        (by omega) (by omega) hy.2.2.1 hy.2.2.2
      refine ⟨a, by rw [b, hM], fun i hi => c i (hG i hi), ?_⟩
      intro x' h1 h2 h3
      by_cases e : x' = xx
      · subst e; exact d h3
      · exact c _ (hD x' h1 (by omega) h3))
  rw [max_eq_right hle] at key
  obtain ⟨a, b, c, d⟩ := key
  exact ⟨a, b, c, fun x' h1 h2 h3 => d x' h1 (by omega) h3⟩

theorem hystScan_inv (hs : width ≤ stride) {ex : Int × Int → Prop} {s0 : HystState α}
    (h : HystInv inp width height stride t_h t_l fltMax ex s0)
    (px py xMin xMax yMin yMax : Int) (hp : interior width height px py)
    (hpm : s0.stack.map (px + py * width) ≠ 0)
    (hxlo : 1 ≤ xMin ∧ px - 1 ≤ xMin) (hxhi : xMax ≤ width - 2 ∧ xMax ≤ px + 1)
    (hxle : xMin ≤ xMax + 1)
    (hylo : 1 ≤ yMin ∧ py - 1 ≤ yMin) (hyhi : yMax ≤ height - 2 ∧ yMax ≤ py + 1)
    (hyle : yMin ≤ yMax + 1) :
    HystInv inp width height stride t_h t_l fltMax ex
        (forLoop yMin (yMax + 1) (fun yy s => forLoop xMin (xMax + 1)
          (fun xx s => hystVisit width stride fltMax t_l yy xx s) s) s0) ∧
      hystMeasure width height
        (forLoop yMin (yMax + 1) (fun yy s => forLoop xMin (xMax + 1)
          (fun xx s => hystVisit width stride fltMax t_l yy xx s) s) s0) =
        hystMeasure width height s0 ∧
      marksGrow s0
        (forLoop yMin (yMax + 1) (fun yy s => forLoop xMin (xMax + 1)
          (fun xx s => hystVisit width stride fltMax t_l yy xx s) s) s0) ∧
      ∀ x' y', xMin ≤ x' → x' ≤ xMax → yMin ≤ y' → y' ≤ yMax →
        t_l < inp (x' + y' * stride) →
        (forLoop yMin (yMax + 1) (fun yy s => forLoop xMin (xMax + 1)
          (fun xx s => hystVisit width stride fltMax t_l yy xx s) s)
          s0).stack.map (x' + y' * width) ≠ 0 := by
  have key := forLoop_induct
    (fun yy s => HystInv inp width height stride t_h t_l fltMax ex s ∧
      hystMeasure width height s = hystMeasure width height s0 ∧ marksGrow s0 s ∧
      ∀ x' y', xMin ≤ x' → x' ≤ xMax → yMin ≤ y' → y' < yy →
        t_l < inp (x' + y' * stride) → s.stack.map (x' + y' * width) ≠ 0)
    yMin (yMax + 1) (fun yy s => forLoop xMin (xMax + 1)
          (fun xx s => hystVisit width stride fltMax t_l yy xx s) s) s0
    ⟨h, rfl, fun i hi => hi, fun x' y' _ _ h1 h2 => by omega⟩
    (by
      intro yy s hy1 hy2 ⟨hI, hM, hG, hD⟩
      obtain ⟨a, b, c, d⟩ := hystRow_inv hs hI px py yy xMin xMax hp (hG _ hpm)
        (by omega) hxlo hxhi hxle
      refine ⟨a, by rw [b, hM], fun i hi => c i (hG i hi), ?_⟩
      intro x' y' h1 h2 h3 h4 h5
      by_cases e : y' = yy
      · subst e; exact d x' h1 h2 h5
      · exact c _ (hD x' y' h1 h2 h3 (by omega) h5))
  rw [max_eq_right hyle] at key
  obtain ⟨a, b, c, d⟩ := key
  exact ⟨a, b, c, fun x' y' h1 h2 h3 h4 h5 => d x' y' h1 h2 h3 (by omega) h5⟩

theorem hystBody_inv (hs : width ≤ stride) {st : HystState α}
    (h : HystInv inp width height stride t_h t_l fltMax (fun _ => False) st)
    (hidx : -1 < st.stack.index) :
    HystInv inp width height stride t_h t_l fltMax (fun _ => False)
        (hystBody width height stride fltMax t_l st) ∧
      hystMeasure width height (hystBody width height stride fltMax t_l st) + 1 =
        hystMeasure width height st ∧
      marksGrow st (hystBody width height stride fltMax t_l st) := by
  obtain ⟨hp, hpm⟩ := h.stk st.stack.index (by omega) (le_refl _)
  have hpi := hp
  unfold interior at hpi
  have h1 : HystInv inp width height stride t_h t_l fltMax
      (fun q => q = st.stack.pos st.stack.index) { st with stack := (pop st.stack).2 } := by
    refine ⟨h.sound, h.buf, ?_, ?_, ?_⟩
    · intro k hk0 hk1
      simp only [pop] at hk1 ⊢
      exact h.stk k hk0 (by omega)
    · intro x y hxy hm
      simp only [pop] at hm ⊢
      rcases h.closed x y hxy hm with ⟨k, hk0, hk1, hk2⟩ | hex | hcl
      · by_cases e : k = st.stack.index
        · subst e; exact Or.inr (Or.inl hk2.symm)
        · exact Or.inl ⟨k, hk0, by omega, hk2⟩
      · exact absurd hex id
      · exact Or.inr (Or.inr hcl)
    · simp only [pop]; omega
  have hm1 : hystMeasure width height ({ st with stack := (pop st.stack).2 } : HystState α) + 1 =
      hystMeasure width height st := by
    simp only [hystMeasure, pop]; omega
  obtain ⟨a, b, c, d⟩ := hystScan_inv hs h1
    (st.stack.pos st.stack.index).1 (st.stack.pos st.stack.index).2
    (if (st.stack.pos st.stack.index).1 > 1 then (st.stack.pos st.stack.index).1 - 1 else 1)
    (if (st.stack.pos st.stack.index).1 < width - 2 then (st.stack.pos st.stack.index).1 + 1
      else (st.stack.pos st.stack.index).1)
    (if (st.stack.pos st.stack.index).2 > 1 then (st.stack.pos st.stack.index).2 - 1 else 1)
    (if (st.stack.pos st.stack.index).2 < height - 2 then (st.stack.pos st.stack.index).2 + 1
      else (st.stack.pos st.stack.index).2)
    hp hpm
    (by split_ifs <;> omega) (by split_ifs <;> omega) (by split_ifs <;> omega)
    (by split_ifs <;> omega) (by split_ifs <;> omega) (by split_ifs <;> omega)
  refine ⟨⟨a.sound, a.buf, a.stk, ?_, a.idx⟩, ?_, c⟩
  · intro x y hxy hm
    rcases a.closed x y hxy hm with hk | hex | hcl
    · exact Or.inl hk
    · refine Or.inr (Or.inr ?_)
      intro x' y' hq h2 h3 h4 h5 h6
      have e1 : x = (st.stack.pos st.stack.index).1 := by rw [← hex]
      have e2 : y = (st.stack.pos st.stack.index).2 := by rw [← hex]
      unfold interior at hq
      exact d x' y' (by split_ifs <;> omega) (by split_ifs <;> omega)
        (by split_ifs <;> omega) (by split_ifs <;> omega) h6
    · exact Or.inr (Or.inr hcl)
  · show hystMeasure width height (hystBody width height stride fltMax t_l st) + 1 = _
    rw [← hm1]
    exact congrArg (· + 1) b

theorem hystWhile_inv (hs : width ≤ stride) (fuel : Nat) :
    ∀ st : HystState α, HystInv inp width height stride t_h t_l fltMax (fun _ => False) st →
      hystMeasure width height st ≤ fuel →
      ∃ out, hystWhile width height stride fltMax t_l fuel st = some out ∧
        HystInv inp width height stride t_h t_l fltMax (fun _ => False) out ∧
        out.stack.index = -1 ∧ marksGrow st out := by
  induction fuel with
  | zero =>
    intro st h hm
    have hi := h.idx
    have : st.stack.index = -1 := by
      simp only [hystMeasure] at hm; omega
    refine ⟨st, ?_, h, this, fun i hi => hi⟩
    simp [hystWhile, this]
  | succ n ih =>
    intro st h hm
    have hi := h.idx
    by_cases hgt : st.stack.index > -1
    · obtain ⟨a, b, c⟩ := hystBody_inv hs h hgt
      obtain ⟨out, h1, h2, h3, h4⟩ := ih _ a (by omega)
      refine ⟨out, ?_, h2, h3, fun i hi => h4 i (c i hi)⟩
      simp only [hystWhile, hgt, if_true]
      exact h1
    · have : st.stack.index = -1 := by omega
      refine ⟨st, ?_, h, this, fun i hi => hi⟩
      simp [hystWhile, this]

theorem hystSeed_inv (hs : width ≤ stride) (fuel : Nat) (hfuel : (width * height).toNat ≤ fuel)
    {st : HystState α} (y x : Int) (hq : interior width height x y)
    (h : HystInv inp width height stride t_h t_l fltMax (fun _ => False) st)
    (hi : st.stack.index = -1) (hd : seedsDone inp width height stride t_h y x st) :
    ∃ out, hystSeed fuel width height stride t_h t_l fltMax y x st = some out ∧
      HystInv inp width height stride t_h t_l fltMax (fun _ => False) out ∧
      out.stack.index = -1 ∧ seedsDone inp width height stride t_h y (x + 1) out := by
  obtain ⟨hq0, hq1, hq2, hq3⟩ := interior_in_plane hq
  have hbq := h.buf x y hq0 hq1 hq2 hq3
  unfold hystSeed
  split_ifs with hc
  · refine ⟨st, rfl, h, hi, ?_⟩
    intro x' y' hq' hlt hth
    by_cases e : y' = y ∧ x' = x
    · obtain ⟨e1, e2⟩ := e
      subst e1; subst e2
      rcases hc with hc | hc
      · intro hm0
        rw [hbq] at hc
        simp only [hm0, ne_eq, not_true_eq_false, if_false] at hc
        exact absurd hth (not_le.mpr hc)
      · exact hc
    · exact hd x' y' hq' (by omega) hth
  · have hm0 : st.stack.map (x + y * width) = 0 := by
      by_contra hne; exact hc (Or.inr hne)
    have hth : t_h ≤ inp (x + y * stride) := by
      have : ¬ st.srcp (x + y * stride) < t_h := fun hlt => hc (Or.inl hlt)
      rw [hbq] at this
      simpa [hm0] using this
    have hreach : hystReach inp width height stride t_h t_l x y :=
      ⟨hq, x, y, hq, hth, Relation.ReflTransGen.refl⟩
    obtain ⟨a, b, c, d, e⟩ := hystMark_inv hs h x y hq hm0 hreach
    have hmeas : hystMeasure width height (hystMark width stride fltMax y x st) ≤ fuel := by
      rw [b]
      have := unmarked_le width height st.stack.map
      simp only [hystMeasure, hi]
      omega
    obtain ⟨out, h1, h2, h3, h4⟩ := hystWhile_inv hs fuel _ a hmeas
    refine ⟨out, h1, h2, h3, ?_⟩
    intro x' y' hq' hlt hth'
    by_cases e : y' = y ∧ x' = x
    · obtain ⟨e1, e2⟩ := e
      subst e1; subst e2
      exact h4 _ d
    · exact h4 _ (c _ (hd x' y' hq' (by omega) hth'))

theorem hystSeedRow_inv (hs : width ≤ stride) (fuel : Nat)
    (hfuel : (width * height).toNat ≤ fuel) {st : HystState α} (y : Int)
    (hy : 1 ≤ y ∧ y ≤ height - 2)
    (h : HystInv inp width height stride t_h t_l fltMax (fun _ => False) st)
    (hi : st.stack.index = -1) (hd : seedsDone inp width height stride t_h y 1 st) :
    ∃ out, forLoopM 1 (width - 1)
        (fun x s => hystSeed fuel width height stride t_h t_l fltMax y x s) st = some out ∧
      HystInv inp width height stride t_h t_l fltMax (fun _ => False) out ∧
      out.stack.index = -1 ∧ seedsDone inp width height stride t_h (y + 1) 1 out := by
  obtain ⟨out, h1, h2, h3, h4⟩ := forLoopM_induct
    (fun x s => HystInv inp width height stride t_h t_l fltMax (fun _ => False) s ∧
      s.stack.index = -1 ∧ seedsDone inp width height stride t_h y x s)
    1 (width - 1) (fun x s => hystSeed fuel width height stride t_h t_l fltMax y x s) st
    ⟨h, hi, hd⟩
    (by
      intro x s hx1 hx2 ⟨a, b, c⟩
      exact hystSeed_inv hs fuel hfuel y x (by unfold interior; omega) a b c)
  refine ⟨out, h1, h2, h3, ?_⟩
  intro x' y' hq' hlt hth
  have hq := hq'
  unfold interior at hq
  refine h4 x' y' hq' ?_ hth
  rcases le_total 1 (width - 1) with hw | hw
  · rw [max_eq_right hw]; omega
  · omega

/-- Everything `hystersis` establishes, in terms of the invariant. -/
theorem hystersis_inv (hs : width ≤ stride) (fuel : Nat) (hfuel : (width * height).toNat ≤ fuel)
    (srcp : Int → α) (stack : Stack) :
    ∃ out, hystersis fuel srcp stack width height stride t_h t_l fltMax = some out ∧
      HystInv srcp width height stride t_h t_l fltMax (fun _ => False) out ∧
      out.stack.index = -1 ∧
      ∀ x y, interior width height x y → t_h ≤ srcp (x + y * stride) →
        out.stack.map (x + y * width) ≠ 0 := by
  have h0 : HystInv srcp width height stride t_h t_l fltMax (fun _ => False)
      ({ srcp := srcp
         stack := { stack with
                    map := fun i => if 0 ≤ i ∧ i < width * height then 0 else stack.map i
                    index := -1 } } : HystState α) := by
    refine ⟨?_, ?_, ?_, ?_, ?_⟩
    · intro x y hx0 hx1 hy0 hy1 hm
      exfalso; apply hm
      have := idx_bound width height x y hx0 hx1 hy0 hy1
      simp [this.1, this.2]
    · intro x y hx0 hx1 hy0 hy1
      have := idx_bound width height x y hx0 hx1 hy0 hy1
      simp [this.1, this.2]
    · intro k hk0 hk1
      simp only at hk1; omega
    · intro x y hxy hm
      obtain ⟨hx0, hx1, hy0, hy1⟩ := interior_in_plane hxy
      exfalso; apply hm
      have := idx_bound width height x y hx0 hx1 hy0 hy1
      simp [this.1, this.2]
    · simp
  obtain ⟨out, h1, h2, h3, h4⟩ := forLoopM_induct
    (fun y s => HystInv srcp width height stride t_h t_l fltMax (fun _ => False) s ∧
      s.stack.index = -1 ∧ seedsDone srcp width height stride t_h y 1 s)
    1 (height - 1)
    (fun y s => forLoopM 1 (width - 1)
      (fun x s => hystSeed fuel width height stride t_h t_l fltMax y x s) s)
    _ ⟨h0, rfl, by intro x' y' hq hlt; unfold interior at hq; omega⟩
    (by
      intro y s hy1 hy2 ⟨a, b, c⟩
      exact hystSeedRow_inv hs fuel hfuel y (by omega) a b c)
  refine ⟨out, h1, h2, h3, ?_⟩
  intro x y hq hth
  have hq' := hq
  unfold interior at hq'
  refine h4 x y hq ?_ hth
  rcases le_total 1 (height - 1) with hw | hw
  · rw [max_eq_right hw]; omega
  · omega

end HystProof

/-- C1: with `stride ≥ width` and enough fuel for the `while` loop, `hystersis`
returns, and in its result a pixel of the plane is retained (marked in the
visited map and set to `FLT_MAX`) exactly when it is an interior pixel that is
strong (input `≥ t_h`) or joined to a strong interior pixel by a chain of
8-adjacent interior pixels whose input values are all `> t_l`; a pixel that is
not retained keeps its input value. -/
theorem hystersis_flood_fill {α : Type} [LinearOrder α] (srcp : Int → α) (stack : Stack)
    (width height stride : Int) (t_h t_l fltMax : α) (fuel : Nat)
    (hs : width ≤ stride) (hfuel : (width * height).toNat ≤ fuel) :
    ∃ out, hystersis fuel srcp stack width height stride t_h t_l fltMax = some out ∧
      ∀ x y, 0 ≤ x → x < width → 0 ≤ y → y < height →
        (retained out width stride fltMax x y ↔
          hystReach srcp width height stride t_h t_l x y) ∧
        (¬ retained out width stride fltMax x y →
          out.srcp (x + y * stride) = srcp (x + y * stride)) := by
  obtain ⟨out, h1, h2, h3, h4⟩ :=
    @hystersis_inv α _ width height stride t_h t_l fltMax hs fuel hfuel srcp stack
  refine ⟨out, h1, ?_⟩
  intro x y hx0 hx1 hy0 hy1
  have hb := h2.buf x y hx0 hx1 hy0 hy1
  have hU : UINT8_MAX ≠ 0 := by decide
  have hreach : hystReach srcp width height stride t_h t_l x y →
      out.stack.map (x + y * width) ≠ 0 := by
    rintro ⟨_, sx, sy, hs1, hs2, hs3⟩
    have gen : ∀ q : Int × Int,
        Relation.ReflTransGen (hystLink srcp width height stride t_l) (sx, sy) q →
        interior width height q.1 q.2 ∧ out.stack.map (q.1 + q.2 * width) ≠ 0 := by
      intro q hq
      induction hq with
      | refl => exact ⟨hs1, h4 sx sy hs1 hs2⟩
      | @tail b c _ hl ih =>
        obtain ⟨hbi, hbm⟩ := ih
        obtain ⟨hci, ⟨_, a1, a2, a3, a4⟩, hgt⟩ := hl
        rcases h2.closed b.1 b.2 hbi hbm with ⟨k, hk0, hk1, _⟩ | hex | hcl
        · omega
        · exact absurd hex id
        · exact ⟨hci, hcl c.1 c.2 hci a1 a2 a3 a4 hgt⟩
    exact (gen (x, y) hs3).2
  have hret : retained out width stride fltMax x y ↔ out.stack.map (x + y * width) ≠ 0 := by
    unfold retained
    constructor
    · rintro ⟨a, _⟩; rw [a]; exact hU
    · intro hm
      refine ⟨(h2.sound x y hx0 hx1 hy0 hy1 hm).2, ?_⟩
      rw [hb]; simp [hm]
  refine ⟨?_, ?_⟩
  · rw [hret]
    exact ⟨fun hm => (h2.sound x y hx0 hx1 hy0 hy1 hm).1, hreach⟩
  · rw [hret]
    intro hm
    rw [hb]; simp only [hm, if_false]

/-- C1 witness: a 3x3 plane with one strong pixel in the centre. -/
theorem hystersis_flood_fill_witness :
    (3 : Int) ≤ 3 ∧ ((3 : Int) * 3).toNat ≤ 9 ∧
    ∃ out, hystersis 9 (fun i : Int => if i = 4 then (10 : Int) else 0)
        ⟨fun _ => 7, fun _ => (0, 0), 5⟩ 3 3 3 8 1 1000 = some out ∧
      ∀ x y, 0 ≤ x → x < 3 → 0 ≤ y → y < 3 →
        (retained out 3 3 1000 x y ↔
          hystReach (fun i : Int => if i = 4 then (10 : Int) else 0) 3 3 3 8 1 x y) ∧
        (¬ retained out 3 3 1000 x y →
          out.srcp (x + y * 3) = (fun i : Int => if i = 4 then (10 : Int) else 0) (x + y * 3)) :=
  ⟨by decide, by decide,
    hystersis_flood_fill (fun i : Int => if i = 4 then (10 : Int) else 0)
      ⟨fun _ => 7, fun _ => (0, 0), 5⟩ 3 3 3 8 1 1000 9 (by decide) (by decide)⟩

/-! ## The smoother: mirrored indices -/

theorem reflect_bounds (N rad i v : Int) (hr : rad < N) (hi0 : 0 ≤ i) (hi : i < N)
    (hv0 : -rad ≤ v) (hv : v ≤ rad) : 0 ≤ reflect (i + v) N ∧ reflect (i + v) N < N := by
  constructor <;> unfold reflect <;> split_ifs <;> omega

/-- C4: when the kernel radius is smaller than the dimension `N`, the index
`genConvV` (`N = height`) and `genConvH` (`N = width`) use for position `i`
and tap `v`, after its single reflection, lies in `[0, N)`. -/
theorem reflect_in_range (N rad i v : Int) (hN : 1 ≤ N) (hr0 : 0 ≤ rad) (hr : rad < N)
    (hi0 : 0 ≤ i) (hi : i < N) (hv0 : -rad ≤ v) (hv : v ≤ rad) :
    reflect (i + v) N =
        (if i + v < 0 then -(i + v) else if i + v ≥ N then 2 * (N - 1) - (i + v) else i + v) ∧
      0 ≤ reflect (i + v) N ∧ reflect (i + v) N < N := by
  refine ⟨rfl, ?_, ?_⟩ <;> unfold reflect <;> split_ifs <;> omega

/-- C4 witness: dimension 6, radius 5, position 0, tap -5. -/
theorem reflect_in_range_witness :
    reflect (0 + -5) 6 = (if (0 : Int) + -5 < 0 then -(0 + -5) else
        if (0 : Int) + -5 ≥ 6 then 2 * (6 - 1) - (0 + -5) else 0 + -5) ∧
      0 ≤ reflect (0 + -5) 6 ∧ reflect (0 + -5) 6 < 6 :=
  reflect_in_range 6 5 0 (-5) (by decide) (by decide) (by decide) (by decide) (by decide)
    (by decide) (by decide)

section Kernel
variable {α : Type} [LinearOrderedField α] [FloorRing α]

theorem truncToInt_of_nonneg (x : α) (h : 0 ≤ x) : truncToInt x = ⌊x⌋ := by
  unfold truncToInt; rw [if_pos h]

theorem gaussianRad_eq (sigma : α) :
    gaussianRad sigma = max (truncToInt (sigma * 3 + 1 / 2)) 1 := by
  unfold gaussianRad gaussianDia
  rw [Int.shiftRight_eq_div_pow]
  have : ((2 ^ 1 : Nat) : Int) = 2 := by norm_num
  rw [this]
  omega

theorem gaussianDia_eq (sigma : α) : gaussianDia sigma = 2 * gaussianRad sigma + 1 := by
  rw [gaussianRad_eq]; unfold gaussianDia; ring

theorem gaussianWeights_rad (ops : FloatOps α) (sigma : α) :
    (gaussianWeights ops sigma).2 = gaussianRad sigma := rfl

theorem gaussianRad_pos (sigma : α) : 1 ≤ gaussianRad sigma := by
  rw [gaussianRad_eq]; exact le_max_right _ _

/-- The weights `gaussianWeights` returns: tap `j - rad` divided by the sum of
all taps. -/
theorem gaussianWeights_apply (ops : FloatOps α) (sigma : α) (j : Int) (hj0 : 0 ≤ j)
    (hj1 : j < gaussianDia sigma) :
    (gaussianWeights ops sigma).1 j =
      gaussianTap ops sigma (j - gaussianRad sigma) /
        ∑ m in Finset.range (gaussianDia sigma).toNat,
          gaussianTap ops sigma (-gaussianRad sigma + (m : Int)) := by
  have hR := gaussianRad_pos sigma
  have hD := gaussianDia_eq sigma
  have h1 := forLoop_induct
    (fun k (ws : (Int → α) × α) =>
      (∀ i, 0 ≤ i → i < k + gaussianRad sigma →
        ws.1 i = gaussianTap ops sigma (i - gaussianRad sigma)) ∧
      ws.2 = ∑ m in Finset.range (k + gaussianRad sigma).toNat,
        gaussianTap ops sigma (-gaussianRad sigma + (m : Int)))
    (-gaussianRad sigma) (gaussianRad sigma + 1)
    (fun k (ws : (Int → α) × α) =>
      (Function.update ws.1 (k + gaussianRad sigma) (gaussianTap ops sigma k),
        ws.2 + gaussianTap ops sigma k))
    (fun _ => 0, 0)
    ⟨fun i h1 h2 => by omega, by simp⟩
    (by
      intro k ws hk0 hk1 ⟨a, b⟩
      refine ⟨?_, ?_⟩
      · intro i hi0 hi1
        by_cases e : i = k + gaussianRad sigma
        · subst e
          simp only [Function.update_same]
          congr 1; ring
        · simp only [Function.update_noteq e]
          exact a i hi0 (by omega)
      · have e : (k + 1 + gaussianRad sigma).toNat = (k + gaussianRad sigma).toNat + 1 := by
          omega
        simp only
        rw [e, Finset.sum_range_succ, b]
        congr 2
        have : (((k + gaussianRad sigma).toNat : Nat) : Int) = k + gaussianRad sigma := by omega
        rw [this]; ring)
  rw [max_eq_right (by omega)] at h1
  obtain ⟨ha, hb⟩ := h1
  have e1 : gaussianRad sigma + 1 + gaussianRad sigma = gaussianDia sigma := by omega
  rw [e1] at ha hb
  have h2 := forLoop_induct
    (fun k (ws : Int → α) =>
      (∀ i, 0 ≤ i → i < k → ws i =
        gaussianTap ops sigma (i - gaussianRad sigma) /
          ∑ m in Finset.range (gaussianDia sigma).toNat,
            gaussianTap ops sigma (-gaussianRad sigma + (m : Int))) ∧
      (∀ i, k ≤ i → i < gaussianDia sigma →
        ws i = gaussianTap ops sigma (i - gaussianRad sigma)))
    0 (gaussianDia sigma)
    (fun k (ws : Int → α) => Function.update ws k (ws k /
      (forLoop (-gaussianRad sigma) (gaussianRad sigma + 1)
        (fun k (ws : (Int → α) × α) =>
          (Function.update ws.1 (k + gaussianRad sigma) (gaussianTap ops sigma k),
            ws.2 + gaussianTap ops sigma k))
        (fun _ => 0, 0)).2))
    (forLoop (-gaussianRad sigma) (gaussianRad sigma + 1)
        (fun k (ws : (Int → α) × α) =>
          (Function.update ws.1 (k + gaussianRad sigma) (gaussianTap ops sigma k),
            ws.2 + gaussianTap ops sigma k))
        (fun _ => 0, 0)).1
    ⟨fun i h1 h2 => by omega, fun i h1 h2 => ha i h1 h2⟩
    (by
      intro k ws hk0 hk1 ⟨a, b⟩
      refine ⟨?_, ?_⟩
      · intro i hi0 hi1
        by_cases e : i = k
        · subst e
          simp only [Function.update_same]
          rw [b i (le_refl _) hk1, hb]
        · simp only [Function.update_noteq e]
          exact a i hi0 (by omega)
      · intro i hi0 hi1
        have e : i ≠ k := by omega
        simp only [Function.update_noteq e]
        exact b i (by omega) hi1)
  rw [max_eq_right (by omega)] at h2
  exact h2.1 j hj0 hj1

end Kernel

/-- Exact arithmetic: for `sigma > 0` the radius `gaussianWeights` yields is
`max(floor(3*sigma + 1/2), 1)`, which is at least 1; the kernel length `dia`
is the odd number `2*radius + 1`; and the radius does not decrease when
`sigma` grows. -/
theorem gaussianWeights_radius_exact {α : Type} [LinearOrderedField α] [FloorRing α]
    (ops : FloatOps α) (sigma sigma2 : α) (h : 0 < sigma) (h2 : sigma ≤ sigma2) :
    (gaussianWeights ops sigma).2 = max ⌊3 * sigma + 1 / 2⌋ 1 ∧
      1 ≤ (gaussianWeights ops sigma).2 ∧
      gaussianDia sigma = 2 * (gaussianWeights ops sigma).2 + 1 ∧
      gaussianDia sigma % 2 = 1 ∧
      (gaussianWeights ops sigma).2 ≤ (gaussianWeights ops sigma2).2 := by
  simp only [gaussianWeights_rad]
  have e1 : truncToInt (sigma * 3 + 1 / 2) = ⌊3 * sigma + 1 / 2⌋ := by
    rw [truncToInt_of_nonneg _ (by positivity), mul_comm]
  have e2 : truncToInt (sigma2 * 3 + 1 / 2) = ⌊3 * sigma2 + 1 / 2⌋ := by
    rw [truncToInt_of_nonneg _ (by have := lt_of_lt_of_le h h2; positivity), mul_comm]
  have hd := gaussianDia_eq sigma
  refine ⟨?_, gaussianRad_pos sigma, hd, by omega, ?_⟩
  · rw [gaussianRad_eq, e1]
  · rw [gaussianRad_eq, gaussianRad_eq, e1, e2]
    apply max_le_max _ (le_refl _)
    apply Int.floor_mono
    linarith

/-- Example in exact arithmetic: `sigma = 1.5` against `sigma = 2`, over the reals. -/
theorem gaussianWeights_radius_exact_example :
    (0 : ℝ) < 3 / 2 ∧ (3 / 2 : ℝ) ≤ 2 ∧
    (gaussianWeights ⟨Real.sqrt, fun y x => Complex.arg ⟨x, y⟩, Real.tan, Real.exp,
        Real.pi, 340282346638528859811704183484516925440⟩ (3 / 2 : ℝ)).2 =
        max ⌊3 * (3 / 2 : ℝ) + 1 / 2⌋ 1 ∧
      1 ≤ (gaussianWeights ⟨Real.sqrt, fun y x => Complex.arg ⟨x, y⟩, Real.tan, Real.exp,
        Real.pi, 340282346638528859811704183484516925440⟩ (3 / 2 : ℝ)).2 ∧
      gaussianDia (3 / 2 : ℝ) =
        2 * (gaussianWeights ⟨Real.sqrt, fun y x => Complex.arg ⟨x, y⟩, Real.tan, Real.exp,
          Real.pi, 340282346638528859811704183484516925440⟩ (3 / 2 : ℝ)).2 + 1 ∧
      gaussianDia (3 / 2 : ℝ) % 2 = 1 ∧
      (gaussianWeights ⟨Real.sqrt, fun y x => Complex.arg ⟨x, y⟩, Real.tan, Real.exp,
        Real.pi, 340282346638528859811704183484516925440⟩ (3 / 2 : ℝ)).2 ≤
        (gaussianWeights ⟨Real.sqrt, fun y x => Complex.arg ⟨x, y⟩, Real.tan, Real.exp,
          Real.pi, 340282346638528859811704183484516925440⟩ (2 : ℝ)).2 :=
  ⟨by norm_num, by norm_num,
    gaussianWeights_radius_exact ⟨Real.sqrt, fun y x => Complex.arg ⟨x, y⟩, Real.tan, Real.exp,
      Real.pi, 340282346638528859811704183484516925440⟩ (3 / 2 : ℝ) 2
      (by norm_num) (by norm_num)⟩

/-- C7: when `exp` is positive (as the exponential is), the kernel vector
`gaussianWeights` returns for `sigma > 0` has non-negative weights, is
symmetric about its centre (`w[i] = w[length-1-i]`), and its weights sum to
exactly 1. -/
theorem gaussianWeights_kernel {α : Type} [LinearOrderedField α] [FloorRing α]
    (ops : FloatOps α) (sigma : α) (hsigma : 0 < sigma) (hexp : ∀ x, 0 < ops.exp x) :
    (∀ i, 0 ≤ i → i < gaussianDia sigma → 0 ≤ (gaussianWeights ops sigma).1 i) ∧
      (∀ i, 0 ≤ i → i < gaussianDia sigma →
        (gaussianWeights ops sigma).1 i =
          (gaussianWeights ops sigma).1 (gaussianDia sigma - 1 - i)) ∧
      ∑ k in Finset.range (gaussianDia sigma).toNat,
        (gaussianWeights ops sigma).1 (k : Int) = 1 := by
  have hR := gaussianRad_pos sigma
  have hD := gaussianDia_eq sigma
  have htap : ∀ k, 0 < gaussianTap ops sigma k := fun k => hexp _
  have hS : 0 < ∑ m in Finset.range (gaussianDia sigma).toNat,
      gaussianTap ops sigma (-gaussianRad sigma + (m : Int)) := by
    apply Finset.sum_pos
    · intro m _; exact htap _
    · rw [Finset.nonempty_range_iff]; omega
  refine ⟨?_, ?_, ?_⟩
  · intro i h0 h1
    rw [gaussianWeights_apply ops sigma i h0 h1]
    exact div_nonneg (le_of_lt (htap _)) (le_of_lt hS)
  · intro i h0 h1
    rw [gaussianWeights_apply ops sigma i h0 h1,
      gaussianWeights_apply ops sigma (gaussianDia sigma - 1 - i) (by omega) (by omega)]
    congr 1
    unfold gaussianTap
    congr 3
    rw [hD]; ring
  · have e : ∀ k ∈ Finset.range (gaussianDia sigma).toNat,
        (gaussianWeights ops sigma).1 (k : Int) =
          gaussianTap ops sigma (-gaussianRad sigma + (k : Int)) /
            ∑ m in Finset.range (gaussianDia sigma).toNat,
              gaussianTap ops sigma (-gaussianRad sigma + (m : Int)) := by
      intro k hk
      rw [Finset.mem_range] at hk
      rw [gaussianWeights_apply ops sigma k (by omega) (by omega)]
      congr 2; ring
    rw [Finset.sum_congr rfl e, ← Finset.sum_div]
    exact div_self (ne_of_gt hS)

/-- C7 witness: the real exponential at `sigma = 1`. -/
theorem gaussianWeights_kernel_witness :
    (0 : ℝ) < 1 ∧
    (∀ i, 0 ≤ i → i < gaussianDia (1 : ℝ) →
        0 ≤ (gaussianWeights ⟨Real.sqrt, fun y x => Complex.arg ⟨x, y⟩, Real.tan, Real.exp,
          Real.pi, 340282346638528859811704183484516925440⟩ (1 : ℝ)).1 i) ∧
      (∀ i, 0 ≤ i → i < gaussianDia (1 : ℝ) →
        (gaussianWeights ⟨Real.sqrt, fun y x => Complex.arg ⟨x, y⟩, Real.tan, Real.exp,
          Real.pi, 340282346638528859811704183484516925440⟩ (1 : ℝ)).1 i =
          (gaussianWeights ⟨Real.sqrt, fun y x => Complex.arg ⟨x, y⟩, Real.tan, Real.exp,
            Real.pi, 340282346638528859811704183484516925440⟩ (1 : ℝ)).1
              (gaussianDia (1 : ℝ) - 1 - i)) ∧
      ∑ k in Finset.range (gaussianDia (1 : ℝ)).toNat,
        (gaussianWeights ⟨Real.sqrt, fun y x => Complex.arg ⟨x, y⟩, Real.tan, Real.exp,
          Real.pi, 340282346638528859811704183484516925440⟩ (1 : ℝ)).1 (k : Int) = 1 :=
  ⟨one_pos,
    gaussianWeights_kernel ⟨Real.sqrt, fun y x => Complex.arg ⟨x, y⟩, Real.tan, Real.exp,
      Real.pi, 340282346638528859811704183484516925440⟩ (1 : ℝ) one_pos
      (fun x => Real.exp_pos x)⟩


section Smoother
variable {α : Type} [LinearOrderedField α]

/-- The value `genConvV` leaves at a pixel of the plane: the sum of the taps. -/
theorem genConvV_apply (srcp dstp : Int → α) (width height stride rad : Int)
    (weights : Int → α) (offset : α) (hs : width ≤ stride) (x y : Int)
    (hx0 : 0 ≤ x) (hx1 : x < width) (hy0 : 0 ≤ y) (hy1 : y < height) :
    genConvV srcp dstp width height stride rad weights offset (x + y * stride) =
      ∑ k in Finset.range (rad + 1 - -rad).toNat,
        (srcp (x + reflect (y + (-rad + (k : Int))) height * stride) + offset) *
          weights (rad + (-rad + (k : Int))) := by
  unfold genConvV
  have key := forLoop2_cell (fun _ : Int → α => True) (fun _ => True)
    (fun t => t (x + y * stride) =
      ∑ k in Finset.range (rad + 1 - -rad).toNat,
        (srcp (x + reflect (y + (-rad + (k : Int))) height * stride) + offset) *
          weights (rad + (-rad + (k : Int))))
    0 height 0 width y x
    (fun y x dst =>
      Function.update dst (x + y * stride)
        (forLoop (-rad) (rad + 1)
          (fun v sum => sum + (srcp (x + reflect (y + v) height * stride) + offset) *
            weights (rad + v)) 0))
    dstp ⟨hy0, hy1⟩ ⟨hx0, hx1⟩
    (fun _ _ _ _ _ _ _ _ => trivial)
    (fun _ _ _ _ _ _ _ _ _ _ => trivial)
    (by
      intro t _ _
      simp only [Function.update_same]
      rw [forLoop_sum]; simp)
    (by
      intro y' x' t h1 h2 h3 h4 hne _ hq
      have e : x + y * stride ≠ x' + y' * stride := by
        intro e
        obtain ⟨e1, e2⟩ := idx_inj stride x y x' y' hx0 (by omega) h3 (by omega) e
        rcases hne with hne | hne
        · exact hne e2.symm
        · exact hne e1.symm
      simp only [Function.update_noteq e]
      exact hq)
    trivial trivial
  exact key.2

/-- A tap loop whose samples all equal `d` returns `d` when the weights sum to 1. -/
theorem tap_sum_const (f : Int → α) (d : α) (rad : Int) (weights : Int → α)
    (hsum : ∑ k in Finset.range (2 * rad + 1).toNat, weights (k : Int) = 1)
    (hf : ∀ v, -rad ≤ v → v ≤ rad → f v = d) :
    forLoop (-rad) (rad + 1) (fun v sum => sum + f v * weights (rad + v)) 0 = d := by
  rw [forLoop_sum]
  have e0 : (rad + 1 - -rad).toNat = (2 * rad + 1).toNat := by congr 1; ring
  rw [e0]
  have e : ∀ k ∈ Finset.range (2 * rad + 1).toNat,
      f (-rad + (k : Int)) * weights (rad + (-rad + (k : Int))) = d * weights (k : Int) := by
    intro k hk
    rw [Finset.mem_range] at hk
    rw [hf (-rad + (k : Int)) (by omega) (by omega)]
    congr 2; ring
  rw [Finset.sum_congr rfl e, ← Finset.mul_sum, hsum]
  simp

theorem genConvV_const (srcp dstp : Int → α) (width height stride rad : Int)
    (weights : Int → α) (offset c : α)
    (hrh : rad < height)
    (hsum : ∑ k in Finset.range (2 * rad + 1).toNat, weights (k : Int) = 1)
    (hc : ∀ x y, 0 ≤ x → x < width → 0 ≤ y → y < height → srcp (x + y * stride) = c)
    (x y : Int) (hx0 : 0 ≤ x) (hx1 : x < width) (hy0 : 0 ≤ y) (hy1 : y < height) :
    genConvV srcp dstp width height stride rad weights offset (x + y * stride) = c + offset := by
  have hval : ∀ x' y', 0 ≤ x' → x' < width → 0 ≤ y' → y' < height →
      forLoop (-rad) (rad + 1)
        (fun v sum => sum + (srcp (x' + reflect (y' + v) height * stride) + offset) *
          weights (rad + v)) 0 = c + offset := by
    intro x' y' h1 h2 h3 h4
    apply tap_sum_const (fun v => srcp (x' + reflect (y' + v) height * stride) + offset)
      (c + offset) rad weights hsum
    intro v hv0 hv1
    obtain ⟨a, b⟩ := reflect_bounds height rad y' v hrh h3 h4 hv0 hv1
    rw [hc x' _ h1 h2 a b]
  unfold genConvV
  have key := forLoop2_cell (fun _ : Int → α => True) (fun _ => True)
    (fun t => t (x + y * stride) = c + offset)
    0 height 0 width y x
    (fun y x dst =>
      Function.update dst (x + y * stride)
        (forLoop (-rad) (rad + 1)
          (fun v sum => sum + (srcp (x + reflect (y + v) height * stride) + offset) *
            weights (rad + v)) 0))
    dstp ⟨hy0, hy1⟩ ⟨hx0, hx1⟩
    (fun _ _ _ _ _ _ _ _ => trivial)
    (fun _ _ _ _ _ _ _ _ _ _ => trivial)
    (by
      intro t _ _
      simp only [Function.update_same]
      exact hval x y hx0 hx1 hy0 hy1)
    (by
      intro y' x' t h1 h2 h3 h4 _ _ hq
      simp only [Function.update_apply]
      split_ifs
      · exact hval x' y' h3 h4 h1 h2
      · exact hq)
    trivial trivial
  exact key.2

theorem genConvH_const (srcp dstp : Int → α) (width height stride rad : Int)
    (weights : Int → α) (d : α)
    (hrw : rad < width)
    (hsum : ∑ k in Finset.range (2 * rad + 1).toNat, weights (k : Int) = 1)
    (hc : ∀ x y, 0 ≤ x → x < width → 0 ≤ y → y < height → srcp (x + y * stride) = d)
    (x y : Int) (hx0 : 0 ≤ x) (hx1 : x < width) (hy0 : 0 ≤ y) (hy1 : y < height) :
    genConvH srcp dstp width height stride rad weights (x + y * stride) = d := by
  have hval : ∀ x' y', 0 ≤ x' → x' < width → 0 ≤ y' → y' < height →
      forLoop (-rad) (rad + 1)
        (fun v sum => sum + srcp (reflect (x' + v) width + y' * stride) *
          weights (rad + v)) 0 = d := by
    intro x' y' h1 h2 h3 h4
    apply tap_sum_const (fun v => srcp (reflect (x' + v) width + y' * stride))
      d rad weights hsum
    intro v hv0 hv1
    obtain ⟨a, b⟩ := reflect_bounds width rad x' v hrw h1 h2 hv0 hv1
    rw [hc _ y' a b h3 h4]
  unfold genConvH
  have key := forLoop2_cell (fun _ : Int → α => True) (fun _ => True)
    (fun t => t (x + y * stride) = d)
    0 height 0 width y x
    (fun y x dst =>
      Function.update dst (x + y * stride)
        (forLoop (-rad) (rad + 1)
          (fun v sum => sum + srcp (reflect (x + v) width + y * stride) *
            weights (rad + v)) 0))
    dstp ⟨hy0, hy1⟩ ⟨hx0, hx1⟩
    (fun _ _ _ _ _ _ _ _ => trivial)
    (fun _ _ _ _ _ _ _ _ _ _ => trivial)
    (by
      intro t _ _
      simp only [Function.update_same]
      exact hval x y hx0 hx1 hy0 hy1)
    (by
      intro y' x' t h1 h2 h3 h4 _ _ hq
      simp only [Function.update_apply]
      split_ifs
      · exact hval x' y' h3 h4 h1 h2
      · exact hq)
    trivial trivial
  exact key.2

end Smoother

/-- C6: on a plane whose samples all equal `c`, with a kernel whose weights
sum to 1 and whose radius is smaller than both width and height (a negative
radius has no weights to sum to 1), `genConvV` followed by `genConvH` (as `TCanny` calls them, lines 354-355) writes exactly
`c + offset` at every pixel of the plane, mirrored taps included. -/
theorem smoothing_constant_plane {α : Type} [LinearOrderedField α]
    (srcp fa1 fa0 : Int → α) (width height stride rad : Int) (weights : Int → α)
    (offset c : α) (hrw : rad < width) (hrh : rad < height)
    (hsum : ∑ k in Finset.range (2 * rad + 1).toNat, weights (k : Int) = 1)
    (hc : ∀ x y, 0 ≤ x → x < width → 0 ≤ y → y < height → srcp (x + y * stride) = c) :
    ∀ x y, 0 ≤ x → x < width → 0 ≤ y → y < height →
      genConvH (genConvV srcp fa1 width height stride rad weights offset) fa0
        width height stride rad weights (x + y * stride) = c + offset := by
  intro x y hx0 hx1 hy0 hy1
  exact genConvH_const _ fa0 width height stride rad weights (c + offset) hrw hsum
    (fun x' y' h1 h2 h3 h4 =>
      genConvV_const srcp fa1 width height stride rad weights offset c hrh hsum hc
        x' y' h1 h2 h3 h4)
    x y hx0 hx1 hy0 hy1

/-- C6 witness: a 4x4 plane of the constant 100 with stride 6 (the padding
holds other values), offset 1/2 and the radius-1 kernel `1/4, 1/2, 1/4`. -/
theorem smoothing_constant_plane_witness :
    (1 : Int) < 4 ∧
    (∑ k in Finset.range (2 * (1 : Int) + 1).toNat,
      (fun i : Int => if i = 1 then (1 / 2 : ℚ) else 1 / 4) (k : Int) = 1) ∧
    (∀ x y : Int, 0 ≤ x → x < 4 → 0 ≤ y → y < 4 →
      (fun i : Int => if i % 6 < 4 then (100 : ℚ) else 7) (x + y * 6) = 100) ∧
    ∀ x y : Int, 0 ≤ x → x < 4 → 0 ≤ y → y < 4 →
      genConvH (genConvV (fun i : Int => if i % 6 < 4 then (100 : ℚ) else 7) (fun _ => 0)
          4 4 6 1 (fun i : Int => if i = 1 then (1 / 2 : ℚ) else 1 / 4) (1 / 2))
        (fun _ => 0) 4 4 6 1 (fun i : Int => if i = 1 then (1 / 2 : ℚ) else 1 / 4)
        (x + y * 6) = 100 + 1 / 2 :=
  have hsum : ∑ k in Finset.range (2 * (1 : Int) + 1).toNat,
      (fun i : Int => if i = 1 then (1 / 2 : ℚ) else 1 / 4) (k : Int) = 1 := by
    simp [Finset.sum_range_succ]; norm_num
  have hc : ∀ x y : Int, 0 ≤ x → x < 4 → 0 ≤ y → y < 4 →
      (fun i : Int => if i % 6 < 4 then (100 : ℚ) else 7) (x + y * 6) = 100 := by
    intro x y h1 h2 h3 h4
    have : (x + y * 6) % 6 < 4 := by omega
    show (if (x + y * 6) % 6 < 4 then (100 : ℚ) else 7) = 100
    rw [if_pos this]
  ⟨by decide, hsum, hc,
    smoothing_constant_plane (fun i : Int => if i % 6 < 4 then (100 : ℚ) else 7) (fun _ => 0)
      (fun _ => 0) 4 4 6 1 (fun i : Int => if i = 1 then (1 / 2 : ℚ) else 1 / 4) (1 / 2) 100
      (by decide) (by decide) hsum hc⟩


/-- C5 (the code at the failing input): with the default `sigma = 1.5` the
radius is 5; on a 5x5 plane with stride 32 (160 elements, rows 0..4) the tap
`v = -5` of row 0 is mirrored once, to row 5, and the value `genConvV` writes
for pixel `(0, 0)` contains `srcp[0 + 5 * 32]`, the element after the plane. -/
theorem genConvV_reads_outside_plane (srcp dstp weights : Int → ℚ) (offset : ℚ) :
    gaussianRad (3 / 2 : ℚ) = 5 ∧ reflect (0 + -5) 5 = 5 ∧
      genConvV srcp dstp 5 5 32 (gaussianRad (3 / 2 : ℚ)) weights offset (0 + 0 * 32) =
        (srcp 160 + offset) * weights 0 + (srcp 128 + offset) * weights 1 +
        (srcp 96 + offset) * weights 2 + (srcp 64 + offset) * weights 3 +
        (srcp 32 + offset) * weights 4 + (srcp 0 + offset) * weights 5 +
        (srcp 32 + offset) * weights 6 + (srcp 64 + offset) * weights 7 +
        (srcp 96 + offset) * weights 8 + (srcp 128 + offset) * weights 9 +
        (srcp 96 + offset) * weights 10 := by
  have hr : gaussianRad (3 / 2 : ℚ) = 5 := by
    rw [gaussianRad_eq, truncToInt_of_nonneg _ (by norm_num)]
    norm_num
  refine ⟨hr, by decide, ?_⟩
  rw [hr, genConvV_apply srcp dstp 5 5 32 5 weights offset (by decide) 0 0
    (by decide) (by decide) (by decide) (by decide)]
  simp [Finset.sum_range_succ, reflect]

/-! ## `gmDirImages` -/

section Gradient
variable {α : Type} [LinearOrderedField α] [FloorRing α]

theorem gmPixel_srcp (ops : FloatOps α) (stride mode op y x : Int) (st : GmState α) :
    (gmPixel ops stride mode op y x st).srcp = st.srcp := by
  unfold gmPixel; split_ifs <;> rfl

theorem gmPixel_gimg (ops : FloatOps α) (stride mode op y x : Int) (st : GmState α) :
    (gmPixel ops stride mode op y x st).gimg =
      Function.update st.gimg (x + y * stride)
        (gmMagnitude ops (gmGradient op stride st.srcp (x + y * stride))) := by
  unfold gmPixel; split_ifs <;> rfl

theorem gmPixel_dimg (ops : FloatOps α) (stride mode op y x : Int) (st : GmState α) :
    (gmPixel ops stride mode op y x st).dimg =
      if mode = 1 then st.dimg
      else Function.update st.dimg (x + y * stride)
        (gmDirection ops (gmGradient op stride st.srcp (x + y * stride))) := by
  unfold gmPixel; split_ifs <;> rfl

/-- The condition under which the body of the suppression loops leaves the
pixel alone: some enabled variant passes. -/
theorem nmsPixel_srcp (ops : FloatOps α) (stride nms y x : Int) (st : GmState α) :
    (nmsPixel ops stride nms y x st).srcp =
      if (and1 nms ≠ 0 ∧ nmsCoarsePass ops stride st.gimg st.dimg (x + y * stride)) ∨
          (and2 nms ≠ 0 ∧ nmsFinePass ops stride st.gimg st.dimg (x + y * stride))
      then st.srcp
      else Function.update st.srcp (x + y * stride) (-ops.fltMax) := by
  unfold nmsPixel
  by_cases h1 : and1 nms ≠ 0 ∧ nmsCoarsePass ops stride st.gimg st.dimg (x + y * stride)
  · rw [if_pos h1, if_pos (Or.inl h1)]
  · rw [if_neg h1]
    by_cases h2 : and2 nms ≠ 0 ∧ nmsFinePass ops stride st.gimg st.dimg (x + y * stride)
    · rw [if_pos h2, if_pos (Or.inr h2)]
    · rw [if_neg h2, if_neg (by rintro (h | h); exact h1 h; exact h2 h)]

theorem nmsPixel_srcp_other (ops : FloatOps α) (stride nms y x : Int) (st : GmState α)
    (i : Int) (e : i ≠ x + y * stride) :
    (nmsPixel ops stride nms y x st).srcp i = st.srcp i := by
  rw [nmsPixel_srcp]
  split_ifs
  · rfl
  · exact Function.update_noteq e _ _

theorem gmPixel_other (ops : FloatOps α) (stride mode op y x : Int) (st : GmState α)
    (i : Int) (e : i ≠ x + y * stride) :
    (gmPixel ops stride mode op y x st).gimg i = st.gimg i ∧
      (gmPixel ops stride mode op y x st).dimg i = st.dimg i := by
  rw [gmPixel_gimg, gmPixel_dimg]
  refine ⟨Function.update_noteq e _ _, ?_⟩
  split_ifs
  · rfl
  · exact Function.update_noteq e _ _

theorem nmsPixel_gimg (ops : FloatOps α) (stride nms y x : Int) (st : GmState α) :
    (nmsPixel ops stride nms y x st).gimg = st.gimg := by
  unfold nmsPixel; split_ifs <;> rfl

theorem nmsPixel_dimg (ops : FloatOps α) (stride nms y x : Int) (st : GmState α) :
    (nmsPixel ops stride nms y x st).dimg = st.dimg := by
  unfold nmsPixel; split_ifs <;> rfl

/-- Two pixels with columns in `[0, stride)` that are not the same pixel have
different indices. -/
theorem idx_ne (stride x y x' y' : Int) (hx : 0 ≤ x) (hxs : x < stride) (hx' : 0 ≤ x')
    (hxs' : x' < stride) (hne : y' ≠ y ∨ x' ≠ x) : x + y * stride ≠ x' + y' * stride := by
  intro e
  obtain ⟨e1, e2⟩ := idx_inj stride x y x' y' hx hxs hx' hxs' e
  rcases hne with hne | hne
  · exact hne e2.symm
  · exact hne e1.symm

/-- The suppression pass writes neither B nor C. -/
theorem gmSuppressPass_frame (ops : FloatOps α) (width height stride nms : Int)
    (st : GmState α) :
    (gmSuppressPass ops width height stride nms st).gimg = st.gimg ∧
      (gmSuppressPass ops width height stride nms st).dimg = st.dimg := by
  unfold gmSuppressPass
  exact forLoop2_preserve (fun t : GmState α => t.gimg = st.gimg ∧ t.dimg = st.dimg)
    1 (height - 1) 1 (width - 1) (fun y x s => nmsPixel ops stride nms y x s) st ⟨rfl, rfl⟩
    (fun y x t _ _ _ _ h => by
      beta_reduce at h ⊢; rw [nmsPixel_gimg, nmsPixel_dimg]; exact h)

/-- Every cell of A is, after the suppression pass, what it was or the sentinel. -/
theorem gmSuppressPass_cell (ops : FloatOps α) (width height stride nms : Int)
    (st : GmState α) (i : Int) :
    (gmSuppressPass ops width height stride nms st).srcp i = st.srcp i ∨
      (gmSuppressPass ops width height stride nms st).srcp i = -ops.fltMax := by
  unfold gmSuppressPass
  exact forLoop2_preserve
    (fun t : GmState α => t.srcp i = st.srcp i ∨ t.srcp i = -ops.fltMax)
    1 (height - 1) 1 (width - 1) (fun y x s => nmsPixel ops stride nms y x s) st (Or.inl rfl)
    (fun y x t _ _ _ _ h => by
      beta_reduce at h ⊢
      rw [nmsPixel_srcp]
      split_ifs
      · exact h
      · by_cases e : i = x + y * stride
        · subst e; right; simp
        · rw [Function.update_noteq e]; exact h)

/-- A cell of A that is not an interior pixel is not written by the suppression pass. -/
theorem gmSuppressPass_untouched (ops : FloatOps α) (width height stride nms : Int)
    (st : GmState α) (i : Int)
    (hi : ∀ x y, interior width height x y → i ≠ x + y * stride) :
    (gmSuppressPass ops width height stride nms st).srcp i = st.srcp i := by
  unfold gmSuppressPass
  exact forLoop2_preserve (fun t : GmState α => t.srcp i = st.srcp i)
    1 (height - 1) 1 (width - 1) (fun y x s => nmsPixel ops stride nms y x s) st rfl
    (fun y x t h1 h2 h3 h4 h => by
      beta_reduce at h ⊢
      rw [nmsPixel_srcp_other _ _ _ _ _ _ _ (hi x y (by unfold interior; omega))]; exact h)

/-- What the suppression pass leaves at an interior pixel. -/
theorem gmSuppressPass_interior (ops : FloatOps α) (width height stride nms : Int)
    (st : GmState α) (hs : width ≤ stride) (x y : Int) (hq : interior width height x y) :
    (gmSuppressPass ops width height stride nms st).srcp (x + y * stride) =
      if (and1 nms ≠ 0 ∧ nmsCoarsePass ops stride st.gimg st.dimg (x + y * stride)) ∨
          (and2 nms ≠ 0 ∧ nmsFinePass ops stride st.gimg st.dimg (x + y * stride))
      then st.srcp (x + y * stride)
      else -ops.fltMax := by
  have hq' := hq
  unfold interior at hq'
  unfold gmSuppressPass
  have key := forLoop2_cell
    (fun t : GmState α => t.gimg = st.gimg ∧ t.dimg = st.dimg)
    (fun t => t.srcp (x + y * stride) = st.srcp (x + y * stride))
    (fun t => t.srcp (x + y * stride) =
      if (and1 nms ≠ 0 ∧ nmsCoarsePass ops stride st.gimg st.dimg (x + y * stride)) ∨
          (and2 nms ≠ 0 ∧ nmsFinePass ops stride st.gimg st.dimg (x + y * stride))
      then st.srcp (x + y * stride)
      else -ops.fltMax)
    1 (height - 1) 1 (width - 1) y x (fun y x s => nmsPixel ops stride nms y x s) st
    (by omega) (by omega)
    (fun y x t _ _ _ _ h => by
      beta_reduce at h ⊢; rw [nmsPixel_gimg, nmsPixel_dimg]; exact h)
    (by
      intro y' x' t h1 h2 h3 h4 hne _ h
      beta_reduce at h ⊢
      have e := idx_ne stride x y x' y' (by omega) (by omega) (by omega) (by omega) hne
      rw [nmsPixel_srcp_other _ _ _ _ _ _ _ e]; exact h)
    (by
      intro t ⟨hg, hd⟩ h
      beta_reduce at h ⊢
      rw [nmsPixel_srcp, hg, hd]
      by_cases hk : (and1 nms ≠ 0 ∧ nmsCoarsePass ops stride st.gimg st.dimg (x + y * stride)) ∨
          (and2 nms ≠ 0 ∧ nmsFinePass ops stride st.gimg st.dimg (x + y * stride))
      · rw [if_pos hk, if_pos hk]; exact h
      · rw [if_neg hk, if_neg hk]; simp)
    (by
      intro y' x' t h1 h2 h3 h4 hne _ h
      beta_reduce at h ⊢
      have e := idx_ne stride x y x' y' (by omega) (by omega) (by omega) (by omega) hne
      rw [nmsPixel_srcp_other _ _ _ _ _ _ _ e]; exact h)
    ⟨rfl, rfl⟩ rfl
  exact key.2

/-- After the gradient pass, A equals B on the `stride * height` copied cells. -/
theorem gmGradientPass_copy (ops : FloatOps α) (srcp gimg dimg : Int → α)
    (width height stride mode op : Int) (i : Int) (h0 : 0 ≤ i) (h1 : i < stride * height) :
    (gmGradientPass ops srcp gimg dimg width height stride mode op).srcp i =
      (gmGradientPass ops srcp gimg dimg width height stride mode op).gimg i := by
  unfold gmGradientPass
  simp [h0, h1]

/-- The magnitude and direction the gradient pass stores at an interior pixel. -/
theorem gmGradientPass_interior (ops : FloatOps α) (srcp gimg dimg : Int → α)
    (width height stride mode op : Int) (hs : width ≤ stride) (x y : Int)
    (hq : interior width height x y) :
    (gmGradientPass ops srcp gimg dimg width height stride mode op).gimg (x + y * stride) =
        gmMagnitude ops (gmGradient op stride srcp (x + y * stride)) ∧
      (gmGradientPass ops srcp gimg dimg width height stride mode op).dimg (x + y * stride) =
        if mode = 1 then 0 else gmDirection ops (gmGradient op stride srcp (x + y * stride)) := by
  have hq' := hq
  unfold interior at hq'
  obtain ⟨b0, b1⟩ := idx_bound stride height x y (by omega) (by omega) (by omega) (by omega)
  unfold gmGradientPass
  have key := forLoop2_cell
    (fun t : GmState α => t.srcp = srcp)
    (fun t => t.dimg (x + y * stride) = 0)
    (fun t => t.gimg (x + y * stride) =
        gmMagnitude ops (gmGradient op stride srcp (x + y * stride)) ∧
      t.dimg (x + y * stride) =
        if mode = 1 then 0 else gmDirection ops (gmGradient op stride srcp (x + y * stride)))
    1 (height - 1) 1 (width - 1) y x (fun y x s => gmPixel ops stride mode op y x s)
    { srcp := srcp
      gimg := fun i => if 0 ≤ i ∧ i < stride * height then 0 else gimg i
      dimg := fun i => if 0 ≤ i ∧ i < stride * height then 0 else dimg i }
    (by omega) (by omega)
    (fun y x t _ _ _ _ h => by beta_reduce at h ⊢; rw [gmPixel_srcp]; exact h)
    (by
      intro y' x' t h1 h2 h3 h4 hne _ h
      beta_reduce at h ⊢
      have e := idx_ne stride x y x' y' (by omega) (by omega) (by omega) (by omega) hne
      rw [(gmPixel_other ops stride mode op y' x' t _ e).2]; exact h)
    (by
      intro t hsrc h
      beta_reduce at hsrc h ⊢
      rw [gmPixel_gimg, gmPixel_dimg, hsrc]
      refine ⟨by simp, ?_⟩
      by_cases hm : mode = 1
      · rw [if_pos hm, if_pos hm]; exact h
      · rw [if_neg hm, if_neg hm]; simp)
    (by
      intro y' x' t h1 h2 h3 h4 hne _ h
      beta_reduce at h ⊢
      have e := idx_ne stride x y x' y' (by omega) (by omega) (by omega) (by omega) hne
      rw [(gmPixel_other ops stride mode op y' x' t _ e).1,
        (gmPixel_other ops stride mode op y' x' t _ e).2]
      exact h)
    rfl (by simp [b0, b1])
  exact key.2

/-- A cell of B and C inside the cleared range that is not an interior pixel
stays zero. -/
theorem gmGradientPass_untouched (ops : FloatOps α) (srcp gimg dimg : Int → α)
    (width height stride mode op : Int) (i : Int) (h0 : 0 ≤ i) (h1 : i < stride * height)
    (hi : ∀ x y, interior width height x y → i ≠ x + y * stride) :
    (gmGradientPass ops srcp gimg dimg width height stride mode op).gimg i = 0 ∧
      (gmGradientPass ops srcp gimg dimg width height stride mode op).dimg i = 0 := by
  unfold gmGradientPass
  exact forLoop2_preserve (fun t : GmState α => t.gimg i = 0 ∧ t.dimg i = 0)
    1 (height - 1) 1 (width - 1) (fun y x s => gmPixel ops stride mode op y x s)
    { srcp := srcp
      gimg := fun i => if 0 ≤ i ∧ i < stride * height then 0 else gimg i
      dimg := fun i => if 0 ≤ i ∧ i < stride * height then 0 else dimg i }
    (by simp [h0, h1])
    (fun y x t h1 h2 h3 h4 h => by
      beta_reduce at h ⊢
      have e := hi x y (by unfold interior; omega)
      rw [(gmPixel_other ops stride mode op y x t _ e).1,
        (gmPixel_other ops stride mode op y x t _ e).2]
      exact h)

theorem gmDirImages_gimg (ops : FloatOps α) (srcp gimg dimg : Int → α)
    (width height stride nms mode op : Int) :
    (gmDirImages ops srcp gimg dimg width height stride nms mode op).gimg =
        (gmGradientPass ops srcp gimg dimg width height stride mode op).gimg ∧
      (gmDirImages ops srcp gimg dimg width height stride nms mode op).dimg =
        (gmGradientPass ops srcp gimg dimg width height stride mode op).dimg := by
  unfold gmDirImages
  split_ifs
  · exact ⟨rfl, rfl⟩
  · exact gmSuppressPass_frame ops width height stride nms _

/-- Buffer A at an interior pixel after `gmDirImages` in the modes that run the
suppression pass: the magnitude when some enabled variant passes, the
sentinel otherwise. -/
theorem gmDirImages_interior (ops : FloatOps α) (srcp gimg dimg : Int → α)
    (width height stride nms mode op : Int) (hs : width ≤ stride) (hmode : and1 mode = 0)
    (x y : Int) (hq : interior width height x y) :
    (gmDirImages ops srcp gimg dimg width height stride nms mode op).srcp (x + y * stride) =
      if (and1 nms ≠ 0 ∧ nmsCoarsePass ops stride
            (gmDirImages ops srcp gimg dimg width height stride nms mode op).gimg
            (gmDirImages ops srcp gimg dimg width height stride nms mode op).dimg
            (x + y * stride)) ∨
          (and2 nms ≠ 0 ∧ nmsFinePass ops stride
            (gmDirImages ops srcp gimg dimg width height stride nms mode op).gimg
            (gmDirImages ops srcp gimg dimg width height stride nms mode op).dimg
            (x + y * stride))
      then (gmDirImages ops srcp gimg dimg width height stride nms mode op).gimg (x + y * stride)
      else -ops.fltMax := by
  obtain ⟨eg, ed⟩ := gmDirImages_gimg ops srcp gimg dimg width height stride nms mode op
  rw [eg, ed]
  have hq' := hq
  unfold interior at hq'
  obtain ⟨b0, b1⟩ := idx_bound stride height x y (by omega) (by omega) (by omega) (by omega)
  unfold gmDirImages
  rw [if_neg (by rw [hmode]; simp)]
  rw [gmSuppressPass_interior ops width height stride nms _ hs x y hq,
    gmGradientPass_copy ops srcp gimg dimg width height stride mode op _ b0 b1]

end Gradient

/-- C10: after `gmDirImages` every pixel of the plane holds in buffer A either
its magnitude (the value in buffer B) or the sentinel `-FLT_MAX`; border pixels
hold the magnitude; in modes 1 and 3 every pixel holds the magnitude; and the
suppression pass leaves buffers B and C as the gradient pass produced them. -/
theorem gmDirImages_only_suppresses {α : Type} [LinearOrderedField α] [FloorRing α]
    (ops : FloatOps α) (srcp gimg dimg : Int → α)
    (width height stride nms mode op : Int) (hs : width ≤ stride) :
    (∀ x y, 0 ≤ x → x < width → 0 ≤ y → y < height →
      (gmDirImages ops srcp gimg dimg width height stride nms mode op).srcp (x + y * stride) =
        (gmDirImages ops srcp gimg dimg width height stride nms mode op).gimg (x + y * stride) ∨
      (gmDirImages ops srcp gimg dimg width height stride nms mode op).srcp (x + y * stride) =
        -ops.fltMax) ∧
    (∀ x y, 0 ≤ x → x < width → 0 ≤ y → y < height → ¬ interior width height x y →
      (gmDirImages ops srcp gimg dimg width height stride nms mode op).srcp (x + y * stride) =
        (gmDirImages ops srcp gimg dimg width height stride nms mode op).gimg
          (x + y * stride)) ∧
    ((mode = 1 ∨ mode = 3) → ∀ x y, 0 ≤ x → x < width → 0 ≤ y → y < height →
      (gmDirImages ops srcp gimg dimg width height stride nms mode op).srcp (x + y * stride) =
        (gmDirImages ops srcp gimg dimg width height stride nms mode op).gimg
          (x + y * stride)) ∧
    (∀ st : GmState α,
      (gmSuppressPass ops width height stride nms st).gimg = st.gimg ∧
      (gmSuppressPass ops width height stride nms st).dimg = st.dimg) ∧
    (gmDirImages ops srcp gimg dimg width height stride nms mode op).gimg =
      (gmGradientPass ops srcp gimg dimg width height stride mode op).gimg ∧
    (gmDirImages ops srcp gimg dimg width height stride nms mode op).dimg =
      (gmGradientPass ops srcp gimg dimg width height stride mode op).dimg := by
  obtain ⟨eg, ed⟩ := gmDirImages_gimg ops srcp gimg dimg width height stride nms mode op
  refine ⟨?_, ?_, ?_, fun st => gmSuppressPass_frame ops width height stride nms st, eg, ed⟩
  · intro x y hx0 hx1 hy0 hy1
    obtain ⟨b0, b1⟩ := idx_bound stride height x y hx0 (by omega) hy0 hy1
    rw [eg, ← gmGradientPass_copy ops srcp gimg dimg width height stride mode op _ b0 b1]
    unfold gmDirImages
    split_ifs
    · exact Or.inl rfl
    · exact gmSuppressPass_cell ops width height stride nms _ _
  · intro x y hx0 hx1 hy0 hy1 hni
    obtain ⟨b0, b1⟩ := idx_bound stride height x y hx0 (by omega) hy0 hy1
    rw [eg, ← gmGradientPass_copy ops srcp gimg dimg width height stride mode op _ b0 b1]
    unfold gmDirImages
    split_ifs
    · rfl
    · apply gmSuppressPass_untouched
      intro x' y' hq' e
      have hq := hq'
      unfold interior at hq
      obtain ⟨e1, e2⟩ := idx_inj stride x y x' y' hx0 (by omega) (by omega) (by omega) e
      subst e1; subst e2
      exact hni hq'
  · intro hm x y hx0 hx1 hy0 hy1
    obtain ⟨b0, b1⟩ := idx_bound stride height x y hx0 (by omega) hy0 hy1
    rw [eg, ← gmGradientPass_copy ops srcp gimg dimg width height stride mode op _ b0 b1]
    unfold gmDirImages
    rw [if_pos (by rcases hm with hm | hm <;> subst hm <;> decide)]

/-- C10 witness: a 4x3 plane with stride 4, both variants enabled, mode 0,
operator 1, over the reals. -/
theorem gmDirImages_only_suppresses_witness :
    (4 : Int) ≤ 4 ∧
    ((∀ x y : Int, 0 ≤ x → x < 4 → 0 ≤ y → y < 3 →
      (gmDirImages (⟨Real.sqrt, fun y x => Complex.arg ⟨x, y⟩, Real.tan, Real.exp, Real.pi,
            340282346638528859811704183484516925440⟩ : FloatOps ℝ) (fun i => (i : ℝ))
          (fun _ => 0) (fun _ => 0) 4 3 4 3 0 1).srcp (x + y * 4) =
        (gmDirImages (⟨Real.sqrt, fun y x => Complex.arg ⟨x, y⟩, Real.tan, Real.exp, Real.pi,
            340282346638528859811704183484516925440⟩ : FloatOps ℝ) (fun i => (i : ℝ))
          (fun _ => 0) (fun _ => 0) 4 3 4 3 0 1).gimg (x + y * 4) ∨
      (gmDirImages (⟨Real.sqrt, fun y x => Complex.arg ⟨x, y⟩, Real.tan, Real.exp, Real.pi,
            340282346638528859811704183484516925440⟩ : FloatOps ℝ) (fun i => (i : ℝ))
          (fun _ => 0) (fun _ => 0) 4 3 4 3 0 1).srcp (x + y * 4) =
        -(⟨Real.sqrt, fun y x => Complex.arg ⟨x, y⟩, Real.tan, Real.exp, Real.pi,
            340282346638528859811704183484516925440⟩ : FloatOps ℝ).fltMax) ∧
    (∀ x y : Int, 0 ≤ x → x < 4 → 0 ≤ y → y < 3 → ¬ interior 4 3 x y →
      (gmDirImages (⟨Real.sqrt, fun y x => Complex.arg ⟨x, y⟩, Real.tan, Real.exp, Real.pi,
            340282346638528859811704183484516925440⟩ : FloatOps ℝ) (fun i => (i : ℝ))
          (fun _ => 0) (fun _ => 0) 4 3 4 3 0 1).srcp (x + y * 4) =
        (gmDirImages (⟨Real.sqrt, fun y x => Complex.arg ⟨x, y⟩, Real.tan, Real.exp, Real.pi,
            340282346638528859811704183484516925440⟩ : FloatOps ℝ) (fun i => (i : ℝ))
          (fun _ => 0) (fun _ => 0) 4 3 4 3 0 1).gimg (x + y * 4)) ∧
    (((0 : Int) = 1 ∨ (0 : Int) = 3) → ∀ x y : Int, 0 ≤ x → x < 4 → 0 ≤ y → y < 3 →
      (gmDirImages (⟨Real.sqrt, fun y x => Complex.arg ⟨x, y⟩, Real.tan, Real.exp, Real.pi,
            340282346638528859811704183484516925440⟩ : FloatOps ℝ) (fun i => (i : ℝ))
          (fun _ => 0) (fun _ => 0) 4 3 4 3 0 1).srcp (x + y * 4) =
        (gmDirImages (⟨Real.sqrt, fun y x => Complex.arg ⟨x, y⟩, Real.tan, Real.exp, Real.pi,
            340282346638528859811704183484516925440⟩ : FloatOps ℝ) (fun i => (i : ℝ))
          (fun _ => 0) (fun _ => 0) 4 3 4 3 0 1).gimg (x + y * 4)) ∧
    (∀ st : GmState ℝ,
      (gmSuppressPass (⟨Real.sqrt, fun y x => Complex.arg ⟨x, y⟩, Real.tan, Real.exp, Real.pi,
            340282346638528859811704183484516925440⟩ : FloatOps ℝ) 4 3 4 3 st).gimg =
        st.gimg ∧
      (gmSuppressPass (⟨Real.sqrt, fun y x => Complex.arg ⟨x, y⟩, Real.tan, Real.exp, Real.pi,
            340282346638528859811704183484516925440⟩ : FloatOps ℝ) 4 3 4 3 st).dimg =
        st.dimg) ∧
    (gmDirImages (⟨Real.sqrt, fun y x => Complex.arg ⟨x, y⟩, Real.tan, Real.exp, Real.pi,
            340282346638528859811704183484516925440⟩ : FloatOps ℝ) (fun i => (i : ℝ))
        (fun _ => 0) (fun _ => 0) 4 3 4 3 0 1).gimg =
      (gmGradientPass (⟨Real.sqrt, fun y x => Complex.arg ⟨x, y⟩, Real.tan, Real.exp, Real.pi,
            340282346638528859811704183484516925440⟩ : FloatOps ℝ) (fun i => (i : ℝ))
        (fun _ => 0) (fun _ => 0) 4 3 4 0 1).gimg ∧
    (gmDirImages (⟨Real.sqrt, fun y x => Complex.arg ⟨x, y⟩, Real.tan, Real.exp, Real.pi,
            340282346638528859811704183484516925440⟩ : FloatOps ℝ) (fun i => (i : ℝ))
        (fun _ => 0) (fun _ => 0) 4 3 4 3 0 1).dimg =
      (gmGradientPass (⟨Real.sqrt, fun y x => Complex.arg ⟨x, y⟩, Real.tan, Real.exp, Real.pi,
            340282346638528859811704183484516925440⟩ : FloatOps ℝ) (fun i => (i : ℝ))
        (fun _ => 0) (fun _ => 0) 4 3 4 0 1).dimg) :=
  ⟨by decide,
    gmDirImages_only_suppresses
      (⟨Real.sqrt, fun y x => Complex.arg ⟨x, y⟩, Real.tan, Real.exp, Real.pi,
            340282346638528859811704183484516925440⟩ : FloatOps ℝ)
      (fun i => (i : ℝ)) (fun _ => 0) (fun _ => 0) 4 3 4 3 0 1 (by decide)⟩

/-- C2 (the code at the failing input): on a 3x3 plane with `nms = 0`, in
mode 0 and in mode 2, whatever the operator and the buffers, the interior
pixel `(1, 1)` of buffer A receives the sentinel `-FLT_MAX`. -/
theorem gmDirImages_nms0_suppresses {α : Type} [LinearOrderedField α] [FloorRing α]
    (ops : FloatOps α) (srcp gimg dimg : Int → α) (op : Int) :
    (gmDirImages ops srcp gimg dimg 3 3 3 0 0 op).srcp (1 + 1 * 3) = -ops.fltMax ∧
      (gmDirImages ops srcp gimg dimg 3 3 3 0 2 op).srcp (1 + 1 * 3) = -ops.fltMax := by
  have hq : interior 3 3 1 1 := by decide
  constructor
  · rw [gmDirImages_interior ops srcp gimg dimg 3 3 3 0 0 op (by decide) (by decide) 1 1 hq]
    rw [if_neg]
    rintro (⟨h, _⟩ | ⟨h, _⟩) <;> exact h (by decide)
  · rw [gmDirImages_interior ops srcp gimg dimg 3 3 3 0 2 op (by decide) (by decide) 1 1 hq]
    rw [if_neg]
    rintro (⟨h, _⟩ | ⟨h, _⟩) <;> exact h (by decide)

/-- C3 (amended): with both variants enabled (`nms = 3`, mode 0 or 2) an
interior pixel keeps its magnitude in buffer A when it passes at least one of
the two tests (coarse or fine), and receives the sentinel when it fails both. -/
theorem gmDirImages_nms3_survival {α : Type} [LinearOrderedField α] [FloorRing α]
    (ops : FloatOps α) (srcp gimg dimg : Int → α) (width height stride mode op : Int)
    (hs : width ≤ stride) (hmode : mode = 0 ∨ mode = 2) (x y : Int)
    (hq : interior width height x y) :
    ((nmsCoarsePass ops stride
          (gmDirImages ops srcp gimg dimg width height stride 3 mode op).gimg
          (gmDirImages ops srcp gimg dimg width height stride 3 mode op).dimg (x + y * stride) ∨
        nmsFinePass ops stride
          (gmDirImages ops srcp gimg dimg width height stride 3 mode op).gimg
          (gmDirImages ops srcp gimg dimg width height stride 3 mode op).dimg (x + y * stride)) →
      (gmDirImages ops srcp gimg dimg width height stride 3 mode op).srcp (x + y * stride) =
        (gmDirImages ops srcp gimg dimg width height stride 3 mode op).gimg (x + y * stride)) ∧
    (¬ (nmsCoarsePass ops stride
          (gmDirImages ops srcp gimg dimg width height stride 3 mode op).gimg
          (gmDirImages ops srcp gimg dimg width height stride 3 mode op).dimg (x + y * stride) ∨
        nmsFinePass ops stride
          (gmDirImages ops srcp gimg dimg width height stride 3 mode op).gimg
          (gmDirImages ops srcp gimg dimg width height stride 3 mode op).dimg (x + y * stride)) →
      (gmDirImages ops srcp gimg dimg width height stride 3 mode op).srcp (x + y * stride) =
        -ops.fltMax) := by
  have hm : and1 mode = 0 := by rcases hmode with h | h <;> subst h <;> decide
  have h1 : and1 3 ≠ 0 := by decide
  have h2 : and2 3 ≠ 0 := by decide
  have key := gmDirImages_interior ops srcp gimg dimg width height stride 3 mode op hs hm x y hq
  constructor
  · intro h
    rw [key, if_pos]
    rcases h with h | h
    · exact Or.inl ⟨h1, h⟩
    · exact Or.inr ⟨h2, h⟩
  · intro h
    rw [key, if_neg]
    rintro (⟨_, h'⟩ | ⟨_, h'⟩)
    · exact h (Or.inl h')
    · exact h (Or.inr h')


section RealFacts
open Real

theorem arg41_facts : 0 ≤ Complex.arg ⟨4, 1⟩ ∧ Complex.arg ⟨4, 1⟩ < π / 8 ∧
    Real.tan (Complex.arg ⟨4, 1⟩) = 1 / 4 := by
  have h0 : 0 ≤ Complex.arg ⟨4, 1⟩ := Complex.arg_nonneg_iff.mpr (by simp)
  have h2 : Complex.arg ⟨4, 1⟩ < π / 2 :=
    Complex.arg_lt_pi_div_two_iff.mpr (Or.inl (by simp))
  have ht : Real.tan (Complex.arg ⟨4, 1⟩) = 1 / 4 := by
    rw [Complex.tan_arg]
  refine ⟨h0, ?_, ht⟩
  by_contra hge
  push_neg at hge
  have hpi := Real.pi_gt_three
  have h8 : π / 8 < Real.tan (π / 8) := Real.lt_tan (by positivity) (by linarith)
  have hmono : Real.tan (π / 8) ≤ Real.tan (Complex.arg ⟨4, 1⟩) := by
    rcases eq_or_lt_of_le hge with e | hlt
    · rw [e]
    · exact le_of_lt (Real.tan_lt_tan_of_lt_of_lt_pi_div_two (by linarith) h2 hlt)
  rw [ht] at hmono
  linarith

end RealFacts

section CexNms
open Real

theorem nms3_counterexample_aux (fm : ℝ) :
    (gmDirImages ⟨Real.sqrt, fun y x => Complex.arg ⟨x, y⟩, Real.tan, Real.exp, Real.pi, fm⟩
        (fun i : Int => if i = 1 then (1 : ℝ) else if i = 6 then 4 else if i = 7 then 5 else 0)
        (fun _ => 0) (fun _ => 0) 4 3 4 3 0 0).srcp 5 = Real.sqrt 17 ∧
    (gmDirImages ⟨Real.sqrt, fun y x => Complex.arg ⟨x, y⟩, Real.tan, Real.exp, Real.pi, fm⟩
        (fun i : Int => if i = 1 then (1 : ℝ) else if i = 6 then 4 else if i = 7 then 5 else 0)
        (fun _ => 0) (fun _ => 0) 4 3 4 3 0 0).gimg 5 = Real.sqrt 17 ∧
    ¬ nmsCoarsePass
        ⟨Real.sqrt, fun y x => Complex.arg ⟨x, y⟩, Real.tan, Real.exp, Real.pi, fm⟩ 4
      (gmDirImages ⟨Real.sqrt, fun y x => Complex.arg ⟨x, y⟩, Real.tan, Real.exp, Real.pi, fm⟩
        (fun i : Int => if i = 1 then (1 : ℝ) else if i = 6 then 4 else if i = 7 then 5 else 0)
        (fun _ => 0) (fun _ => 0) 4 3 4 3 0 0).gimg
      (gmDirImages ⟨Real.sqrt, fun y x => Complex.arg ⟨x, y⟩, Real.tan, Real.exp, Real.pi, fm⟩
        (fun i : Int => if i = 1 then (1 : ℝ) else if i = 6 then 4 else if i = 7 then 5 else 0)
        (fun _ => 0) (fun _ => 0) 4 3 4 3 0 0).dimg 5 := by
  set R : FloatOps ℝ :=
    ⟨Real.sqrt, fun y x => Complex.arg ⟨x, y⟩, Real.tan, Real.exp, Real.pi, fm⟩ with hR
  set src : Int → ℝ :=
    fun i : Int => if i = 1 then (1 : ℝ) else if i = 6 then 4 else if i = 7 then 5 else 0
    with hsrc
  obtain ⟨hθ0, hθ8, hθt⟩ := arg41_facts
  have hpi := Real.pi_pos
  obtain ⟨eg, ed⟩ := gmDirImages_gimg R src (fun _ => 0) (fun _ => 0) 4 3 4 3 0 0
  have hq5 : interior 4 3 1 1 := by decide
  have hq6 : interior 4 3 2 1 := by decide
  have i5 := gmGradientPass_interior R src (fun _ => 0) (fun _ => 0) 4 3 4 0 0 (by decide) 1 1 hq5
  have i6 := gmGradientPass_interior R src (fun _ => 0) (fun _ => 0) 4 3 4 0 0 (by decide) 2 1 hq6
  have hb : ∀ i : Int, 0 ≤ i → i < 12 → i ≠ 5 → i ≠ 6 →
      (gmGradientPass R src (fun _ => 0) (fun _ => 0) 4 3 4 0 0).gimg i = 0 := by
    intro i h0 h1 h5 h6
    refine (gmGradientPass_untouched R src (fun _ => 0) (fun _ => 0) 4 3 4 0 0 i h0
      (by omega) ?_).1
    intro x y hq
    unfold interior at hq
    omega
  have g5 : (gmGradientPass R src (fun _ => 0) (fun _ => 0) 4 3 4 0 0).gimg 5 = Real.sqrt 17 := by
    have := i5.1
    norm_num at this
    rw [this]
    simp only [gmMagnitude, gmGradient, hR, hsrc]
    norm_num
  have g6 : (gmGradientPass R src (fun _ => 0) (fun _ => 0) 4 3 4 0 0).gimg 6 = 5 := by
    have := i6.1
    norm_num at this
    rw [this]
    simp only [gmMagnitude, gmGradient, hR, hsrc]
    norm_num
    rw [show (25 : ℝ) = 5 ^ 2 by norm_num]
    exact Real.sqrt_sq (by norm_num)
  have d5 : (gmGradientPass R src (fun _ => 0) (fun _ => 0) 4 3 4 0 0).dimg 5 =
      Complex.arg ⟨4, 1⟩ := by
    have := i5.2
    norm_num at this
    rw [this]
    simp only [gmDirection, gmGradient, hR, hsrc]
    norm_num
  have s17a : Real.sqrt 17 < 5 := by
    rw [show (5 : ℝ) = Real.sqrt 25 by
      rw [show (25 : ℝ) = 5 ^ 2 by norm_num]; exact (Real.sqrt_sq (by norm_num)).symm]
    exact Real.sqrt_lt_sqrt (by norm_num) (by norm_num)
  have s17b : (15 / 4 : ℝ) ≤ Real.sqrt 17 := by
    apply Real.le_sqrt_of_sq_le; norm_num
  have hx : Complex.arg ⟨4, 1⟩ * (4 / π) < 1 / 2 := by
    have : Complex.arg ⟨4, 1⟩ * (4 / π) < π / 8 * (4 / π) :=
      mul_lt_mul_of_pos_right hθ8 (by positivity)
    have e : π / 8 * (4 / π) = 1 / 2 := by field_simp; ring
    linarith
  have hx0 : 0 ≤ Complex.arg ⟨4, 1⟩ * (4 / π) := by positivity
  have hbin : truncToInt (Complex.arg ⟨4, 1⟩ * (4 / π) + 1 / 2) = 0 := by
    rw [truncToInt_of_nonneg _ (by linarith), Int.floor_eq_zero_iff]
    constructor <;> linarith
  have hc : truncToInt (Complex.arg ⟨4, 1⟩ * (4 / π)) = 0 := by
    rw [truncToInt_of_nonneg _ hx0, Int.floor_eq_zero_iff]
    constructor <;> linarith
  have hcoarse : ¬ nmsCoarsePass R 4
      (gmGradientPass R src (fun _ => 0) (fun _ => 0) 4 3 4 0 0).gimg
      (gmGradientPass R src (fun _ => 0) (fun _ => 0) 4 3 4 0 0).dimg 5 := by
    unfold nmsCoarsePass getBin
    rw [d5]
    have e : (((4 : Int) : ℝ) / R.pi) = 4 / π := by simp [hR]
    rw [e, hbin]
    norm_num [offTable]
    intro h
    rw [g5, g6] at h
    linarith
  have hfine : nmsFinePass R 4
      (gmGradientPass R src (fun _ => 0) (fun _ => 0) 4 3 4 0 0).gimg
      (gmGradientPass R src (fun _ => 0) (fun _ => 0) 4 3 4 0 0).dimg 5 := by
    unfold nmsFinePass nmsFineVals
    rw [d5]
    have e : (4 / R.pi) = 4 / π := by simp [hR]
    have et : R.tan (Complex.arg ⟨4, 1⟩) = 1 / 4 := hθt
    dsimp only
    rw [e, hc]
    simp only [true_or, if_true, et]
    norm_num
    rw [g5, g6, hb 2 (by norm_num) (by norm_num) (by norm_num) (by norm_num),
      hb 4 (by norm_num) (by norm_num) (by norm_num) (by norm_num),
      hb 8 (by norm_num) (by norm_num) (by norm_num) (by norm_num)]
    constructor
    · linarith
    · have := Real.sqrt_nonneg 17
      linarith
  have key := gmDirImages_interior R src (fun _ => 0) (fun _ => 0) 4 3 4 3 0 0
    (by decide) (by decide) 1 1 hq5
  norm_num at key
  rw [eg, ed] at key ⊢
  refine ⟨?_, g5, hcoarse⟩
  rw [key, if_pos (Or.inr ⟨by decide, hfine⟩), g5]

end CexNms

/-- C3 counterexample: on a 4x3 plane (stride 4, operator 0, mode 0, `nms = 3`)
with samples `srcp[1] = 1, srcp[6] = 4, srcp[7] = 5` and 0 elsewhere, pixel
`(1, 1)` has magnitude `sqrt 17` and direction `atan2(1, 4)`; it fails the
coarse test (its right neighbour has magnitude 5) and passes the fine test,
and buffer A keeps its magnitude: it survives without passing both tests. -/
theorem nms3_survives_failing_coarse :
    (gmDirImages ⟨Real.sqrt, fun y x => Complex.arg ⟨x, y⟩, Real.tan, Real.exp, Real.pi,
          340282346638528859811704183484516925440⟩
        (fun i : Int => if i = 1 then (1 : ℝ) else if i = 6 then 4 else if i = 7 then 5 else 0)
        (fun _ => 0) (fun _ => 0) 4 3 4 3 0 0).srcp 5 =
      (gmDirImages ⟨Real.sqrt, fun y x => Complex.arg ⟨x, y⟩, Real.tan, Real.exp, Real.pi,
          340282346638528859811704183484516925440⟩
        (fun i : Int => if i = 1 then (1 : ℝ) else if i = 6 then 4 else if i = 7 then 5 else 0)
        (fun _ => 0) (fun _ => 0) 4 3 4 3 0 0).gimg 5 ∧
    (gmDirImages ⟨Real.sqrt, fun y x => Complex.arg ⟨x, y⟩, Real.tan, Real.exp, Real.pi,
          340282346638528859811704183484516925440⟩
        (fun i : Int => if i = 1 then (1 : ℝ) else if i = 6 then 4 else if i = 7 then 5 else 0)
        (fun _ => 0) (fun _ => 0) 4 3 4 3 0 0).srcp 5 ≠
      -(340282346638528859811704183484516925440 : ℝ) ∧
    ¬ nmsCoarsePass
        ⟨Real.sqrt, fun y x => Complex.arg ⟨x, y⟩, Real.tan, Real.exp, Real.pi,
          340282346638528859811704183484516925440⟩ 4
      (gmDirImages ⟨Real.sqrt, fun y x => Complex.arg ⟨x, y⟩, Real.tan, Real.exp, Real.pi,
          340282346638528859811704183484516925440⟩
        (fun i : Int => if i = 1 then (1 : ℝ) else if i = 6 then 4 else if i = 7 then 5 else 0)
        (fun _ => 0) (fun _ => 0) 4 3 4 3 0 0).gimg
      (gmDirImages ⟨Real.sqrt, fun y x => Complex.arg ⟨x, y⟩, Real.tan, Real.exp, Real.pi,
          340282346638528859811704183484516925440⟩
        (fun i : Int => if i = 1 then (1 : ℝ) else if i = 6 then 4 else if i = 7 then 5 else 0)
        (fun _ => 0) (fun _ => 0) 4 3 4 3 0 0).dimg 5 := by
  obtain ⟨a, b, c⟩ := nms3_counterexample_aux 340282346638528859811704183484516925440
  refine ⟨by rw [a, b], ?_, c⟩
  rw [a]
  have := Real.sqrt_nonneg 17
  intro h
  linarith

/-- C3 witness: the amended statement at the pixel `(1, 1)` of that plane. -/
theorem gmDirImages_nms3_survival_witness :
    (4 : Int) ≤ 4 ∧ ((0 : Int) = 0 ∨ (0 : Int) = 2) ∧ interior 4 3 1 1 ∧
    ((nmsCoarsePass (⟨Real.sqrt, fun y x => Complex.arg ⟨x, y⟩, Real.tan, Real.exp, Real.pi,
            340282346638528859811704183484516925440⟩ : FloatOps ℝ) 4
          (gmDirImages ⟨Real.sqrt, fun y x => Complex.arg ⟨x, y⟩, Real.tan, Real.exp, Real.pi,
            340282346638528859811704183484516925440⟩
            (fun i : Int => if i = 1 then (1 : ℝ) else if i = 6 then 4 else if i = 7 then 5 else 0)
            (fun _ => 0) (fun _ => 0) 4 3 4 3 0 0).gimg
          (gmDirImages ⟨Real.sqrt, fun y x => Complex.arg ⟨x, y⟩, Real.tan, Real.exp, Real.pi,
            340282346638528859811704183484516925440⟩
            (fun i : Int => if i = 1 then (1 : ℝ) else if i = 6 then 4 else if i = 7 then 5 else 0)
            (fun _ => 0) (fun _ => 0) 4 3 4 3 0 0).dimg (1 + 1 * 4) ∨
        nmsFinePass (⟨Real.sqrt, fun y x => Complex.arg ⟨x, y⟩, Real.tan, Real.exp, Real.pi,
            340282346638528859811704183484516925440⟩ : FloatOps ℝ) 4
          (gmDirImages ⟨Real.sqrt, fun y x => Complex.arg ⟨x, y⟩, Real.tan, Real.exp, Real.pi,
            340282346638528859811704183484516925440⟩
            (fun i : Int => if i = 1 then (1 : ℝ) else if i = 6 then 4 else if i = 7 then 5 else 0)
            (fun _ => 0) (fun _ => 0) 4 3 4 3 0 0).gimg
          (gmDirImages ⟨Real.sqrt, fun y x => Complex.arg ⟨x, y⟩, Real.tan, Real.exp, Real.pi,
            340282346638528859811704183484516925440⟩
            (fun i : Int => if i = 1 then (1 : ℝ) else if i = 6 then 4 else if i = 7 then 5 else 0)
            (fun _ => 0) (fun _ => 0) 4 3 4 3 0 0).dimg (1 + 1 * 4)) →
      (gmDirImages ⟨Real.sqrt, fun y x => Complex.arg ⟨x, y⟩, Real.tan, Real.exp, Real.pi,
          340282346638528859811704183484516925440⟩
          (fun i : Int => if i = 1 then (1 : ℝ) else if i = 6 then 4 else if i = 7 then 5 else 0)
          (fun _ => 0) (fun _ => 0) 4 3 4 3 0 0).srcp (1 + 1 * 4) =
        (gmDirImages ⟨Real.sqrt, fun y x => Complex.arg ⟨x, y⟩, Real.tan, Real.exp, Real.pi,
          340282346638528859811704183484516925440⟩
          (fun i : Int => if i = 1 then (1 : ℝ) else if i = 6 then 4 else if i = 7 then 5 else 0)
          (fun _ => 0) (fun _ => 0) 4 3 4 3 0 0).gimg (1 + 1 * 4)) ∧
    (¬ (nmsCoarsePass (⟨Real.sqrt, fun y x => Complex.arg ⟨x, y⟩, Real.tan, Real.exp, Real.pi,
            340282346638528859811704183484516925440⟩ : FloatOps ℝ) 4
          (gmDirImages ⟨Real.sqrt, fun y x => Complex.arg ⟨x, y⟩, Real.tan, Real.exp, Real.pi,
            340282346638528859811704183484516925440⟩
            (fun i : Int => if i = 1 then (1 : ℝ) else if i = 6 then 4 else if i = 7 then 5 else 0)
            (fun _ => 0) (fun _ => 0) 4 3 4 3 0 0).gimg
          (gmDirImages ⟨Real.sqrt, fun y x => Complex.arg ⟨x, y⟩, Real.tan, Real.exp, Real.pi,
            340282346638528859811704183484516925440⟩
            (fun i : Int => if i = 1 then (1 : ℝ) else if i = 6 then 4 else if i = 7 then 5 else 0)
            (fun _ => 0) (fun _ => 0) 4 3 4 3 0 0).dimg (1 + 1 * 4) ∨
        nmsFinePass (⟨Real.sqrt, fun y x => Complex.arg ⟨x, y⟩, Real.tan, Real.exp, Real.pi,
            340282346638528859811704183484516925440⟩ : FloatOps ℝ) 4
          (gmDirImages ⟨Real.sqrt, fun y x => Complex.arg ⟨x, y⟩, Real.tan, Real.exp, Real.pi,
            340282346638528859811704183484516925440⟩
            (fun i : Int => if i = 1 then (1 : ℝ) else if i = 6 then 4 else if i = 7 then 5 else 0)
            (fun _ => 0) (fun _ => 0) 4 3 4 3 0 0).gimg
          (gmDirImages ⟨Real.sqrt, fun y x => Complex.arg ⟨x, y⟩, Real.tan, Real.exp, Real.pi,
            340282346638528859811704183484516925440⟩
            (fun i : Int => if i = 1 then (1 : ℝ) else if i = 6 then 4 else if i = 7 then 5 else 0)
            (fun _ => 0) (fun _ => 0) 4 3 4 3 0 0).dimg (1 + 1 * 4)) →
      (gmDirImages ⟨Real.sqrt, fun y x => Complex.arg ⟨x, y⟩, Real.tan, Real.exp, Real.pi,
          340282346638528859811704183484516925440⟩
          (fun i : Int => if i = 1 then (1 : ℝ) else if i = 6 then 4 else if i = 7 then 5 else 0)
          (fun _ => 0) (fun _ => 0) 4 3 4 3 0 0).srcp (1 + 1 * 4) =
        -(⟨Real.sqrt, fun y x => Complex.arg ⟨x, y⟩, Real.tan, Real.exp, Real.pi,
          340282346638528859811704183484516925440⟩ : FloatOps ℝ).fltMax) :=
  ⟨by decide, Or.inl rfl, by decide,
    gmDirImages_nms3_survival ⟨Real.sqrt, fun y x => Complex.arg ⟨x, y⟩, Real.tan, Real.exp,
        Real.pi, 340282346638528859811704183484516925440⟩
      (fun i : Int => if i = 1 then (1 : ℝ) else if i = 6 then 4 else if i = 7 then 5 else 0)
      (fun _ => 0) (fun _ => 0) 4 3 4 0 0 (by decide) (Or.inl rfl) 1 1 (by decide)⟩

section DirectionRange
open Real

end DirectionRange

/-- C11: a second run of `hystersis` (with any stack; it resets the visited
map and the index itself) on the plane a first run produced returns and
leaves every pixel of the plane as the first run left it. -/
theorem hystersis_idempotent {α : Type} [LinearOrder α] (srcp : Int → α)
    (stack stack2 : Stack) (width height stride : Int) (t_h t_l fltMax : α) (fuel : Nat)
    (hs : width ≤ stride) (hfuel : (width * height).toNat ≤ fuel) :
    ∃ out1 out2, hystersis fuel srcp stack width height stride t_h t_l fltMax = some out1 ∧
      hystersis fuel out1.srcp stack2 width height stride t_h t_l fltMax = some out2 ∧
      ∀ x y, 0 ≤ x → x < width → 0 ≤ y → y < height →
        out2.srcp (x + y * stride) = out1.srcp (x + y * stride) := by
  obtain ⟨out1, h1, I1, i1, s1⟩ :=
    @hystersis_inv α _ width height stride t_h t_l fltMax hs fuel hfuel srcp stack
  obtain ⟨out2, h2, I2, i2, s2⟩ :=
    @hystersis_inv α _ width height stride t_h t_l fltMax hs fuel hfuel out1.srcp stack2
  refine ⟨out1, out2, h1, h2, ?_⟩
  intro x y hx0 hx1 hy0 hy1
  rw [I2.buf x y hx0 hx1 hy0 hy1]
  by_cases hm2 : out2.stack.map (x + y * width) ≠ 0
  · rw [if_pos hm2]
    obtain ⟨⟨_, sx, sy, hs1, hs2, hs3⟩, _⟩ := I2.sound x y hx0 hx1 hy0 hy1 hm2
    have gen : ∀ q : Int × Int,
        Relation.ReflTransGen (hystLink out1.srcp width height stride t_l) (sx, sy) q →
        interior width height q.1 q.2 ∧ out1.stack.map (q.1 + q.2 * width) ≠ 0 := by
      intro q hq
      induction hq with
      | refl =>
        refine ⟨hs1, ?_⟩
        obtain ⟨a0, a1, a2, a3⟩ := interior_in_plane hs1
        intro hm0
        have hb := I1.buf sx sy a0 a1 a2 a3
        simp only [hm0, ne_eq, not_true_eq_false, if_false] at hb
        rw [hb] at hs2
        exact s1 sx sy hs1 hs2 hm0
      | @tail b c _ hl ih =>
        obtain ⟨hbi, hbm⟩ := ih
        obtain ⟨hci, ⟨_, a1, a2, a3, a4⟩, hgt⟩ := hl
        refine ⟨hci, ?_⟩
        obtain ⟨c0, c1, c2, c3⟩ := interior_in_plane hci
        intro hm0
        have hb := I1.buf c.1 c.2 c0 c1 c2 c3
        simp only [hm0, ne_eq, not_true_eq_false, if_false] at hb
        rw [hb] at hgt
        rcases I1.closed b.1 b.2 hbi hbm with ⟨k, hk0, hk1, _⟩ | hex | hcl
        · omega
        · exact absurd hex id
        · exact hcl c.1 c.2 hci a1 a2 a3 a4 hgt hm0
    have hm1 := (gen (x, y) hs3).2
    rw [I1.buf x y hx0 hx1 hy0 hy1, if_pos hm1]
  · rw [if_neg hm2]

/-- C11 witness: a 4x3 plane with a strong and a weak interior pixel. -/
theorem hystersis_idempotent_witness :
    (4 : Int) ≤ 4 ∧ ((4 : Int) * 3).toNat ≤ 12 ∧
    ∃ out1 out2,
      hystersis 12 (fun i : Int => if i = 5 then (10 : Int) else if i = 6 then 5 else 0)
        ⟨fun _ => 7, fun _ => (0, 0), 5⟩ 4 3 4 8 1 1000 = some out1 ∧
      hystersis 12 out1.srcp ⟨fun _ => 9, fun _ => (1, 1), 3⟩ 4 3 4 8 1 1000 = some out2 ∧
      ∀ x y, 0 ≤ x → x < 4 → 0 ≤ y → y < 3 →
        out2.srcp (x + y * 4) = out1.srcp (x + y * 4) :=
  ⟨by decide, by decide,
    hystersis_idempotent (fun i : Int => if i = 5 then (10 : Int) else if i = 6 then 5 else 0)
      ⟨fun _ => 7, fun _ => (0, 0), 5⟩ ⟨fun _ => 9, fun _ => (1, 1), 3⟩ 4 3 4 8 1 1000 12
      (by decide) (by decide)⟩

/-! ## Direction bins -/

/-- Exact arithmetic: for a bin count `n ≥ 1` and a direction `0 ≤ dir ≤ pi`,
`getBin<int>(dir, n)` is `floor(dir*n/pi + 1/2)` when that is below `n` and 0
otherwise, so it lies in `[0, n-1]`; with `n = 4`, the index the coarse
variant uses into `offTable` lies in `0..3`. -/
theorem getBin_rounds_exact {α : Type} [LinearOrderedField α] [FloorRing α]
    (ops : FloatOps α) (hpi : 0 < ops.pi) (dir : α) (n stride : Int) (hn : 1 ≤ n)
    (hd0 : 0 ≤ dir) (hd1 : dir ≤ ops.pi) :
    getBin ops dir n =
        (if ⌊dir * (n : α) / ops.pi + 1 / 2⌋ < n then ⌊dir * (n : α) / ops.pi + 1 / 2⌋ else 0) ∧
      0 ≤ getBin ops dir n ∧ getBin ops dir n ≤ n - 1 ∧
      (n = 4 → ∃ off, [1, -stride + 1, -stride, -stride - 1].get? (getBin ops dir n).toNat =
          some off ∧ offTable stride (getBin ops dir n) = off) := by
  have hn' : (0 : α) ≤ (n : α) := by exact_mod_cast (by omega : (0 : Int) ≤ n)
  have hnn : 0 ≤ dir * ((n : α) / ops.pi) + 1 / 2 := by positivity
  have e : dir * ((n : α) / ops.pi) = dir * (n : α) / ops.pi := by ring
  have hfl : 0 ≤ ⌊dir * (n : α) / ops.pi + 1 / 2⌋ := by
    rw [← e]; exact Int.floor_nonneg.mpr hnn
  have hval : getBin ops dir n =
      (if ⌊dir * (n : α) / ops.pi + 1 / 2⌋ < n then ⌊dir * (n : α) / ops.pi + 1 / 2⌋
        else 0) := by
    unfold getBin
    rw [truncToInt_of_nonneg _ hnn, e]
    by_cases h : ⌊dir * (n : α) / ops.pi + 1 / 2⌋ < n
    · rw [if_pos h]; simp only; rw [if_neg (by omega)]
    · rw [if_neg h]; simp only; rw [if_pos (by omega)]
  have h0 : 0 ≤ getBin ops dir n := by rw [hval]; split_ifs <;> omega
  have h1 : getBin ops dir n ≤ n - 1 := by rw [hval]; split_ifs <;> omega
  refine ⟨hval, h0, h1, ?_⟩
  intro h4
  subst h4
  unfold offTable
  have : (getBin ops dir 4).toNat = 0 ∨ (getBin ops dir 4).toNat = 1 ∨
      (getBin ops dir 4).toNat = 2 ∨ (getBin ops dir 4).toNat = 3 := by omega
  rcases this with h | h | h | h <;> rw [h] <;> simp

/-- Example in exact arithmetic: 4 bins and the direction `pi / 2` over the reals. -/
theorem getBin_rounds_exact_example :
    (0 : ℝ) < Real.pi ∧ (1 : Int) ≤ 4 ∧ (0 : ℝ) ≤ Real.pi / 2 ∧ Real.pi / 2 ≤ Real.pi ∧
    (getBin ⟨Real.sqrt, fun y x => Complex.arg ⟨x, y⟩, Real.tan, Real.exp, Real.pi,
          340282346638528859811704183484516925440⟩ (Real.pi / 2) 4 =
        (if ⌊Real.pi / 2 * ((4 : Int) : ℝ) / Real.pi + 1 / 2⌋ < 4
          then ⌊Real.pi / 2 * ((4 : Int) : ℝ) / Real.pi + 1 / 2⌋ else 0) ∧
      0 ≤ getBin ⟨Real.sqrt, fun y x => Complex.arg ⟨x, y⟩, Real.tan, Real.exp, Real.pi,
          340282346638528859811704183484516925440⟩ (Real.pi / 2) 4 ∧
      getBin ⟨Real.sqrt, fun y x => Complex.arg ⟨x, y⟩, Real.tan, Real.exp, Real.pi,
          340282346638528859811704183484516925440⟩ (Real.pi / 2) 4 ≤ 4 - 1 ∧
      ((4 : Int) = 4 → ∃ off, [1, -(7 : Int) + 1, -7, -7 - 1].get?
          (getBin ⟨Real.sqrt, fun y x => Complex.arg ⟨x, y⟩, Real.tan, Real.exp, Real.pi,
            340282346638528859811704183484516925440⟩ (Real.pi / 2) 4).toNat = some off ∧
        offTable 7 (getBin ⟨Real.sqrt, fun y x => Complex.arg ⟨x, y⟩, Real.tan, Real.exp,
            Real.pi, 340282346638528859811704183484516925440⟩ (Real.pi / 2) 4) = off)) :=
  ⟨Real.pi_pos, by decide, by have := Real.pi_pos; linarith,
    by have := Real.pi_pos; linarith,
    getBin_rounds_exact ⟨Real.sqrt, fun y x => Complex.arg ⟨x, y⟩, Real.tan, Real.exp,
        Real.pi, 340282346638528859811704183484516925440⟩ Real.pi_pos (Real.pi / 2) 4 7
      (by decide) (by have := Real.pi_pos; linarith) (by have := Real.pi_pos; linarith)⟩

section BorderProof
variable {α : Type} [LinearOrderedField α] [FloorRing α]

/-- The derivatives at index `i` read the eight neighbours of `i` only. -/
theorem gmGradient_congr (op stride : Int) (srcp srcp' : Int → α) (i : Int)
    (h : ∀ dx dy : Int, -1 ≤ dx → dx ≤ 1 → -1 ≤ dy → dy ≤ 1 →
      srcp (i + dx + dy * stride) = srcp' (i + dx + dy * stride)) :
    gmGradient op stride srcp i = gmGradient op stride srcp' i := by
  have e1 : i + 1 = i + 1 + 0 * stride := by ring
  have e2 : i - 1 = i + -1 + 0 * stride := by ring
  have e3 : i - stride = i + 0 + -1 * stride := by ring
  have e4 : i + stride = i + 0 + 1 * stride := by ring
  have e5 : i - stride + 1 = i + 1 + -1 * stride := by ring
  have e6 : i - stride - 1 = i + -1 + -1 * stride := by ring
  have e7 : i + stride + 1 = i + 1 + 1 * stride := by ring
  have e8 : i + stride - 1 = i + -1 + 1 * stride := by ring
  have h1 : srcp (i + 1) = srcp' (i + 1) := by
    rw [e1]; exact h 1 0 (by decide) (by decide) (by decide) (by decide)
  have h2 : srcp (i - 1) = srcp' (i - 1) := by
    rw [e2]; exact h (-1) 0 (by decide) (by decide) (by decide) (by decide)
  have h3 : srcp (i - stride) = srcp' (i - stride) := by
    rw [e3]; exact h 0 (-1) (by decide) (by decide) (by decide) (by decide)
  have h4 : srcp (i + stride) = srcp' (i + stride) := by
    rw [e4]; exact h 0 1 (by decide) (by decide) (by decide) (by decide)
  have h5 : srcp (i - stride + 1) = srcp' (i - stride + 1) := by
    rw [e5]; exact h 1 (-1) (by decide) (by decide) (by decide) (by decide)
  have h6 : srcp (i - stride - 1) = srcp' (i - stride - 1) := by
    rw [e6]; exact h (-1) (-1) (by decide) (by decide) (by decide) (by decide)
  have h7 : srcp (i + stride + 1) = srcp' (i + stride + 1) := by
    rw [e7]; exact h 1 1 (by decide) (by decide) (by decide) (by decide)
  have h8 : srcp (i + stride - 1) = srcp' (i + stride - 1) := by
    rw [e8]; exact h (-1) 1 (by decide) (by decide) (by decide) (by decide)
  unfold gmGradient
  rw [h1, h2, h3, h4, h5, h6, h7, h8]

/-- B and C are zero at every pixel of the plane that is not interior. -/
theorem gmDirImages_border (ops : FloatOps α) (srcp gimg dimg : Int → α)
    (width height stride nms mode op : Int) (hs : width ≤ stride) (x y : Int)
    (hx0 : 0 ≤ x) (hx1 : x < width) (hy0 : 0 ≤ y) (hy1 : y < height)
    (hni : ¬ interior width height x y) :
    (gmDirImages ops srcp gimg dimg width height stride nms mode op).gimg (x + y * stride) = 0 ∧
      (gmDirImages ops srcp gimg dimg width height stride nms mode op).dimg (x + y * stride) =
        0 := by
  obtain ⟨eg, ed⟩ := gmDirImages_gimg ops srcp gimg dimg width height stride nms mode op
  rw [eg, ed]
  obtain ⟨b0, b1⟩ := idx_bound stride height x y hx0 (by omega) hy0 hy1
  apply gmGradientPass_untouched ops srcp gimg dimg width height stride mode op _ b0 b1
  intro x' y' hq' e
  have hq := hq'
  unfold interior at hq
  obtain ⟨e1, e2⟩ := idx_inj stride x y x' y' hx0 (by omega) (by omega) (by omega) e
  subst e1; subst e2
  exact hni hq'

end BorderProof

/-- C20: after `gmDirImages` the magnitude buffer and the direction buffer are
0 at every pixel of the plane that is not interior (the whole plane when
`width < 3` or `height < 3`), and the magnitude and direction of an interior
pixel are the same for two smoothed buffers that agree on its 3x3
neighbourhood, whatever the other cells, the old buffer contents and `nms`. -/
theorem gmDirImages_border_zero {α : Type} [LinearOrderedField α] [FloorRing α]
    (ops : FloatOps α) (srcp gimg dimg srcp' gimg' dimg' : Int → α)
    (width height stride nms nms' mode op : Int) (hs : width ≤ stride) :
    (∀ x y, 0 ≤ x → x < width → 0 ≤ y → y < height → ¬ interior width height x y →
      (gmDirImages ops srcp gimg dimg width height stride nms mode op).gimg (x + y * stride) = 0 ∧
      (gmDirImages ops srcp gimg dimg width height stride nms mode op).dimg (x + y * stride) =
        0) ∧
    ((width < 3 ∨ height < 3) → ∀ x y, 0 ≤ x → x < width → 0 ≤ y → y < height →
      (gmDirImages ops srcp gimg dimg width height stride nms mode op).gimg (x + y * stride) = 0 ∧
      (gmDirImages ops srcp gimg dimg width height stride nms mode op).dimg (x + y * stride) =
        0) ∧
    (∀ x y, interior width height x y →
      (∀ dx dy : Int, -1 ≤ dx → dx ≤ 1 → -1 ≤ dy → dy ≤ 1 →
        srcp (x + dx + (y + dy) * stride) = srcp' (x + dx + (y + dy) * stride)) →
      (gmDirImages ops srcp gimg dimg width height stride nms mode op).gimg (x + y * stride) =
        (gmDirImages ops srcp' gimg' dimg' width height stride nms' mode op).gimg
          (x + y * stride) ∧
      (gmDirImages ops srcp gimg dimg width height stride nms mode op).dimg (x + y * stride) =
        (gmDirImages ops srcp' gimg' dimg' width height stride nms' mode op).dimg
          (x + y * stride)) := by
  refine ⟨?_, ?_, ?_⟩
  · intro x y hx0 hx1 hy0 hy1 hni
    exact gmDirImages_border ops srcp gimg dimg width height stride nms mode op hs x y
      hx0 hx1 hy0 hy1 hni
  · intro hsmall x y hx0 hx1 hy0 hy1
    apply gmDirImages_border ops srcp gimg dimg width height stride nms mode op hs x y
      hx0 hx1 hy0 hy1
    unfold interior
    omega
  · intro x y hq hagree
    have hgrad : gmGradient op stride srcp (x + y * stride) =
        gmGradient op stride srcp' (x + y * stride) := by
      apply gmGradient_congr
      intro dx dy h1 h2 h3 h4
      have e : x + y * stride + dx + dy * stride = x + dx + (y + dy) * stride := by ring
      rw [e]; exact hagree dx dy h1 h2 h3 h4
    rw [(gmDirImages_gimg ops srcp gimg dimg width height stride nms mode op).1,
      (gmDirImages_gimg ops srcp gimg dimg width height stride nms mode op).2,
      (gmDirImages_gimg ops srcp' gimg' dimg' width height stride nms' mode op).1,
      (gmDirImages_gimg ops srcp' gimg' dimg' width height stride nms' mode op).2,
      (gmGradientPass_interior ops srcp gimg dimg width height stride mode op hs x y hq).1,
      (gmGradientPass_interior ops srcp gimg dimg width height stride mode op hs x y hq).2,
      (gmGradientPass_interior ops srcp' gimg' dimg' width height stride mode op hs x y hq).1,
      (gmGradientPass_interior ops srcp' gimg' dimg' width height stride mode op hs x y hq).2,
      hgrad]
    exact ⟨rfl, rfl⟩

/-- C20 witness: two 5x4 planes with stride 8 over the reals. -/
theorem gmDirImages_border_zero_witness :
    (5 : Int) ≤ 8 ∧
    ((∀ x y : Int, 0 ≤ x → x < 5 → 0 ≤ y → y < 4 → ¬ interior 5 4 x y →
      (gmDirImages (⟨Real.sqrt, fun y x => Complex.arg ⟨x, y⟩, Real.tan, Real.exp, Real.pi,
          340282346638528859811704183484516925440⟩ : FloatOps ℝ) (fun i => (i : ℝ))
        (fun _ => 1) (fun _ => 2) 5 4 8 3 0 1).gimg (x + y * 8) = 0 ∧
      (gmDirImages (⟨Real.sqrt, fun y x => Complex.arg ⟨x, y⟩, Real.tan, Real.exp, Real.pi,
          340282346638528859811704183484516925440⟩ : FloatOps ℝ) (fun i => (i : ℝ))
        (fun _ => 1) (fun _ => 2) 5 4 8 3 0 1).dimg (x + y * 8) = 0) ∧
    (((5 : Int) < 3 ∨ (4 : Int) < 3) → ∀ x y : Int, 0 ≤ x → x < 5 → 0 ≤ y → y < 4 →
      (gmDirImages (⟨Real.sqrt, fun y x => Complex.arg ⟨x, y⟩, Real.tan, Real.exp, Real.pi,
          340282346638528859811704183484516925440⟩ : FloatOps ℝ) (fun i => (i : ℝ))
        (fun _ => 1) (fun _ => 2) 5 4 8 3 0 1).gimg (x + y * 8) = 0 ∧
      (gmDirImages (⟨Real.sqrt, fun y x => Complex.arg ⟨x, y⟩, Real.tan, Real.exp, Real.pi,
          340282346638528859811704183484516925440⟩ : FloatOps ℝ) (fun i => (i : ℝ))
        (fun _ => 1) (fun _ => 2) 5 4 8 3 0 1).dimg (x + y * 8) = 0) ∧
    (∀ x y : Int, interior 5 4 x y →
      (∀ dx dy : Int, -1 ≤ dx → dx ≤ 1 → -1 ≤ dy → dy ≤ 1 →
        (fun i : Int => (i : ℝ)) (x + dx + (y + dy) * 8) =
          (fun i : Int => if i < 100 then (i : ℝ) else 0) (x + dx + (y + dy) * 8)) →
      (gmDirImages (⟨Real.sqrt, fun y x => Complex.arg ⟨x, y⟩, Real.tan, Real.exp, Real.pi,
          340282346638528859811704183484516925440⟩ : FloatOps ℝ) (fun i => (i : ℝ))
        (fun _ => 1) (fun _ => 2) 5 4 8 3 0 1).gimg (x + y * 8) =
        (gmDirImages (⟨Real.sqrt, fun y x => Complex.arg ⟨x, y⟩, Real.tan, Real.exp, Real.pi,
          340282346638528859811704183484516925440⟩ : FloatOps ℝ)
          (fun i : Int => if i < 100 then (i : ℝ) else 0)
          (fun _ => 3) (fun _ => 4) 5 4 8 1 0 1).gimg (x + y * 8) ∧
      (gmDirImages (⟨Real.sqrt, fun y x => Complex.arg ⟨x, y⟩, Real.tan, Real.exp, Real.pi,
          340282346638528859811704183484516925440⟩ : FloatOps ℝ) (fun i => (i : ℝ))
        (fun _ => 1) (fun _ => 2) 5 4 8 3 0 1).dimg (x + y * 8) =
        (gmDirImages (⟨Real.sqrt, fun y x => Complex.arg ⟨x, y⟩, Real.tan, Real.exp, Real.pi,
          340282346638528859811704183484516925440⟩ : FloatOps ℝ)
          (fun i : Int => if i < 100 then (i : ℝ) else 0)
          (fun _ => 3) (fun _ => 4) 5 4 8 1 0 1).dimg (x + y * 8))) :=
  ⟨by decide,
    gmDirImages_border_zero
      (⟨Real.sqrt, fun y x => Complex.arg ⟨x, y⟩, Real.tan, Real.exp, Real.pi,
          340282346638528859811704183484516925440⟩ : FloatOps ℝ) (fun i => (i : ℝ))
      (fun _ => 1) (fun _ => 2) (fun i : Int => if i < 100 then (i : ℝ) else 0)
      (fun _ => 3) (fun _ => 4) 5 4 8 3 1 0 1 (by decide)⟩

/-! ## Configuration -/

theorem planesLoop_ok (numPlanes : Int) : ∀ (l : List Int) (p : Int → Bool),
    (∀ n ∈ l, 0 ≤ n ∧ n < numPlanes) → (∀ n ∈ l, p n = false) → l.Nodup →
    planesLoop numPlanes l p = .ok (fun i => p i || decide (i ∈ l)) := by
  intro l
  induction l with
  | nil => intro p _ _ _; simp [planesLoop]
  | cons n rest ih =>
    intro p hr hp hn
    have hn0 := hr n (List.mem_cons_self _ _)
    have hpn := hp n (List.mem_cons_self _ _)
    rw [List.nodup_cons] at hn
    unfold planesLoop
    rw [if_neg (by omega), if_neg (by simp [hpn])]
    rw [ih (Function.update p n true)
      (fun m hm => hr m (List.mem_cons_of_mem _ hm))
      (fun m hm => by
        have : m ≠ n := fun e => hn.1 (e ▸ hm)
        rw [Function.update_noteq this]
        exact hp m (List.mem_cons_of_mem _ hm))
      hn.2]
    congr 1
    funext i
    by_cases e : i = n
    · subst e; simp
    · rw [Function.update_noteq e]
      simp [e]

theorem planesLoop_error (numPlanes : Int) : ∀ (l : List Int) (p : Int → Bool),
    ((∃ n ∈ l, n < 0 ∨ n ≥ numPlanes) ∨ (∃ n ∈ l, p n = true) ∨ ¬ l.Nodup) →
    ∃ e, planesLoop numPlanes l p = .error e ∧ e ≠ CreateError.mallocWeights := by
  intro l
  induction l with
  | nil =>
    intro p h
    rcases h with ⟨n, hn, _⟩ | ⟨n, hn, _⟩ | h
    · simp at hn
    · simp at hn
    · simp at h
  | cons n rest ih =>
    intro p h
    unfold planesLoop
    by_cases h1 : n < 0 ∨ n ≥ numPlanes
    · rw [if_pos h1]; exact ⟨_, rfl, by decide⟩
    · rw [if_neg h1]
      by_cases h2 : p n = true
      · rw [if_pos h2]; exact ⟨_, rfl, by decide⟩
      · rw [if_neg h2]
        apply ih
        rcases h with ⟨m, hm, hbad⟩ | ⟨m, hm, hbad⟩ | h
        · rcases List.mem_cons.mp hm with e | hm'
          · subst e; exact absurd hbad h1
          · exact Or.inl ⟨m, hm', hbad⟩
        · rcases List.mem_cons.mp hm with e | hm'
          · subst e; exact absurd hbad h2
          · refine Or.inr (Or.inl ⟨m, hm', ?_⟩)
            by_cases e : m = n
            · subst e; simp
            · rw [Function.update_noteq e]; exact hbad
        · rw [List.nodup_cons] at h
          by_cases hmem : n ∈ rest
          · exact Or.inr (Or.inl ⟨n, hmem, by simp⟩)
          · exact Or.inr (Or.inr (fun hnd => h ⟨hmem, hnd⟩))

section CreateProof
variable {α : Type} [LinearOrderedField α] [FloorRing α]

theorem propGetFloat_default (v : Option α) (dflt : α) :
    (if (propGetFloat v).2 = true then dflt else (propGetFloat v).1) = v.getD dflt := by
  cases v <;> simp [propGetFloat]

theorem propGetInt_default (v : Option Int) (dflt : Int) :
    (if (propGetInt v).2 = true then dflt else (propGetInt v).1) = v.getD dflt := by
  cases v <;> simp [propGetInt]

theorem propGetInt_value (v : Option Int) : (propGetInt v).1 = v.getD 0 := by
  cases v <;> simp [propGetInt]

/-- The `process` array before the loop over `planes` (lines 500-501). -/
theorem process0_listed (planes : Option (List Int)) (n : Int)
    (hn : n ∈ planes.getD []) :
    (fun i : Int => if 0 ≤ i ∧ i < 3 then decide (propNumElements planes ≤ 0) else false) n =
      false := by
  cases planes with
  | none => simp at hn
  | some l =>
    have : 0 < l.length := List.length_pos_of_mem hn
    simp only [propNumElements]
    have h0 : (0 : Int) < (l.length : Int) := by exact_mod_cast this
    split_ifs
    · simp only [Option.getD_some, decide_eq_false_iff_not, not_le] at *
      exact h0
    · rfl

/-- The configuration `tcannyCreate` hands to the filter when nothing is
rejected and the weights are allocated. -/
theorem tcannyCreate_accept (ops : FloatOps α) (args : TCannyArgs α)
    (hv : ¬ createInvalid args) :
    ∃ d, tcannyCreate ops args true = .ok d ∧
      d.vi = args.clip ∧ d.sigma = args.sigma.getD (3 / 2) ∧
      d.nms = args.nms.getD 3 ∧ d.mode = args.mode.getD 0 ∧ d.op = args.op.getD 1 ∧
      d.gmmax = args.gmmax.getD 50 ∧ d.magnitude = 255 / args.gmmax.getD 50 ∧
      d.weights = (gaussianWeights ops (args.sigma.getD (3 / 2))).1 ∧
      d.grad = (gaussianWeights ops (args.sigma.getD (3 / 2))).2 ∧
      d.process = (fun i => (if 0 ≤ i ∧ i < 3 then decide (propNumElements args.planes ≤ 0)
        else false) || decide (i ∈ args.planes.getD [])) ∧
      (args.clip.sampleType = SampleType.stInteger →
        d.t_h = args.t_h.getD 8 * ((2 ^ (args.clip.bitsPerSample - 8).toNat : Int) : α) ∧
        d.t_l = args.t_l.getD 1 * ((2 ^ (args.clip.bitsPerSample - 8).toNat : Int) : α) ∧
        d.bins = 2 ^ args.clip.bitsPerSample.toNat ∧ d.peak = d.bins - 1) ∧
      (args.clip.sampleType ≠ SampleType.stInteger →
        d.t_h = args.t_h.getD 8 / 255 ∧ d.t_l = args.t_l.getD 1 / 255 ∧ d.bins = 1 ∧
        ∀ plane, 0 ≤ plane → plane < args.clip.numPlanes → d.process plane = true →
          d.lower plane = (if plane = 0 ∨ args.clip.colorFamily = ColorFamily.cmRGB
            then 0 else -(1 / 2)) ∧
          d.upper plane = (if plane = 0 ∨ args.clip.colorFamily = ColorFamily.cmRGB
            then 1 else 1 / 2)) := by
  unfold createInvalid at hv
  push_neg at hv
  obtain ⟨h1, h2, h3, h4, h5, h6, h7, h8⟩ := hv
  have hloop := planesLoop_ok args.clip.numPlanes (args.planes.getD [])
    (fun i : Int => if 0 ≤ i ∧ i < 3 then decide (propNumElements args.planes ≤ 0) else false)
    (fun n hn => by have := h7 n hn; omega)
    (fun n hn => process0_listed args.planes n hn) h8
  unfold tcannyCreate
  simp only [propGetFloat_default, propGetInt_default]
  simp only [propGetInt_value]
  rw [if_neg (not_le.mpr h1), if_neg (by omega), if_neg (by omega), if_neg (by omega),
    if_neg (not_lt.mpr h5), if_neg (by
      rintro (h | h | h)
      · exact h6.1 h
      · exact absurd h.2 (not_lt.mpr (h6.2.1 h.1))
      · exact h.2 (h6.2.2 h.1))]
  simp only [hloop]
  refine ⟨_, rfl, rfl, rfl, rfl, rfl, rfl, rfl, rfl, rfl, rfl, rfl, ?_, ?_⟩
  · intro hi
    simp [hi]
  · intro hi
    simp only [hi, if_false, true_and]
    intro plane hp0 hp1 hproc
    constructor
    · rw [if_pos ⟨not_false, hp0, hp1, hproc⟩]
    · rw [if_pos ⟨not_false, hp0, hp1, hproc⟩]

theorem tcannyCreate_reject (ops : FloatOps α) (args : TCannyArgs α)
    (mallocOk : Bool) (hv : createInvalid args) :
    ∃ e, tcannyCreate ops args mallocOk = .error e ∧ e ≠ CreateError.mallocWeights := by
  unfold tcannyCreate
  simp only [propGetFloat_default, propGetInt_default]
  simp only [propGetInt_value]
  by_cases c1 : args.sigma.getD (3 / 2) ≤ 0
  · rw [if_pos c1]; exact ⟨_, rfl, by decide⟩
  rw [if_neg c1]
  by_cases c2 : args.nms.getD 3 < 0 ∨ args.nms.getD 3 > 3
  · rw [if_pos c2]; exact ⟨_, rfl, by decide⟩
  rw [if_neg c2]
  by_cases c3 : args.mode.getD 0 < -1 ∨ args.mode.getD 0 > 3
  · rw [if_pos c3]; exact ⟨_, rfl, by decide⟩
  rw [if_neg c3]
  by_cases c4 : args.op.getD 1 < 0 ∨ args.op.getD 1 > 2
  · rw [if_pos c4]; exact ⟨_, rfl, by decide⟩
  rw [if_neg c4]
  by_cases c5 : args.gmmax.getD 50 < 1
  · rw [if_pos c5]; exact ⟨_, rfl, by decide⟩
  rw [if_neg c5]
  by_cases c6 : args.clip.constantFormat = false ∨
      (args.clip.sampleType = SampleType.stInteger ∧ args.clip.bitsPerSample > 16) ∨
      (args.clip.sampleType = SampleType.stFloat ∧ args.clip.bitsPerSample ≠ 32)
  · rw [if_pos c6]; exact ⟨_, rfl, by decide⟩
  rw [if_neg c6]
  have hbad : (∃ n ∈ args.planes.getD [], n < 0 ∨ n ≥ args.clip.numPlanes) ∨
      ¬ (args.planes.getD []).Nodup := by
    unfold createInvalid at hv
    rcases hv with h | h | h | h | h | h | h | h
    · exact absurd h c1
    · exact absurd h c2
    · exact absurd h c3
    · exact absurd h c4
    · exact absurd h c5
    · exact absurd h c6
    · exact Or.inl h
    · exact Or.inr h
  obtain ⟨e, he, hne⟩ := planesLoop_error args.clip.numPlanes (args.planes.getD [])
    (fun i : Int => if 0 ≤ i ∧ i < 3 then decide (propNumElements args.planes ≤ 0) else false)
    (by
      rcases hbad with h | h
      · exact Or.inl h
      · exact Or.inr (Or.inr h))
  simp only [he]
  exact ⟨_, rfl, hne⟩

/-- A failed allocation of the weights is the only error of an otherwise
accepted configuration. -/
theorem tcannyCreate_malloc (ops : FloatOps α) (args : TCannyArgs α)
    (hv : ¬ createInvalid args) :
    tcannyCreate ops args false = .error CreateError.mallocWeights := by
  unfold createInvalid at hv
  push_neg at hv
  obtain ⟨h1, h2, h3, h4, h5, h6, h7, h8⟩ := hv
  have hloop := planesLoop_ok args.clip.numPlanes (args.planes.getD [])
    (fun i : Int => if 0 ≤ i ∧ i < 3 then decide (propNumElements args.planes ≤ 0) else false)
    (fun n hn => by have := h7 n hn; omega)
    (fun n hn => process0_listed args.planes n hn) h8
  unfold tcannyCreate
  simp only [propGetFloat_default, propGetInt_default]
  simp only [propGetInt_value]
  rw [if_neg (not_le.mpr h1), if_neg (by omega), if_neg (by omega), if_neg (by omega),
    if_neg (not_lt.mpr h5), if_neg (by
      rintro (h | h | h)
      · exact h6.1 h
      · exact absurd h.2 (not_lt.mpr (h6.2.1 h.1))
      · exact h.2 (h6.2.2 h.1))]
  simp only [hloop]
  rfl

/-- For a clip of at least 8 bits per sample (the host registers no other
format) the tests of `tcannyCreate` fail exactly on the spec's invalid inputs. -/
theorem createInvalid_iff (args : TCannyArgs α) (hbits : 8 ≤ args.clip.bitsPerSample) :
    createInvalid args ↔ specInvalid args := by
  unfold createInvalid specInvalid
  have hst : args.clip.sampleType = SampleType.stInteger ∨
      args.clip.sampleType = SampleType.stFloat := by
    cases args.clip.sampleType <;> simp
  have e1 : args.sigma.getD (3 / 2) ≤ 0 ↔ ∃ s, args.sigma = some s ∧ s ≤ 0 := by
    cases h : args.sigma with
    | none =>
      simp only [Option.getD_none]
      constructor
      · intro h'
        have : (0 : α) < 3 / 2 := by norm_num
        exact absurd h' (not_le.mpr this)
      · rintro ⟨s, hs, _⟩; cases hs
    | some s => simp
  have e2 : (args.nms.getD 3 < 0 ∨ args.nms.getD 3 > 3) ↔
      ∃ n, args.nms = some n ∧ ¬ (0 ≤ n ∧ n ≤ 3) := by
    cases h : args.nms with
    | none => simp
    | some n => simp; omega
  have e3 : (args.mode.getD 0 < -1 ∨ args.mode.getD 0 > 3) ↔
      ∃ m, args.mode = some m ∧ ¬ (-1 ≤ m ∧ m ≤ 3) := by
    cases h : args.mode with
    | none => simp
    | some n => simp; omega
  have e4 : (args.op.getD 1 < 0 ∨ args.op.getD 1 > 2) ↔
      ∃ o, args.op = some o ∧ ¬ (0 ≤ o ∧ o ≤ 2) := by
    cases h : args.op with
    | none => simp
    | some n => simp; omega
  have e5 : args.gmmax.getD 50 < 1 ↔ ∃ g, args.gmmax = some g ∧ g < 1 := by
    cases h : args.gmmax with
    | none =>
      simp only [Option.getD_none]
      constructor
      · intro h'
        have : (1 : α) ≤ 50 := by norm_num
        exact absurd h' (not_lt.mpr this)
      · rintro ⟨s, hs, _⟩; cases hs
    | some s => simp
  have e6 : (args.clip.constantFormat = false ∨
      (args.clip.sampleType = SampleType.stInteger ∧ args.clip.bitsPerSample > 16) ∨
      (args.clip.sampleType = SampleType.stFloat ∧ args.clip.bitsPerSample ≠ 32)) ↔
      ¬ (args.clip.constantFormat = true ∧
        ((args.clip.sampleType = SampleType.stInteger ∧
            8 ≤ args.clip.bitsPerSample ∧ args.clip.bitsPerSample ≤ 16) ∨
          (args.clip.sampleType = SampleType.stFloat ∧ args.clip.bitsPerSample = 32))) := by
    cases hc : args.clip.constantFormat <;> rcases hst with h | h <;> simp [h, hbits]
  have e7 : ((∃ n ∈ args.planes.getD [], n < 0 ∨ n ≥ args.clip.numPlanes) ∨
      ¬ (args.planes.getD []).Nodup) ↔
      ∃ l, args.planes = some l ∧
        ((∃ n ∈ l, ¬ (0 ≤ n ∧ n < args.clip.numPlanes)) ∨ ¬ l.Nodup) := by
    cases h : args.planes with
    | none => simp
    | some l =>
      simp only [Option.getD_some, Option.some.injEq, exists_eq_left']
      have : ∀ n : Int, (n < 0 ∨ n ≥ args.clip.numPlanes) ↔
          ¬ (0 ≤ n ∧ n < args.clip.numPlanes) := by intro n; omega
      simp only [this]
  rw [e1, e2, e3, e4, e5, e6, ← e7]

end CreateProof

/-- Exact arithmetic: on a clip of at least 8 bits per sample, `tcannyCreate` returns a
configuration error, whether or not the weights can be allocated, if and only
if the input is invalid in the spec's sense (sigma not positive, `nms`, `mode`
or `op` out of range, `gmmax` below 1, a format that is not constant 8-16 bit
integer or 32 bit float, a plane index out of range or listed twice);
otherwise the filter is created and processes exactly the listed planes, and
all three planes when the list is absent. -/
theorem tcannyCreate_rejects_exact {α : Type} [LinearOrderedField α] [FloorRing α]
    (ops : FloatOps α) (args : TCannyArgs α) (hbits : 8 ≤ args.clip.bitsPerSample) :
    (∀ mallocOk, (∃ e, tcannyCreate ops args mallocOk = .error e ∧
        e ≠ CreateError.mallocWeights) ↔ specInvalid args) ∧
    ((∃ e, tcannyCreate ops args true = .error e) ↔ specInvalid args) ∧
    (¬ specInvalid args → ∃ d, tcannyCreate ops args true = .ok d ∧
      (args.planes = none → ∀ i, d.process i = true ↔ 0 ≤ i ∧ i < 3) ∧
      (∀ l, args.planes = some l → l ≠ [] → ∀ i, d.process i = true ↔ i ∈ l)) := by
  have hiff := createInvalid_iff args hbits
  have hacc : ¬ specInvalid args → ∃ d, tcannyCreate ops args true = .ok d ∧
      (args.planes = none → ∀ i, d.process i = true ↔ 0 ≤ i ∧ i < 3) ∧
      (∀ l, args.planes = some l → l ≠ [] → ∀ i, d.process i = true ↔ i ∈ l) := by
    intro hv
    obtain ⟨d, hd, -, -, -, -, -, -, -, -, -, hproc, -, -⟩ :=
      tcannyCreate_accept ops args (fun h => hv (hiff.mp h))
    refine ⟨d, hd, ?_, ?_⟩
    · intro hnone i
      rw [hproc, hnone]
      simp [propNumElements]
    · intro l hl hne i
      rw [hproc, hl]
      have : 0 < l.length := List.length_pos.mpr hne
      simp only [propNumElements, Option.getD_some, Bool.or_eq_true, decide_eq_true_eq]
      constructor
      · rintro (h | h)
        · split_ifs at h
          · simp only [decide_eq_true_eq] at h; omega
        · exact h
      · exact fun h => Or.inr h
  refine ⟨?_, ?_, hacc⟩
  · intro mallocOk
    constructor
    · rintro ⟨e, he, hne⟩
      by_contra hv
      cases mallocOk with
      | true =>
        obtain ⟨d, hd, -⟩ := hacc hv
        rw [hd] at he
        cases he
      | false =>
        rw [tcannyCreate_malloc ops args (fun h => hv (hiff.mp h))] at he
        cases he
        exact hne rfl
    · intro hv
      exact tcannyCreate_reject ops args mallocOk (hiff.mpr hv)
  · constructor
    · rintro ⟨e, he⟩
      by_contra hv
      obtain ⟨d, hd, -⟩ := hacc hv
      rw [hd] at he
      cases he
    · intro hv
      obtain ⟨e, he, -⟩ := tcannyCreate_reject ops args true (hiff.mpr hv)
      exact ⟨e, he⟩

/-- The exact-arithmetic statement at an 8-bit gray clip with `planes = [0]`. -/
theorem tcannyCreate_rejects_exact_example :
    (8 : Int) ≤ (⟨⟨true, SampleType.stInteger, 8, 1, ColorFamily.cmGray⟩,
        none, none, none, none, none, none, none, some [0]⟩ : TCannyArgs ℚ).clip.bitsPerSample ∧
    ((∀ mallocOk, (∃ e, tcannyCreate (⟨fun x => x, fun _ _ => 0, fun x => x, fun _ => 1, 3, 1000⟩ : FloatOps ℚ)
        ⟨⟨true, SampleType.stInteger, 8, 1, ColorFamily.cmGray⟩,
          none, none, none, none, none, none, none, some [0]⟩ mallocOk = .error e ∧
        e ≠ CreateError.mallocWeights) ↔
        specInvalid (⟨⟨true, SampleType.stInteger, 8, 1, ColorFamily.cmGray⟩,
          none, none, none, none, none, none, none, some [0]⟩ : TCannyArgs ℚ)) ∧
    ((∃ e, tcannyCreate (⟨fun x => x, fun _ _ => 0, fun x => x, fun _ => 1, 3, 1000⟩ : FloatOps ℚ)
        ⟨⟨true, SampleType.stInteger, 8, 1, ColorFamily.cmGray⟩,
          none, none, none, none, none, none, none, some [0]⟩ true = .error e) ↔
        specInvalid (⟨⟨true, SampleType.stInteger, 8, 1, ColorFamily.cmGray⟩,
          none, none, none, none, none, none, none, some [0]⟩ : TCannyArgs ℚ)) ∧
    (¬ specInvalid (⟨⟨true, SampleType.stInteger, 8, 1, ColorFamily.cmGray⟩,
          none, none, none, none, none, none, none, some [0]⟩ : TCannyArgs ℚ) →
      ∃ d, tcannyCreate (⟨fun x => x, fun _ _ => 0, fun x => x, fun _ => 1, 3, 1000⟩ : FloatOps ℚ)
        ⟨⟨true, SampleType.stInteger, 8, 1, ColorFamily.cmGray⟩,
          none, none, none, none, none, none, none, some [0]⟩ true = .ok d ∧
      ((⟨⟨true, SampleType.stInteger, 8, 1, ColorFamily.cmGray⟩,
          none, none, none, none, none, none, none, some [0]⟩ : TCannyArgs ℚ).planes = none →
        ∀ i, d.process i = true ↔ 0 ≤ i ∧ i < 3) ∧
      (∀ l, (⟨⟨true, SampleType.stInteger, 8, 1, ColorFamily.cmGray⟩,
          none, none, none, none, none, none, none, some [0]⟩ : TCannyArgs ℚ).planes = some l →
        l ≠ [] → ∀ i, d.process i = true ↔ i ∈ l))) :=
  ⟨by decide, tcannyCreate_rejects_exact _ _ (by decide)⟩
/-- C18 (amended): with every optional parameter omitted, on a clip of a
supported format, `tcannyCreate` configures sigma = 1.5, `t_h` = 8 and
`t_l` = 1 (times `2^(bits-8)` for integer samples, over 255 for float
samples), nms = 3, op = 1, gmmax = 50, all three planes marked for
processing, and mode = 0: the lookup of `mode` has no default branch, so the
0 the failed lookup yields stays. -/
theorem tcannyCreate_defaults {α : Type} [LinearOrderedField α] [FloorRing α]
    (ops : FloatOps α) (clip : VideoInfo)
    (hfmt : clip.constantFormat = true ∧
      ((clip.sampleType = SampleType.stInteger ∧ clip.bitsPerSample ≤ 16) ∨
        (clip.sampleType = SampleType.stFloat ∧ clip.bitsPerSample = 32))) :
    ∃ d, tcannyCreate ops ⟨clip, none, none, none, none, none, none, none, none⟩ true = .ok d ∧
      d.sigma = 3 / 2 ∧ d.nms = 3 ∧ d.mode = 0 ∧ d.op = 1 ∧ d.gmmax = 50 ∧
      (∀ i, d.process i = true ↔ 0 ≤ i ∧ i < 3) ∧
      (clip.sampleType = SampleType.stInteger →
        d.t_h = 8 * ((2 ^ (clip.bitsPerSample - 8).toNat : Int) : α) ∧
        d.t_l = 1 * ((2 ^ (clip.bitsPerSample - 8).toNat : Int) : α)) ∧
      (clip.sampleType = SampleType.stFloat → d.t_h = 8 / 255 ∧ d.t_l = 1 / 255) := by
  have hv : ¬ createInvalid
      (⟨clip, none, none, none, none, none, none, none, none⟩ : TCannyArgs α) := by
    unfold createInvalid
    simp only [Option.getD_none, List.not_mem_nil, false_and, exists_false, List.nodup_nil,
      not_true_eq_false, or_false, not_or, not_le, not_lt]
    refine ⟨by norm_num, by omega, by omega, by omega, by norm_num, ?_, ?_, ?_⟩
    · simp [hfmt.1]
    · rcases hfmt.2 with h | h
      · simp [h.1, h.2]
      · simp [h.1]
    · rcases hfmt.2 with h | h
      · simp [h.1]
      · simp [h.1, h.2]
  obtain ⟨d, hd, -, hsig, hnms, hmode, hop, hgm, -, -, -, hproc, hint, hflt⟩ :=
    tcannyCreate_accept ops _ hv
  refine ⟨d, hd, hsig, hnms, hmode, hop, hgm, ?_, ?_, ?_⟩
  · intro i
    rw [hproc]
    simp [propNumElements]
  · intro hi
    exact ⟨(hint hi).1, (hint hi).2.1⟩
  · intro hf
    have hne : clip.sampleType ≠ SampleType.stInteger := by rw [hf]; decide
    exact ⟨(hflt hne).1, (hflt hne).2.1⟩

/-- The C18 theorem at an 8-bit gray clip. -/
theorem tcannyCreate_defaults_witness :
    ((⟨true, SampleType.stInteger, 8, 1, ColorFamily.cmGray⟩ : VideoInfo).constantFormat = true ∧
      (((⟨true, SampleType.stInteger, 8, 1, ColorFamily.cmGray⟩ : VideoInfo).sampleType =
            SampleType.stInteger ∧
          (⟨true, SampleType.stInteger, 8, 1, ColorFamily.cmGray⟩ : VideoInfo).bitsPerSample ≤ 16) ∨
        ((⟨true, SampleType.stInteger, 8, 1, ColorFamily.cmGray⟩ : VideoInfo).sampleType =
            SampleType.stFloat ∧
          (⟨true, SampleType.stInteger, 8, 1, ColorFamily.cmGray⟩ : VideoInfo).bitsPerSample = 32))) ∧
    ∃ d, tcannyCreate (⟨fun x => x, fun _ _ => 0, fun x => x, fun _ => 1, 3, 1000⟩ : FloatOps ℚ)
        ⟨⟨true, SampleType.stInteger, 8, 1, ColorFamily.cmGray⟩,
          none, none, none, none, none, none, none, none⟩ true = .ok d ∧
      d.sigma = 3 / 2 ∧ d.nms = 3 ∧ d.mode = 0 ∧ d.op = 1 ∧ d.gmmax = 50 ∧
      (∀ i, d.process i = true ↔ 0 ≤ i ∧ i < 3) ∧
      ((⟨true, SampleType.stInteger, 8, 1, ColorFamily.cmGray⟩ : VideoInfo).sampleType =
          SampleType.stInteger →
        d.t_h = 8 * ((2 ^ ((⟨true, SampleType.stInteger, 8, 1, ColorFamily.cmGray⟩ :
          VideoInfo).bitsPerSample - 8).toNat : Int) : ℚ) ∧
        d.t_l = 1 * ((2 ^ ((⟨true, SampleType.stInteger, 8, 1, ColorFamily.cmGray⟩ :
          VideoInfo).bitsPerSample - 8).toNat : Int) : ℚ)) ∧
      ((⟨true, SampleType.stInteger, 8, 1, ColorFamily.cmGray⟩ : VideoInfo).sampleType =
          SampleType.stFloat → d.t_h = 8 / 255 ∧ d.t_l = 1 / 255) :=
  ⟨by decide, tcannyCreate_defaults _ _ (by decide)⟩

/-- Counterexample to C18 as stated: with every optional parameter omitted on
an 8-bit gray clip the filter is created with mode 0, not -1. -/
theorem default_mode_is_zero :
    ∃ d, tcannyCreate (⟨Real.sqrt, fun y x => Complex.arg ⟨x, y⟩, Real.tan, Real.exp, Real.pi,
          340282346638528859811704183484516925440⟩ : FloatOps ℝ)
        ⟨⟨true, SampleType.stInteger, 8, 1, ColorFamily.cmGray⟩,
          none, none, none, none, none, none, none, none⟩ true = .ok d ∧
      d.mode = 0 ∧ d.mode ≠ -1 := by
  have hv : ¬ createInvalid
      (⟨⟨true, SampleType.stInteger, 8, 1, ColorFamily.cmGray⟩,
        none, none, none, none, none, none, none, none⟩ : TCannyArgs ℝ) := by
    unfold createInvalid
    simp only [Option.getD_none, List.not_mem_nil, false_and, exists_false, List.nodup_nil,
      not_true_eq_false, or_false, not_or, not_le, not_lt]
    refine ⟨by norm_num, by omega, by omega, by omega, by norm_num, ?_, ?_, ?_⟩ <;> simp
  obtain ⟨d, hd, -, -, -, hmode, -⟩ := tcannyCreate_accept _ _ hv
  refine ⟨d, hd, hmode, ?_⟩
  rw [hmode]
  decide

/-! ## The plane loop -/

/-- A pixel loop that stores `f` of the index stores it at every pixel of the plane. -/
theorem writePlane_apply {β : Type} (f : Int → β) (dstp : Int → β)
    (width height stride : Int) (hs : width ≤ stride) (x y : Int)
    (hx0 : 0 ≤ x) (hx1 : x < width) (hy0 : 0 ≤ y) (hy1 : y < height) :
    writePlane f dstp width height stride (x + y * stride) = f (x + y * stride) := by
  unfold writePlane
  have key := forLoop2_cell (fun _ : Int → β => True) (fun _ => True)
    (fun t => t (x + y * stride) = f (x + y * stride)) 0 height 0 width y x
    (fun y x dst => Function.update dst (x + y * stride) (f (x + y * stride))) dstp
    ⟨hy0, hy1⟩ ⟨hx0, hx1⟩
    (fun _ _ _ _ _ _ _ _ => trivial)
    (fun _ _ _ _ _ _ _ _ _ _ => trivial)
    (fun t _ _ => by beta_reduce; exact Function.update_same _ _ _)
    (fun y' x' t h1 h2 h3 h4 hne _ h => by
      beta_reduce at h ⊢
      rw [Function.update_noteq
        (idx_ne stride x y x' y' hx0 (by omega) h3 (by omega) hne)]
      exact h)
    trivial trivial
  exact key.2

section PlaneProof
variable {α : Type} [LinearOrderedField α] [FloorRing α]

/-- After `gmDirImages` buffer A holds, at a pixel of the plane, the magnitude
or the sentinel, and 0 on the border. -/
theorem gmDirImages_srcp_plane (ops : FloatOps α) (srcp gimg dimg : Int → α)
    (width height stride nms mode op : Int) (hs : width ≤ stride) (x y : Int)
    (hx0 : 0 ≤ x) (hx1 : x < width) (hy0 : 0 ≤ y) (hy1 : y < height) :
    ((gmDirImages ops srcp gimg dimg width height stride nms mode op).srcp (x + y * stride) =
        (gmDirImages ops srcp gimg dimg width height stride nms mode op).gimg (x + y * stride) ∨
      (gmDirImages ops srcp gimg dimg width height stride nms mode op).srcp (x + y * stride) =
        -ops.fltMax) ∧
    (¬ interior width height x y →
      (gmDirImages ops srcp gimg dimg width height stride nms mode op).srcp (x + y * stride) =
        0) ∧
    (and1 mode ≠ 0 →
      (gmDirImages ops srcp gimg dimg width height stride nms mode op).srcp (x + y * stride) =
        (gmDirImages ops srcp gimg dimg width height stride nms mode op).gimg (x + y * stride)) := by
  obtain ⟨eg, ed⟩ := gmDirImages_gimg ops srcp gimg dimg width height stride nms mode op
  obtain ⟨b0, b1⟩ := idx_bound stride height x y hx0 (by omega) hy0 hy1
  have hcopy := gmGradientPass_copy ops srcp gimg dimg width height stride mode op _ b0 b1
  have hunt : ¬ interior width height x y →
      ∀ x' y', interior width height x' y' → x + y * stride ≠ x' + y' * stride := by
    intro hni x' y' hq' e
    have hq := hq'
    unfold interior at hq
    obtain ⟨e1, e2⟩ := idx_inj stride x y x' y' hx0 (by omega) (by omega) (by omega) e
    subst e1; subst e2
    exact hni hq'
  refine ⟨?_, ?_, ?_⟩
  · rw [eg, ← hcopy]
    unfold gmDirImages
    split_ifs
    · exact Or.inl rfl
    · exact gmSuppressPass_cell ops width height stride nms _ _
  · intro hni
    have hz := (gmGradientPass_untouched ops srcp gimg dimg width height stride mode op _ b0 b1
      (hunt hni)).1
    rw [← hz, ← hcopy]
    unfold gmDirImages
    split_ifs
    · rfl
    · exact gmSuppressPass_untouched ops width height stride nms _ _ (hunt hni)
  · intro hm
    rw [eg, ← hcopy]
    unfold gmDirImages
    rw [if_pos hm]

/-- Buffers A, B, C of `tcannyGradient` when the mode is not -1. -/
theorem tcannyGradient_gm (ops : FloatOps α) (d : TCannyData α) (srcp : Int → α)
    (b : Buffers α) (width height stride : Int) (offset : α) (hm : d.mode ≠ -1) :
    tcannyGradient ops d srcp b width height stride offset =
      gmDirImages ops (tcannySmooth d srcp b width height stride offset)
        (genConvV srcp b.fa1 width height stride d.grad d.weights offset) b.fa2
        width height stride d.nms d.mode d.op := by
  unfold tcannyGradient
  rw [if_pos hm]

/-- The stages when hysteresis is skipped (`d->mode & 1`, modes -1, 1 and 3). -/
theorem tcannyStages_odd (fuel : Nat) (ops : FloatOps α) (d : TCannyData α) (srcp : Int → α)
    (b : Buffers α) (width height stride : Int) (offset : α) (hm : and1 d.mode ≠ 0) :
    tcannyStages fuel ops d srcp b width height stride offset =
      some { fa0 := (tcannyGradient ops d srcp b width height stride offset).srcp
             fa1 := (tcannyGradient ops d srcp b width height stride offset).gimg
             fa2 := (tcannyGradient ops d srcp b width height stride offset).dimg
             stack := b.stack } := by
  unfold tcannyStages
  simp only [if_neg hm]

/-- The stages when hysteresis runs (modes 0 and 2): with enough fuel they
return, and the flood-fill invariant relates the result to buffer A of
`tcannyGradient`. -/
theorem tcannyStages_even (fuel : Nat) (ops : FloatOps α) (d : TCannyData α) (srcp : Int → α)
    (b : Buffers α) (width height stride : Int) (offset : α) (hm : and1 d.mode = 0)
    (hs : width ≤ stride) (hfuel : (width * height).toNat ≤ fuel) :
    ∃ h, hystersis fuel (tcannyGradient ops d srcp b width height stride offset).srcp b.stack
          width height stride d.t_h d.t_l ops.fltMax = some h ∧
      tcannyStages fuel ops d srcp b width height stride offset =
        some { fa0 := h.srcp
               fa1 := (tcannyGradient ops d srcp b width height stride offset).gimg
               fa2 := (tcannyGradient ops d srcp b width height stride offset).dimg
               stack := h.stack } ∧
      HystInv (tcannyGradient ops d srcp b width height stride offset).srcp
        width height stride d.t_h d.t_l ops.fltMax (fun _ => False) h ∧
      h.stack.index = -1 ∧
      ∀ x y, interior width height x y →
        d.t_h ≤ (tcannyGradient ops d srcp b width height stride offset).srcp (x + y * stride) →
        h.stack.map (x + y * width) ≠ 0 := by
  obtain ⟨h, h1, h2, h3, h4⟩ :=
    @hystersis_inv α _ width height stride d.t_h d.t_l ops.fltMax hs fuel hfuel
      (tcannyGradient ops d srcp b width height stride offset).srcp b.stack
  refine ⟨h, h1, ?_, h2, h3, h4⟩
  unfold tcannyStages
  simp only [if_pos hm, h1, Option.map_some']

end PlaneProof

section FlatProof
variable {α : Type} [LinearOrderedField α] [FloorRing α]

/-- Both derivatives of a constant buffer are 0, for every operator. -/
theorem gmGradient_const (op stride : Int) (c : α) (i : Int) :
    gmGradient op stride (fun _ => c) i = (0, 0) := by
  unfold gmGradient
  split_ifs <;> simp

/-- The smoothed plane of a flat plane is flat. -/
theorem tcannySmooth_const (d : TCannyData α) (srcp : Int → α) (b : Buffers α)
    (width height stride : Int) (offset c : α)
    (hrw : d.grad < width) (hrh : d.grad < height)
    (hsum : ∑ k in Finset.range (2 * d.grad + 1).toNat, d.weights (k : Int) = 1)
    (hc : ∀ x y, 0 ≤ x → x < width → 0 ≤ y → y < height → srcp (x + y * stride) = c)
    (x y : Int) (hx0 : 0 ≤ x) (hx1 : x < width) (hy0 : 0 ≤ y) (hy1 : y < height) :
    tcannySmooth d srcp b width height stride offset (x + y * stride) = c + offset := by
  unfold tcannySmooth
  exact genConvH_const _ b.fa0 width height stride d.grad d.weights (c + offset) hrw hsum
    (fun x' y' h1 h2 h3 h4 =>
      genConvV_const srcp b.fa1 width height stride d.grad d.weights offset c hrh hsum hc
        x' y' h1 h2 h3 h4)
    x y hx0 hx1 hy0 hy1

/-- The destination plane is the output routine run on the buffers the stages
leave. -/
theorem tcannyPlane_of_stages (fuel : Nat) (ops : FloatOps α) (d : TCannyData α)
    (plane : Int) (srcp : Int → Int) (b b' : Buffers α) (dstp : Int → Int)
    (width height stride : Int)
    (h : tcannyStages fuel ops d (fun i => ((srcp i : Int) : α)) b width height stride
      (planeOffset d.vi plane) = some b') :
    tcannyPlane fuel ops d plane srcp b dstp width height stride =
      some (tcannyOutput ops d b' dstp width height stride) := by
  unfold tcannyPlane
  rw [h]
  rfl

theorem tcannyPlaneF_of_stages (fuel : Nat) (ops : FloatOps α) (d : TCannyData α)
    (plane : Int) (srcp : Int → α) (b b' : Buffers α) (dstp : Int → α)
    (width height stride : Int)
    (h : tcannyStages fuel ops d srcp b width height stride (planeOffset d.vi plane) =
      some b') :
    tcannyPlaneF fuel ops d plane srcp b dstp width height stride =
      some (tcannyOutputF ops d plane b' dstp width height stride (planeOffset d.vi plane)) := by
  unfold tcannyPlaneF
  rw [h]
  rfl

/-- The magnitude buffer of a flat plane is 0 at every pixel, in every mode
but -1. -/
theorem tcannyGradient_flat (ops : FloatOps α) (hsqrt : ops.sqrt 0 = 0)
    (d : TCannyData α) (srcp : Int → α) (b : Buffers α)
    (width height stride : Int) (offset c : α) (hm : d.mode ≠ -1) (hs : width ≤ stride)
    (hrw : d.grad < width) (hrh : d.grad < height)
    (hsum : ∑ k in Finset.range (2 * d.grad + 1).toNat, d.weights (k : Int) = 1)
    (hc : ∀ x y, 0 ≤ x → x < width → 0 ≤ y → y < height → srcp (x + y * stride) = c)
    (x y : Int) (hx0 : 0 ≤ x) (hx1 : x < width) (hy0 : 0 ≤ y) (hy1 : y < height) :
    (tcannyGradient ops d srcp b width height stride offset).gimg (x + y * stride) = 0 := by
  rw [tcannyGradient_gm ops d srcp b width height stride offset hm]
  by_cases hq : interior width height x y
  · rw [(gmDirImages_gimg ops _ _ _ width height stride d.nms d.mode d.op).1,
      (gmGradientPass_interior ops _ _ _ width height stride d.mode d.op hs x y hq).1]
    have hq' := hq
    unfold interior at hq'
    rw [gmGradient_congr d.op stride _ (fun _ => c + offset) (x + y * stride)
      (fun dx dy h1 h2 h3 h4 => by
        have e : x + y * stride + dx + dy * stride = (x + dx) + (y + dy) * stride := by ring
        rw [e]
        exact tcannySmooth_const d srcp b width height stride offset c hrw hrh hsum hc
          (x + dx) (y + dy) (by omega) (by omega) (by omega) (by omega)),
      gmGradient_const]
    unfold gmMagnitude
    simp [hsqrt]
  · exact (gmDirImages_border ops _ _ _ width height stride d.nms d.mode d.op hs x y
      hx0 hx1 hy0 hy1 hq).1

end FlatProof

/-- Exact arithmetic: in mode 1, on an integer-depth plane whose samples are all equal and
whose width and height exceed the kernel radius (weights summing to 1,
`sqrt 0 = 0`), for every operator and every magnitude scale the pipeline
returns with the magnitude buffer 0 at every pixel of the plane and 0 written
to every output sample, border included. -/
theorem flat_plane_magnitude_exact {α : Type} [LinearOrderedField α] [FloorRing α]
    (fuel : Nat) (ops : FloatOps α) (d : TCannyData α) (plane : Int) (srcp : Int → Int)
    (b : Buffers α) (dstp : Int → Int) (width height stride : Int) (c : Int)
    (hsqrt : ops.sqrt 0 = 0) (hmode : d.mode = 1) (hpeak : 0 ≤ d.peak)
    (hs : width ≤ stride) (hrw : d.grad < width) (hrh : d.grad < height)
    (hsum : ∑ k in Finset.range (2 * d.grad + 1).toNat, d.weights (k : Int) = 1)
    (hc : ∀ x y, 0 ≤ x → x < width → 0 ≤ y → y < height → srcp (x + y * stride) = c) :
    ∃ b' out,
      tcannyStages fuel ops d (fun i => ((srcp i : Int) : α)) b width height stride
        (planeOffset d.vi plane) = some b' ∧
      tcannyPlane fuel ops d plane srcp b dstp width height stride = some out ∧
      ∀ x y, 0 ≤ x → x < width → 0 ≤ y → y < height →
        b'.fa1 (x + y * stride) = 0 ∧ out (x + y * stride) = 0 := by
  have hodd : and1 d.mode ≠ 0 := by rw [hmode]; decide
  have hne : d.mode ≠ -1 := by rw [hmode]; decide
  have hst := tcannyStages_odd fuel ops d (fun i => ((srcp i : Int) : α)) b width height stride
    (planeOffset d.vi plane) hodd
  refine ⟨_, _, hst, tcannyPlane_of_stages fuel ops d plane srcp b _ dstp width height stride hst,
    ?_⟩
  · intro x y hx0 hx1 hy0 hy1
    have hg := tcannyGradient_flat ops hsqrt d (fun i => ((srcp i : Int) : α)) b
      width height stride (planeOffset d.vi plane) (c : α) hne hs hrw hrh hsum
      (fun x' y' h1 h2 h3 h4 => by simp only [hc x' y' h1 h2 h3 h4])
      x y hx0 hx1 hy0 hy1
    refine ⟨hg, ?_⟩
    unfold tcannyOutput
    rw [if_neg hne, if_neg (by rw [hmode]; decide), if_pos hmode]
    unfold discretizeGM
    rw [writePlane_apply _ _ width height stride hs x y hx0 hx1 hy0 hy1]
    dsimp only
    rw [hg, zero_mul, zero_add, truncToInt_of_nonneg _ (by norm_num)]
    have : ⌊(1 / 2 : α)⌋ = 0 := by
      rw [Int.floor_eq_iff]; norm_num
    rw [this]
    exact min_eq_left hpeak

/-- The exact-arithmetic statement on a 4x4 plane of samples 7 with a three-tap box kernel
over the rationals. -/
theorem flat_plane_magnitude_exact_example :
    ∃ b' out,
      tcannyStages 16 (⟨fun x => x, fun _ _ => 0, fun x => x, fun _ => 1, 3, 1000⟩ : FloatOps ℚ)
        (⟨⟨true, SampleType.stInteger, 8, 1, ColorFamily.cmGray⟩, 1 / 3, 8, 1, 50, 3, 1, 1,
          fun _ => true, 1, 256, fun _ => 1 / 3, 255 / 50, 255, fun _ => 0, fun _ => 0⟩ :
          TCannyData ℚ)
        (fun i => (((fun _ => 7 : Int → Int) i : Int) : ℚ))
        ⟨fun _ => 0, fun _ => 0, fun _ => 0, ⟨fun _ => 0, fun _ => (0, 0), -1⟩⟩ 4 4 4
        (planeOffset (⟨⟨true, SampleType.stInteger, 8, 1, ColorFamily.cmGray⟩, 1 / 3, 8, 1, 50,
          3, 1, 1, fun _ => true, 1, 256, fun _ => 1 / 3, 255 / 50, 255, fun _ => 0,
          fun _ => 0⟩ : TCannyData ℚ).vi 0) = some b' ∧
      tcannyPlane 16 (⟨fun x => x, fun _ _ => 0, fun x => x, fun _ => 1, 3, 1000⟩ : FloatOps ℚ)
        (⟨⟨true, SampleType.stInteger, 8, 1, ColorFamily.cmGray⟩, 1 / 3, 8, 1, 50, 3, 1, 1,
          fun _ => true, 1, 256, fun _ => 1 / 3, 255 / 50, 255, fun _ => 0, fun _ => 0⟩ :
          TCannyData ℚ)
        0 (fun _ => 7) ⟨fun _ => 0, fun _ => 0, fun _ => 0, ⟨fun _ => 0, fun _ => (0, 0), -1⟩⟩
        (fun _ => 0) 4 4 4 = some out ∧
      ∀ x y : Int, 0 ≤ x → x < 4 → 0 ≤ y → y < 4 →
        b'.fa1 (x + y * 4) = 0 ∧ out (x + y * 4) = 0 :=
  flat_plane_magnitude_exact 16 _ _ 0 (fun _ => 7) _ (fun _ => 0) 4 4 4 7 rfl rfl (by decide)
    (by decide) (by decide) (by decide) (by simp [Finset.sum_range_succ])
    (fun _ _ _ _ _ _ => rfl)

/-- What the flood-fill invariant of a finished run says of one pixel of the
plane: it is retained exactly when it is marked, exactly when it is in the
flood-fill set. -/
theorem hystInv_retained {α : Type} [LinearOrder α] (inp : Int → α)
    (width height stride : Int) (t_h t_l fltMax : α) (out : HystState α)
    (h2 : HystInv inp width height stride t_h t_l fltMax (fun _ => False) out)
    (h3 : out.stack.index = -1)
    (h4 : ∀ x y, interior width height x y → t_h ≤ inp (x + y * stride) →
      out.stack.map (x + y * width) ≠ 0)
    (x y : Int) (hx0 : 0 ≤ x) (hx1 : x < width) (hy0 : 0 ≤ y) (hy1 : y < height) :
    (retained out width stride fltMax x y ↔ out.stack.map (x + y * width) ≠ 0) ∧
    (out.stack.map (x + y * width) ≠ 0 ↔ hystReach inp width height stride t_h t_l x y) := by
  have hb := h2.buf x y hx0 hx1 hy0 hy1
  have hU : UINT8_MAX ≠ 0 := by decide
  have hreach : hystReach inp width height stride t_h t_l x y →
      out.stack.map (x + y * width) ≠ 0 := by
    rintro ⟨_, sx, sy, hs1, hs2, hs3⟩
    have gen : ∀ q : Int × Int,
        Relation.ReflTransGen (hystLink inp width height stride t_l) (sx, sy) q →
        interior width height q.1 q.2 ∧ out.stack.map (q.1 + q.2 * width) ≠ 0 := by
      intro q hq
      induction hq with
      | refl => exact ⟨hs1, h4 sx sy hs1 hs2⟩
      | @tail b c _ hl ih =>
        obtain ⟨hbi, hbm⟩ := ih
        obtain ⟨hci, ⟨_, a1, a2, a3, a4⟩, hgt⟩ := hl
        rcases h2.closed b.1 b.2 hbi hbm with ⟨k, hk0, hk1, _⟩ | hex | hcl
        · omega
        · exact absurd hex id
        · exact ⟨hci, hcl c.1 c.2 hci a1 a2 a3 a4 hgt⟩
    exact (gen (x, y) hs3).2
  refine ⟨?_, fun hm => (h2.sound x y hx0 hx1 hy0 hy1 hm).1, hreach⟩
  unfold retained
  constructor
  · rintro ⟨a, _⟩; rw [a]; exact hU
  · intro hm
    refine ⟨(h2.sound x y hx0 hx1 hy0 hy1 hm).2, ?_⟩
    rw [hb]; simp [hm]

section EdgeProof
variable {α : Type} [LinearOrderedField α] [FloorRing α]

/-- Mode 0 or 2, one pixel of the plane: the stages return; the pixel is
retained exactly when it is in the flood-fill set of buffer A; buffer A after
hysteresis holds `FLT_MAX` there if it is retained and the value of
`gmDirImages` if not; a strong interior pixel is retained. -/
theorem tcannyStages_pixel (fuel : Nat) (ops : FloatOps α) (d : TCannyData α)
    (srcp : Int → α) (b : Buffers α) (width height stride : Int) (offset : α)
    (hm : and1 d.mode = 0) (hs : width ≤ stride) (hfuel : (width * height).toNat ≤ fuel) :
    ∃ b', tcannyStages fuel ops d srcp b width height stride offset = some b' ∧
      b'.fa1 = (tcannyGradient ops d srcp b width height stride offset).gimg ∧
      b'.fa2 = (tcannyGradient ops d srcp b width height stride offset).dimg ∧
      ∀ x y, 0 ≤ x → x < width → 0 ≤ y → y < height →
        (retained ⟨b'.fa0, b'.stack⟩ width stride ops.fltMax x y ↔
          hystReach (tcannyGradient ops d srcp b width height stride offset).srcp
            width height stride d.t_h d.t_l x y) ∧
        (retained ⟨b'.fa0, b'.stack⟩ width stride ops.fltMax x y →
          b'.fa0 (x + y * stride) = ops.fltMax) ∧
        (¬ retained ⟨b'.fa0, b'.stack⟩ width stride ops.fltMax x y →
          b'.fa0 (x + y * stride) =
            (tcannyGradient ops d srcp b width height stride offset).srcp (x + y * stride)) ∧
        (¬ retained ⟨b'.fa0, b'.stack⟩ width stride ops.fltMax x y →
          interior width height x y →
          (tcannyGradient ops d srcp b width height stride offset).srcp (x + y * stride) <
            d.t_h) := by
  obtain ⟨h, h1, h2, h3, h4, h5⟩ :=
    tcannyStages_even fuel ops d srcp b width height stride offset hm hs hfuel
  refine ⟨_, h2, rfl, rfl, ?_⟩
  intro x y hx0 hx1 hy0 hy1
  obtain ⟨r1, r2⟩ := hystInv_retained _ width height stride d.t_h d.t_l ops.fltMax h h3 h4 h5
    x y hx0 hx1 hy0 hy1
  have hb := h3.buf x y hx0 hx1 hy0 hy1
  refine ⟨r1.trans r2, fun hr => hr.2, ?_, ?_⟩
  · intro hr
    have hm0 : ¬ h.stack.map (x + y * width) ≠ 0 := fun hmk => hr (r1.mpr hmk)
    show h.srcp (x + y * stride) = _
    rw [hb, if_neg hm0]
  · intro hr hq
    have hm0 : ¬ h.stack.map (x + y * width) ≠ 0 := fun hmk => hr (r1.mpr hmk)
    by_contra hlt
    exact hm0 (h5 x y hq (not_lt.mp hlt))

/-- Mode 0, a pixel on the border of the plane: the pixel is not retained and
buffer A after hysteresis is 0 there. -/
theorem tcannyStages_border (fuel : Nat) (ops : FloatOps α) (d : TCannyData α)
    (srcp : Int → α) (b : Buffers α) (width height stride : Int) (offset : α)
    (hmode : d.mode = 0) (hs : width ≤ stride) (hfuel : (width * height).toNat ≤ fuel) :
    ∃ b', tcannyStages fuel ops d srcp b width height stride offset = some b' ∧
      ∀ x y, 0 ≤ x → x < width → 0 ≤ y → y < height → ¬ interior width height x y →
        ¬ retained ⟨b'.fa0, b'.stack⟩ width stride ops.fltMax x y ∧
        b'.fa0 (x + y * stride) = 0 := by
  have hm : and1 d.mode = 0 := by rw [hmode]; decide
  have hne : d.mode ≠ -1 := by rw [hmode]; decide
  obtain ⟨b', hb', -, -, hpix⟩ :=
    tcannyStages_pixel fuel ops d srcp b width height stride offset hm hs hfuel
  refine ⟨b', hb', ?_⟩
  intro x y hx0 hx1 hy0 hy1 hni
  obtain ⟨p1, p2, p3, p4⟩ := hpix x y hx0 hx1 hy0 hy1
  have hnr : ¬ retained ⟨b'.fa0, b'.stack⟩ width stride ops.fltMax x y :=
    fun hr => hni (p1.mp hr).1
  refine ⟨hnr, ?_⟩
  rw [p3 hnr, tcannyGradient_gm ops d srcp b width height stride offset hne]
  exact (gmDirImages_srcp_plane ops _ _ _ width height stride d.nms d.mode d.op hs x y
    hx0 hx1 hy0 hy1).2.1 hni

end EdgeProof

section EdgeMap
variable {α : Type} [LinearOrderedField α] [FloorRing α]

/-- The sample `binarizeCE` writes at a pixel of the plane in mode 0. -/
theorem tcannyOutput_mode0 (ops : FloatOps α) (d : TCannyData α) (b : Buffers α)
    (dstp : Int → Int) (width height stride : Int) (hmode : d.mode = 0) (hs : width ≤ stride)
    (x y : Int) (hx0 : 0 ≤ x) (hx1 : x < width) (hy0 : 0 ≤ y) (hy1 : y < height) :
    tcannyOutput ops d b dstp width height stride (x + y * stride) =
      if b.fa0 (x + y * stride) ≥ d.t_h then d.peak else 0 := by
  unfold tcannyOutput
  rw [if_neg (by rw [hmode]; decide), if_pos hmode]
  unfold binarizeCE
  rw [writePlane_apply _ _ width height stride hs x y hx0 hx1 hy0 hy1]

/-- The sample `binarizeCE<float>` writes at a pixel of the plane in mode 0. -/
theorem tcannyOutputF_mode0 (ops : FloatOps α) (d : TCannyData α) (plane : Int)
    (b : Buffers α) (dstp : Int → α) (width height stride : Int) (offset : α)
    (hmode : d.mode = 0) (hs : width ≤ stride)
    (x y : Int) (hx0 : 0 ≤ x) (hx1 : x < width) (hy0 : 0 ≤ y) (hy1 : y < height) :
    tcannyOutputF ops d plane b dstp width height stride offset (x + y * stride) =
      if b.fa0 (x + y * stride) ≥ d.t_h then d.upper plane else d.lower plane := by
  unfold tcannyOutputF
  rw [if_neg (by rw [hmode]; decide), if_pos hmode]
  unfold binarizeCEF
  rw [writePlane_apply _ _ width height stride hs x y hx0 hx1 hy0 hy1]

/-- Mode 0 with `0 < t_h ≤ FLT_MAX` and `t_l ≥ -FLT_MAX`: the stages return,
and at every pixel of the plane buffer A meets `t_h` exactly when the pixel is
retained, which it is exactly when it is in the flood-fill set; a pixel that
holds the sentinel of the suppression is not retained. -/
theorem tcannyStages_decision (fuel : Nat) (ops : FloatOps α) (d : TCannyData α)
    (srcp : Int → α) (b : Buffers α) (width height stride : Int) (offset : α)
    (hmode : d.mode = 0) (hth0 : 0 < d.t_h) (hth1 : d.t_h ≤ ops.fltMax)
    (htl : -ops.fltMax ≤ d.t_l) (hs : width ≤ stride)
    (hfuel : (width * height).toNat ≤ fuel) :
    ∃ b', tcannyStages fuel ops d srcp b width height stride offset = some b' ∧
      ∀ x y, 0 ≤ x → x < width → 0 ≤ y → y < height →
        (retained ⟨b'.fa0, b'.stack⟩ width stride ops.fltMax x y ↔
          hystReach (tcannyGradient ops d srcp b width height stride offset).srcp
            width height stride d.t_h d.t_l x y) ∧
        (retained ⟨b'.fa0, b'.stack⟩ width stride ops.fltMax x y →
          b'.fa0 (x + y * stride) ≥ d.t_h) ∧
        (¬ retained ⟨b'.fa0, b'.stack⟩ width stride ops.fltMax x y →
          ¬ b'.fa0 (x + y * stride) ≥ d.t_h) ∧
        ((tcannyGradient ops d srcp b width height stride offset).srcp (x + y * stride) =
            -ops.fltMax →
          ¬ retained ⟨b'.fa0, b'.stack⟩ width stride ops.fltMax x y) := by
  have hm : and1 d.mode = 0 := by rw [hmode]; decide
  have hne : d.mode ≠ -1 := by rw [hmode]; decide
  obtain ⟨b', hb', -, -, hpix⟩ :=
    tcannyStages_pixel fuel ops d srcp b width height stride offset hm hs hfuel
  refine ⟨b', hb', ?_⟩
  intro x y hx0 hx1 hy0 hy1
  obtain ⟨p1, p2, p3, p4⟩ := hpix x y hx0 hx1 hy0 hy1
  refine ⟨p1, ?_, ?_, ?_⟩
  · intro hr
    rw [p2 hr]
    exact hth1
  · intro hr
    rw [p3 hr]
    by_cases hq : interior width height x y
    · exact not_le.mpr (p4 hr hq)
    · rw [tcannyGradient_gm ops d srcp b width height stride offset hne,
        (gmDirImages_srcp_plane ops _ _ _ width height stride d.nms d.mode d.op hs x y
          hx0 hx1 hy0 hy1).2.1 hq]
      exact not_le.mpr hth0
  · intro hsup hr
    obtain ⟨_, sx, sy, _, hstrong, hchain⟩ := p1.mp hr
    have hneg : -ops.fltMax < d.t_h := by linarith
    rcases Relation.ReflTransGen.cases_tail hchain with e | ⟨c, _, hl⟩
    · have e1 : x = sx := congrArg Prod.fst e
      have e2 : y = sy := congrArg Prod.snd e
      subst e1; subst e2
      rw [hsup] at hstrong
      exact absurd hstrong (not_le.mpr hneg)
    · have hgt := hl.2.2
      simp only at hgt
      rw [hsup] at hgt
      exact absurd htl (not_le.mpr hgt)

end EdgeMap

/-- C12 (amended): in mode 0 with `0 < t_h ≤ FLT_MAX` and `t_l ≥ -FLT_MAX`
(the thresholds after depth scaling), for integer and for float samples, the
pipeline returns and every output sample of the plane is peak or 0 (upper or
lower); a pixel is retained by hysteresis exactly when it is in the flood-fill
set of buffer A; the output is peak (upper) at a retained pixel and 0 (lower)
at every other pixel of the plane, among them every pixel that holds the
sentinel of non-maximum suppression. -/
theorem edge_map_agrees_with_hysteresis {α : Type} [LinearOrderedField α] [FloorRing α]
    (fuel : Nat) (ops : FloatOps α) (d : TCannyData α) (plane : Int)
    (srcp : Int → Int) (srcpF : Int → α) (b : Buffers α) (dstp : Int → Int) (dstpF : Int → α)
    (width height stride : Int)
    (hmode : d.mode = 0) (hth0 : 0 < d.t_h) (hth1 : d.t_h ≤ ops.fltMax)
    (htl : -ops.fltMax ≤ d.t_l) (hs : width ≤ stride)
    (hfuel : (width * height).toNat ≤ fuel) :
    (∃ b' out,
      tcannyStages fuel ops d (fun i => ((srcp i : Int) : α)) b width height stride
        (planeOffset d.vi plane) = some b' ∧
      tcannyPlane fuel ops d plane srcp b dstp width height stride = some out ∧
      ∀ x y, 0 ≤ x → x < width → 0 ≤ y → y < height →
        (out (x + y * stride) = d.peak ∨ out (x + y * stride) = 0) ∧
        (retained ⟨b'.fa0, b'.stack⟩ width stride ops.fltMax x y ↔
          hystReach (tcannyGradient ops d (fun i => ((srcp i : Int) : α)) b width height stride
            (planeOffset d.vi plane)).srcp width height stride d.t_h d.t_l x y) ∧
        (retained ⟨b'.fa0, b'.stack⟩ width stride ops.fltMax x y →
          out (x + y * stride) = d.peak) ∧
        (¬ retained ⟨b'.fa0, b'.stack⟩ width stride ops.fltMax x y →
          out (x + y * stride) = 0) ∧
        ((tcannyGradient ops d (fun i => ((srcp i : Int) : α)) b width height stride
            (planeOffset d.vi plane)).srcp (x + y * stride) = -ops.fltMax →
          out (x + y * stride) = 0)) ∧
    (∃ b' out,
      tcannyStages fuel ops d srcpF b width height stride (planeOffset d.vi plane) = some b' ∧
      tcannyPlaneF fuel ops d plane srcpF b dstpF width height stride = some out ∧
      ∀ x y, 0 ≤ x → x < width → 0 ≤ y → y < height →
        (out (x + y * stride) = d.upper plane ∨ out (x + y * stride) = d.lower plane) ∧
        (retained ⟨b'.fa0, b'.stack⟩ width stride ops.fltMax x y ↔
          hystReach (tcannyGradient ops d srcpF b width height stride
            (planeOffset d.vi plane)).srcp width height stride d.t_h d.t_l x y) ∧
        (retained ⟨b'.fa0, b'.stack⟩ width stride ops.fltMax x y →
          out (x + y * stride) = d.upper plane) ∧
        (¬ retained ⟨b'.fa0, b'.stack⟩ width stride ops.fltMax x y →
          out (x + y * stride) = d.lower plane) ∧
        ((tcannyGradient ops d srcpF b width height stride
            (planeOffset d.vi plane)).srcp (x + y * stride) = -ops.fltMax →
          out (x + y * stride) = d.lower plane)) := by
  constructor
  · obtain ⟨b', hb', hpix⟩ := tcannyStages_decision fuel ops d (fun i => ((srcp i : Int) : α)) b
      width height stride (planeOffset d.vi plane) hmode hth0 hth1 htl hs hfuel
    refine ⟨b', _, hb',
      tcannyPlane_of_stages fuel ops d plane srcp b b' dstp width height stride hb', ?_⟩
    intro x y hx0 hx1 hy0 hy1
    obtain ⟨p1, p2, p3, p4⟩ := hpix x y hx0 hx1 hy0 hy1
    have ho := tcannyOutput_mode0 ops d b' dstp width height stride hmode hs x y hx0 hx1 hy0 hy1
    have hyes : retained ⟨b'.fa0, b'.stack⟩ width stride ops.fltMax x y →
        tcannyOutput ops d b' dstp width height stride (x + y * stride) = d.peak :=
      fun hr => by rw [ho, if_pos (p2 hr)]
    have hno : ¬ retained ⟨b'.fa0, b'.stack⟩ width stride ops.fltMax x y →
        tcannyOutput ops d b' dstp width height stride (x + y * stride) = 0 :=
      fun hr => by rw [ho, if_neg (p3 hr)]
    refine ⟨?_, p1, hyes, hno, fun hsup => hno (p4 hsup)⟩
    by_cases hr : retained ⟨b'.fa0, b'.stack⟩ width stride ops.fltMax x y
    · exact Or.inl (hyes hr)
    · exact Or.inr (hno hr)
  · obtain ⟨b', hb', hpix⟩ := tcannyStages_decision fuel ops d srcpF b
      width height stride (planeOffset d.vi plane) hmode hth0 hth1 htl hs hfuel
    refine ⟨b', _, hb',
      tcannyPlaneF_of_stages fuel ops d plane srcpF b b' dstpF width height stride hb', ?_⟩
    intro x y hx0 hx1 hy0 hy1
    obtain ⟨p1, p2, p3, p4⟩ := hpix x y hx0 hx1 hy0 hy1
    have ho := tcannyOutputF_mode0 ops d plane b' dstpF width height stride
      (planeOffset d.vi plane) hmode hs x y hx0 hx1 hy0 hy1
    have hyes : retained ⟨b'.fa0, b'.stack⟩ width stride ops.fltMax x y →
        tcannyOutputF ops d plane b' dstpF width height stride (planeOffset d.vi plane)
          (x + y * stride) = d.upper plane :=
      fun hr => by rw [ho, if_pos (p2 hr)]
    have hno : ¬ retained ⟨b'.fa0, b'.stack⟩ width stride ops.fltMax x y →
        tcannyOutputF ops d plane b' dstpF width height stride (planeOffset d.vi plane)
          (x + y * stride) = d.lower plane :=
      fun hr => by rw [ho, if_neg (p3 hr)]
    refine ⟨?_, p1, hyes, hno, fun hsup => hno (p4 hsup)⟩
    by_cases hr : retained ⟨b'.fa0, b'.stack⟩ width stride ops.fltMax x y
    · exact Or.inl (hyes hr)
    · exact Or.inr (hno hr)

/-- The C12 theorem, integer part, on a 3x3 plane with one bright pixel in the
centre, a three-tap box kernel and thresholds 8 and 1 over the rationals. -/
theorem edge_map_agrees_with_hysteresis_witness :
    (0 : ℚ) < 8 ∧ (8 : ℚ) ≤ 1000 ∧ -(1000 : ℚ) ≤ 1 ∧ (3 : Int) ≤ 3 ∧ ((3 : Int) * 3).toNat ≤ 9 ∧
    ∃ b' out,
      tcannyStages 9 (⟨fun x => x, fun _ _ => 0, fun x => x, fun _ => 1, 3, 1000⟩ : FloatOps ℚ)
        (⟨⟨true, SampleType.stInteger, 8, 1, ColorFamily.cmGray⟩, 1 / 3, 8, 1, 50, 3, 0, 1,
          fun _ => true, 1, 256, fun _ => 1 / 3, 255 / 50, 255, fun _ => 0, fun _ => 0⟩ :
          TCannyData ℚ)
        (fun i => (((fun i => if i = 4 then 100 else 0 : Int → Int) i : Int) : ℚ))
        ⟨fun _ => 0, fun _ => 0, fun _ => 0, ⟨fun _ => 0, fun _ => (0, 0), -1⟩⟩ 3 3 3
        (planeOffset (⟨⟨true, SampleType.stInteger, 8, 1, ColorFamily.cmGray⟩, 1 / 3, 8, 1, 50,
          3, 0, 1, fun _ => true, 1, 256, fun _ => 1 / 3, 255 / 50, 255, fun _ => 0,
          fun _ => 0⟩ : TCannyData ℚ).vi 0) = some b' ∧
      tcannyPlane 9 (⟨fun x => x, fun _ _ => 0, fun x => x, fun _ => 1, 3, 1000⟩ : FloatOps ℚ)
        (⟨⟨true, SampleType.stInteger, 8, 1, ColorFamily.cmGray⟩, 1 / 3, 8, 1, 50, 3, 0, 1,
          fun _ => true, 1, 256, fun _ => 1 / 3, 255 / 50, 255, fun _ => 0, fun _ => 0⟩ :
          TCannyData ℚ)
        0 (fun i => if i = 4 then 100 else 0)
        ⟨fun _ => 0, fun _ => 0, fun _ => 0, ⟨fun _ => 0, fun _ => (0, 0), -1⟩⟩
        (fun _ => 0) 3 3 3 = some out ∧
      ∀ x y : Int, 0 ≤ x → x < 3 → 0 ≤ y → y < 3 →
        (out (x + y * 3) = 255 ∨ out (x + y * 3) = 0) ∧
        (retained ⟨b'.fa0, b'.stack⟩ 3 3 (1000 : ℚ) x y → out (x + y * 3) = 255) ∧
        (¬ retained ⟨b'.fa0, b'.stack⟩ 3 3 (1000 : ℚ) x y → out (x + y * 3) = 0) := by
  refine ⟨by norm_num, by norm_num, by norm_num, by decide, by decide, ?_⟩
  obtain ⟨b', out, h1, h2, h3⟩ := (edge_map_agrees_with_hysteresis 9
    (⟨fun x => x, fun _ _ => 0, fun x => x, fun _ => 1, 3, 1000⟩ : FloatOps ℚ)
    (⟨⟨true, SampleType.stInteger, 8, 1, ColorFamily.cmGray⟩, 1 / 3, 8, 1, 50, 3, 0, 1,
      fun _ => true, 1, 256, fun _ => 1 / 3, 255 / 50, 255, fun _ => 0, fun _ => 0⟩ :
      TCannyData ℚ)
    0 (fun i => if i = 4 then 100 else 0) (fun _ => 0)
    ⟨fun _ => 0, fun _ => 0, fun _ => 0, ⟨fun _ => 0, fun _ => (0, 0), -1⟩⟩
    (fun _ => 0) (fun _ => 0) 3 3 3 rfl (by norm_num) (by norm_num) (by norm_num)
    (by decide) (by decide)).1
  exact ⟨b', out, h1, h2, fun x y a b c e =>
    ⟨(h3 x y a b c e).1, (h3 x y a b c e).2.2.1, (h3 x y a b c e).2.2.2.1⟩⟩

section BorderEdge
variable {α : Type} [LinearOrderedField α] [FloorRing α]

/-- Mode 0, a pixel on the border of the plane: the pipeline returns, the
pixel is not retained, and the output sample is the edge value when
`t_h ≤ 0` and the non-edge value when `t_h > 0`. -/
theorem tcannyPlane_border (fuel : Nat) (ops : FloatOps α) (d : TCannyData α) (plane : Int)
    (srcp : Int → Int) (b : Buffers α) (dstp : Int → Int) (width height stride : Int)
    (hmode : d.mode = 0) (hs : width ≤ stride) (hfuel : (width * height).toNat ≤ fuel) :
    ∃ b' out,
      tcannyStages fuel ops d (fun i => ((srcp i : Int) : α)) b width height stride
        (planeOffset d.vi plane) = some b' ∧
      tcannyPlane fuel ops d plane srcp b dstp width height stride = some out ∧
      ∀ x y, 0 ≤ x → x < width → 0 ≤ y → y < height → ¬ interior width height x y →
        ¬ retained ⟨b'.fa0, b'.stack⟩ width stride ops.fltMax x y ∧
        out (x + y * stride) = if (0 : α) ≥ d.t_h then d.peak else 0 := by
  obtain ⟨b', hb', hpix⟩ := tcannyStages_border fuel ops d (fun i => ((srcp i : Int) : α)) b
    width height stride (planeOffset d.vi plane) hmode hs hfuel
  refine ⟨b', _, hb',
    tcannyPlane_of_stages fuel ops d plane srcp b b' dstp width height stride hb', ?_⟩
  intro x y hx0 hx1 hy0 hy1 hni
  obtain ⟨p1, p2⟩ := hpix x y hx0 hx1 hy0 hy1 hni
  refine ⟨p1, ?_⟩
  rw [tcannyOutput_mode0 ops d b' dstp width height stride hmode hs x y hx0 hx1 hy0 hy1, p2]

/-- The float form of `tcannyPlane_border`. -/
theorem tcannyPlaneF_border (fuel : Nat) (ops : FloatOps α) (d : TCannyData α) (plane : Int)
    (srcp : Int → α) (b : Buffers α) (dstp : Int → α) (width height stride : Int)
    (hmode : d.mode = 0) (hs : width ≤ stride) (hfuel : (width * height).toNat ≤ fuel) :
    ∃ b' out,
      tcannyStages fuel ops d srcp b width height stride (planeOffset d.vi plane) = some b' ∧
      tcannyPlaneF fuel ops d plane srcp b dstp width height stride = some out ∧
      ∀ x y, 0 ≤ x → x < width → 0 ≤ y → y < height → ¬ interior width height x y →
        ¬ retained ⟨b'.fa0, b'.stack⟩ width stride ops.fltMax x y ∧
        out (x + y * stride) = if (0 : α) ≥ d.t_h then d.upper plane else d.lower plane := by
  obtain ⟨b', hb', hpix⟩ := tcannyStages_border fuel ops d srcp b
    width height stride (planeOffset d.vi plane) hmode hs hfuel
  refine ⟨b', _, hb',
    tcannyPlaneF_of_stages fuel ops d plane srcp b b' dstp width height stride hb', ?_⟩
  intro x y hx0 hx1 hy0 hy1 hni
  obtain ⟨p1, p2⟩ := hpix x y hx0 hx1 hy0 hy1 hni
  refine ⟨p1, ?_⟩
  rw [tcannyOutputF_mode0 ops d plane b' dstp width height stride _ hmode hs x y
    hx0 hx1 hy0 hy1, p2]

end BorderEdge

/-- Counterexample to C12 as stated: with `t_h = 0` and mode 0 on an 8-bit
gray clip the filter is created, and on a flat 8x8 plane the border pixel
(7, 3), which hysteresis does not retain, gets the output 255. -/
theorem border_pixel_edge_at_zero_threshold :
    ∃ d, tcannyCreate (⟨Real.sqrt, fun y x => Complex.arg ⟨x, y⟩, Real.tan, Real.exp, Real.pi,
          340282346638528859811704183484516925440⟩ : FloatOps ℝ)
        ⟨⟨true, SampleType.stInteger, 8, 1, ColorFamily.cmGray⟩,
          none, some 0, none, none, some 0, none, none, none⟩ true = .ok d ∧
      ∃ b' out,
        tcannyStages 64 (⟨Real.sqrt, fun y x => Complex.arg ⟨x, y⟩, Real.tan, Real.exp, Real.pi,
            340282346638528859811704183484516925440⟩ : FloatOps ℝ) d
          (fun i => (((fun _ => 0 : Int → Int) i : Int) : ℝ))
          ⟨fun _ => 0, fun _ => 0, fun _ => 0, ⟨fun _ => 0, fun _ => (0, 0), -1⟩⟩ 8 8 8
          (planeOffset d.vi 0) = some b' ∧
        tcannyPlane 64 (⟨Real.sqrt, fun y x => Complex.arg ⟨x, y⟩, Real.tan, Real.exp, Real.pi,
            340282346638528859811704183484516925440⟩ : FloatOps ℝ) d 0 (fun _ => 0)
          ⟨fun _ => 0, fun _ => 0, fun _ => 0, ⟨fun _ => 0, fun _ => (0, 0), -1⟩⟩
          (fun _ => 0) 8 8 8 = some out ∧
        ¬ retained ⟨b'.fa0, b'.stack⟩ 8 8 (340282346638528859811704183484516925440 : ℝ) 7 3 ∧
        out (7 + 3 * 8) = 255 := by
  have hv : ¬ createInvalid
      (⟨⟨true, SampleType.stInteger, 8, 1, ColorFamily.cmGray⟩,
        none, some 0, none, none, some 0, none, none, none⟩ : TCannyArgs ℝ) := by
    unfold createInvalid
    simp only [Option.getD_none, Option.getD_some, List.not_mem_nil, false_and, exists_false,
      List.nodup_nil, not_true_eq_false, or_false, not_or, not_le, not_lt]
    refine ⟨by norm_num, by omega, by omega, by omega, by norm_num, ?_, ?_, ?_⟩ <;> simp
  obtain ⟨d, hd, -, -, -, hmode, -, -, -, -, -, -, hint, -⟩ := tcannyCreate_accept _ _ hv
  obtain ⟨hth, -, hbins, hpeak⟩ := hint rfl
  have hmode0 : d.mode = 0 := hmode
  have hth0 : d.t_h = 0 := by rw [hth]; simp
  have hpk : d.peak = 255 := by rw [hpeak, hbins]; decide
  obtain ⟨b', out, h1, h2, h3⟩ := tcannyPlane_border 64
    (⟨Real.sqrt, fun y x => Complex.arg ⟨x, y⟩, Real.tan, Real.exp, Real.pi,
      340282346638528859811704183484516925440⟩ : FloatOps ℝ) d 0 (fun _ => 0)
    ⟨fun _ => 0, fun _ => 0, fun _ => 0, ⟨fun _ => 0, fun _ => (0, 0), -1⟩⟩
    (fun _ => 0) 8 8 8 hmode0 (by decide) (by decide)
  obtain ⟨q1, q2⟩ := h3 7 3 (by decide) (by decide) (by decide) (by decide) (by decide)
  refine ⟨d, hd, b', out, h1, h2, q1, ?_⟩
  rw [q2, hth0, if_pos (le_refl _), hpk]

/-- C13 (amended): in mode 0 with `t_h > 0` (the threshold after depth
scaling), for every plane content, `t_l`, `nms`, `op` and kernel, the pipeline
returns and every output sample on the one-pixel border of the plane
(`x = 0`, `x = width - 1`, `y = 0` or `y = height - 1`) is the non-edge value:
0 for integer samples, lower for float samples. -/
theorem border_outputs_non_edge {α : Type} [LinearOrderedField α] [FloorRing α]
    (fuel : Nat) (ops : FloatOps α) (d : TCannyData α) (plane : Int)
    (srcp : Int → Int) (srcpF : Int → α) (b : Buffers α) (dstp : Int → Int) (dstpF : Int → α)
    (width height stride : Int)
    (hmode : d.mode = 0) (hth : 0 < d.t_h) (hs : width ≤ stride)
    (hfuel : (width * height).toNat ≤ fuel) :
    ∃ out outF,
      tcannyPlane fuel ops d plane srcp b dstp width height stride = some out ∧
      tcannyPlaneF fuel ops d plane srcpF b dstpF width height stride = some outF ∧
      ∀ x y, 0 ≤ x → x < width → 0 ≤ y → y < height →
        (x = 0 ∨ x = width - 1 ∨ y = 0 ∨ y = height - 1) →
        out (x + y * stride) = 0 ∧ outF (x + y * stride) = d.lower plane := by
  obtain ⟨b1, out, -, h2, h3⟩ := tcannyPlane_border fuel ops d plane srcp b dstp
    width height stride hmode hs hfuel
  obtain ⟨b2, outF, -, g2, g3⟩ := tcannyPlaneF_border fuel ops d plane srcpF b dstpF
    width height stride hmode hs hfuel
  refine ⟨out, outF, h2, g2, ?_⟩
  intro x y hx0 hx1 hy0 hy1 hb
  have hni : ¬ interior width height x y := by unfold interior; omega
  rw [(h3 x y hx0 hx1 hy0 hy1 hni).2, (g3 x y hx0 hx1 hy0 hy1 hni).2,
    if_neg (not_le.mpr hth), if_neg (not_le.mpr hth)]
  exact ⟨rfl, rfl⟩

/-- The C13 theorem on a 3x3 plane with a three-tap box kernel and threshold 8
over the rationals. -/
theorem border_outputs_non_edge_witness :
    (0 : ℚ) < 8 ∧ (3 : Int) ≤ 3 ∧ ((3 : Int) * 3).toNat ≤ 9 ∧
    ∃ out outF,
      tcannyPlane 9 (⟨fun x => x, fun _ _ => 0, fun x => x, fun _ => 1, 3, 1000⟩ : FloatOps ℚ)
        (⟨⟨true, SampleType.stInteger, 8, 1, ColorFamily.cmGray⟩, 1 / 3, 8, 1, 50, 3, 0, 1,
          fun _ => true, 1, 256, fun _ => 1 / 3, 255 / 50, 255, fun _ => 0, fun _ => 1⟩ :
          TCannyData ℚ)
        0 (fun i => if i = 4 then 100 else 0)
        ⟨fun _ => 0, fun _ => 0, fun _ => 0, ⟨fun _ => 0, fun _ => (0, 0), -1⟩⟩
        (fun _ => 0) 3 3 3 = some out ∧
      tcannyPlaneF 9 (⟨fun x => x, fun _ _ => 0, fun x => x, fun _ => 1, 3, 1000⟩ : FloatOps ℚ)
        (⟨⟨true, SampleType.stInteger, 8, 1, ColorFamily.cmGray⟩, 1 / 3, 8, 1, 50, 3, 0, 1,
          fun _ => true, 1, 256, fun _ => 1 / 3, 255 / 50, 255, fun _ => 0, fun _ => 1⟩ :
          TCannyData ℚ)
        0 (fun i => if i = 4 then 1 else 0)
        ⟨fun _ => 0, fun _ => 0, fun _ => 0, ⟨fun _ => 0, fun _ => (0, 0), -1⟩⟩
        (fun _ => 0) 3 3 3 = some outF ∧
      ∀ x y : Int, 0 ≤ x → x < 3 → 0 ≤ y → y < 3 →
        (x = 0 ∨ x = 3 - 1 ∨ y = 0 ∨ y = 3 - 1) →
        out (x + y * 3) = 0 ∧ outF (x + y * 3) = 0 :=
  ⟨by norm_num, by decide, by decide,
    border_outputs_non_edge 9
      (⟨fun x => x, fun _ _ => 0, fun x => x, fun _ => 1, 3, 1000⟩ : FloatOps ℚ)
      (⟨⟨true, SampleType.stInteger, 8, 1, ColorFamily.cmGray⟩, 1 / 3, 8, 1, 50, 3, 0, 1,
        fun _ => true, 1, 256, fun _ => 1 / 3, 255 / 50, 255, fun _ => 0, fun _ => 1⟩ :
        TCannyData ℚ)
      0 (fun i => if i = 4 then 100 else 0) (fun i => if i = 4 then 1 else 0)
      ⟨fun _ => 0, fun _ => 0, fun _ => 0, ⟨fun _ => 0, fun _ => (0, 0), -1⟩⟩
      (fun _ => 0) (fun _ => 0) 3 3 3 rfl (by norm_num) (by decide) (by decide)⟩

/-- Counterexample to C13 as stated: with `t_h = -1` and mode 0 on a 32-bit
float YUV clip the filter is created, and on a flat 8x8 chroma plane the
corner sample (0, 0) is the edge value 1/2, not the non-edge value -1/2. -/
theorem border_edge_at_negative_threshold :
    ∃ d, tcannyCreate (⟨Real.sqrt, fun y x => Complex.arg ⟨x, y⟩, Real.tan, Real.exp, Real.pi,
          340282346638528859811704183484516925440⟩ : FloatOps ℝ)
        ⟨⟨true, SampleType.stFloat, 32, 3, ColorFamily.cmYUV⟩,
          none, some (-1), none, none, some 0, none, none, none⟩ true = .ok d ∧
      ∃ out,
        tcannyPlaneF 64 (⟨Real.sqrt, fun y x => Complex.arg ⟨x, y⟩, Real.tan, Real.exp, Real.pi,
            340282346638528859811704183484516925440⟩ : FloatOps ℝ) d 1 (fun _ => 0)
          ⟨fun _ => 0, fun _ => 0, fun _ => 0, ⟨fun _ => 0, fun _ => (0, 0), -1⟩⟩
          (fun _ => 0) 8 8 8 = some out ∧
        d.lower 1 = -(1 / 2) ∧ out (0 + 0 * 8) = 1 / 2 := by
  have hv : ¬ createInvalid
      (⟨⟨true, SampleType.stFloat, 32, 3, ColorFamily.cmYUV⟩,
        none, some (-1), none, none, some 0, none, none, none⟩ : TCannyArgs ℝ) := by
    unfold createInvalid
    simp only [Option.getD_none, Option.getD_some, List.not_mem_nil, false_and, exists_false,
      List.nodup_nil, not_true_eq_false, or_false, not_or, not_le, not_lt]
    refine ⟨by norm_num, by omega, by omega, by omega, by norm_num, ?_, ?_, ?_⟩ <;> simp
  obtain ⟨d, hd, -, -, -, hmode, -, -, -, -, -, hproc, -, hflt⟩ := tcannyCreate_accept _ _ hv
  obtain ⟨hth, -, -, hrange⟩ := hflt (by decide)
  have hmode0 : d.mode = 0 := hmode
  have hp : d.process 1 = true := by rw [hproc]; simp [propNumElements]
  obtain ⟨hlo, hup⟩ := hrange 1 (by decide) (by decide) hp
  have hlo1 : d.lower 1 = -(1 / 2) := by rw [hlo]; simp
  have hup1 : d.upper 1 = 1 / 2 := by rw [hup]; simp
  have hth0 : (0 : ℝ) ≥ d.t_h := by rw [hth]; norm_num
  obtain ⟨b', out, h1, h2, h3⟩ := tcannyPlaneF_border 64
    (⟨Real.sqrt, fun y x => Complex.arg ⟨x, y⟩, Real.tan, Real.exp, Real.pi,
      340282346638528859811704183484516925440⟩ : FloatOps ℝ) d 1 (fun _ => 0)
    ⟨fun _ => 0, fun _ => 0, fun _ => 0, ⟨fun _ => 0, fun _ => (0, 0), -1⟩⟩
    (fun _ => 0) 8 8 8 hmode0 (by decide) (by decide)
  obtain ⟨-, q2⟩ := h3 0 0 (by decide) (by decide) (by decide) (by decide) (by decide)
  refine ⟨d, hd, out, h2, hlo1, ?_⟩
  rw [q2, if_pos hth0, hup1]

section RangeProof
variable {α : Type} [LinearOrderedField α] [FloorRing α]

end RangeProof

section OutputProof
variable {α : Type} [LinearOrderedField α] [FloorRing α]

end OutputProof

/-- A checked loop follows the loop it checks: if every checked step from a
state that satisfies `P` returns the state of the plain step, so does the loop. -/
theorem forLoop_trackC {σ : Type} (P : Int → σ → Nat → Prop) (lo hi : Int)
    (body : Int → σ → σ) (bodyC : Int → σ × Nat → Option (σ × Nat)) (s : σ) (n : Nat)
    (h0 : P lo s n)
    (hstep : ∀ i t m, lo ≤ i → i < hi → P i t m →
      ∃ m', bodyC i (t, m) = some (body i t, m') ∧ P (i + 1) (body i t) m') :
    ∃ n', forLoopM lo hi bodyC (s, n) = some (forLoop lo hi body s, n') ∧
      P (max lo hi) (forLoop lo hi body s) n' := by
  rcases lt_or_le hi lo with hlt | hle
  · rw [forLoopM_empty lo hi bodyC (s, n) (by omega), forLoop_empty lo hi body s (by omega),
      max_eq_left (by omega)]
    exact ⟨n, rfl, h0⟩
  rw [max_eq_right hle]
  unfold forLoopM forLoop
  have key : ∀ k : Nat, lo + (k : Int) ≤ hi →
      ∃ n', (List.range k).foldlM (fun acc (j : Nat) => bodyC (lo + (j : Int)) acc) (s, n) =
          some ((List.range k).foldl (fun acc (j : Nat) => body (lo + (j : Int)) acc) s, n') ∧
        P (lo + (k : Int))
          ((List.range k).foldl (fun acc (j : Nat) => body (lo + (j : Int)) acc) s) n' := by
    intro k
    induction k with
    | zero => intro _; exact ⟨n, by simp, by simpa using h0⟩
    | succ k ih =>
      intro hk
      have hk' : lo + (k : Int) ≤ hi := by push_cast at hk; omega
      obtain ⟨m, hm, hP⟩ := ih hk'
      obtain ⟨m', hm', hP'⟩ := hstep (lo + (k : Int)) _ m (by omega)
        (by push_cast at hk; omega) hP
      refine ⟨m', ?_, ?_⟩
      · rw [List.range_succ, List.foldlM_append, hm, List.foldl_append]
        simp [hm']
      · rw [List.range_succ, List.foldl_append]
        simp only [List.foldl_cons, List.foldl_nil]
        have e : lo + ((k + 1 : Nat) : Int) = lo + (k : Int) + 1 := by push_cast; ring
        rw [e]; exact hP'
  have := key (hi - lo).toNat (by omega)
  have e : lo + ((hi - lo).toNat : Int) = hi := by omega
  rw [e] at this; exact this

/-- The form of `forLoop_trackC` for a body that may fail to return. -/
theorem forLoopM_trackC {σ : Type} (P : Int → σ → Nat → Prop) (lo hi : Int)
    (body : Int → σ → Option σ) (bodyC : Int → σ × Nat → Option (σ × Nat)) (s : σ) (n : Nat)
    (h0 : P lo s n)
    (hstep : ∀ i t m, lo ≤ i → i < hi → P i t m →
      ∃ t' m', body i t = some t' ∧ bodyC i (t, m) = some (t', m') ∧ P (i + 1) t' m') :
    ∃ t n', forLoopM lo hi body s = some t ∧ forLoopM lo hi bodyC (s, n) = some (t, n') ∧
      P (max lo hi) t n' := by
  rcases lt_or_le hi lo with hlt | hle
  · rw [forLoopM_empty lo hi bodyC (s, n) (by omega), forLoopM_empty lo hi body s (by omega),
      max_eq_left (by omega)]
    exact ⟨s, n, rfl, rfl, h0⟩
  rw [max_eq_right hle]
  unfold forLoopM
  have key : ∀ k : Nat, lo + (k : Int) ≤ hi →
      ∃ t n', (List.range k).foldlM (fun acc (j : Nat) => body (lo + (j : Int)) acc) s =
          some t ∧
        (List.range k).foldlM (fun acc (j : Nat) => bodyC (lo + (j : Int)) acc) (s, n) =
          some (t, n') ∧
        P (lo + (k : Int)) t n' := by
    intro k
    induction k with
    | zero => intro _; exact ⟨s, n, by simp, by simp, by simpa using h0⟩
    | succ k ih =>
      intro hk
      have hk' : lo + (k : Int) ≤ hi := by push_cast at hk; omega
      obtain ⟨t, m, ht, hm, hP⟩ := ih hk'
      obtain ⟨t', m', ht', hm', hP'⟩ := hstep (lo + (k : Int)) t m (by omega)
        (by push_cast at hk; omega) hP
      refine ⟨t', m', ?_, ?_, ?_⟩
      · rw [List.range_succ, List.foldlM_append, ht]
        simp [ht']
      · rw [List.range_succ, List.foldlM_append, hm]
        simp [hm']
      · have e : lo + ((k + 1 : Nat) : Int) = lo + (k : Int) + 1 := by push_cast; ring
        rw [e]; exact hP'
  have := key (hi - lo).toNat (by omega)
  have e : lo + ((hi - lo).toNat : Int) = hi := by omega
  rw [e] at this; exact this

section StackProof
variable {α : Type} [LinearOrder α] {width height stride cap : Int} {t_h t_l fltMax : α}

/-- A checked push of an unmarked interior pixel is inside the array. -/
theorem hystMarkC_ok (hcap : width * height ≤ cap) {st : HystState α} {m : Nat}
    (h : StackInv width height st m) (xx yy : Int) (hq : interior width height xx yy)
    (hm0 : st.stack.map (xx + yy * width) = 0) :
    hystMarkC cap width stride fltMax yy xx (st, m) =
        some (hystMark width stride fltMax yy xx st, m + 1) ∧
      StackInv width height (hystMark width stride fltMax yy xx st) (m + 1) ∧
      (hystMark width stride fltMax yy xx st).stack.index = st.stack.index + 1 := by
  obtain ⟨hq0, hq1, hq2, hq3⟩ : 0 ≤ xx ∧ xx < width ∧ 0 ≤ yy ∧ yy < height := by
    unfold interior at hq; omega
  obtain ⟨b0, b1⟩ := idx_bound width height xx yy hq0 hq1 hq2 hq3
  have hU : UINT8_MAX ≠ 0 := by decide
  have hun := unmarked_update width height st.stack.map (xx + yy * width) UINT8_MAX b0 b1 hm0 hU
  have hcnt := h.cnt
  have hdepth := h.depth
  have hidx := h.idx
  have hN : ((width * height).toNat : Int) = width * height := Int.toNat_of_nonneg (by omega)
  have hmN : (m : Int) + 1 ≤ width * height := by
    rw [← hN]
    have : m + 1 ≤ (width * height).toNat := by omega
    exact_mod_cast this
  refine ⟨?_, ⟨?_, ?_, ?_, ?_⟩, ?_⟩
  · unfold hystMarkC
    rw [if_pos ⟨by show 0 ≤ st.stack.index + 1; omega,
      by show st.stack.index + 1 < cap; omega⟩]
  · show -1 ≤ st.stack.index + 1
    omega
  · intro k hk0 hk1
    simp only [hystMark, push] at hk1 ⊢
    by_cases e : k = st.stack.index + 1
    · subst e
      rw [Function.update_same]
      exact hq
    · rw [Function.update_noteq e]
      exact h.stk k hk0 (by omega)
  · show m + 1 + unmarked width height
      (Function.update st.stack.map (xx + yy * width) UINT8_MAX) = (width * height).toNat
    omega
  · show st.stack.index + 1 + 1 ≤ ((m + 1 : Nat) : Int)
    push_cast
    omega
  · rfl

/-- A checked visit of an interior pixel returns what the plain visit returns
and keeps the difference of pushes and stack index. -/
theorem hystVisitC_ok (hcap : width * height ≤ cap) {st : HystState α} {m : Nat}
    (h : StackInv width height st m) (xx yy : Int) (hq : interior width height xx yy) :
    ∃ m', hystVisitC cap width stride fltMax t_l yy xx (st, m) =
        some (hystVisit width stride fltMax t_l yy xx st, m') ∧
      StackInv width height (hystVisit width stride fltMax t_l yy xx st) m' ∧
      (m' : Int) - (hystVisit width stride fltMax t_l yy xx st).stack.index =
        (m : Int) - st.stack.index := by
  unfold hystVisitC hystVisit
  by_cases hc : t_l < st.srcp (xx + yy * stride) ∧ st.stack.map (xx + yy * width) = 0
  · rw [if_pos hc, if_pos hc]
    obtain ⟨e1, e2, e3⟩ := @hystMarkC_ok α _ width height stride cap fltMax hcap st m h
      xx yy hq hc.2
    refine ⟨m + 1, e1, e2, ?_⟩
    rw [e3]; push_cast; ring
  · rw [if_neg hc, if_neg hc]
    exact ⟨m, rfl, h, rfl⟩

/-- A checked iteration of the `while` loop on a stack that is not empty
returns what the plain iteration returns; the stack index drops by one
relative to the pushes. -/
theorem hystBodyC_ok (hcap : width * height ≤ cap) {st : HystState α} {m : Nat}
    (h : StackInv width height st m) (hidx : -1 < st.stack.index) :
    ∃ m', hystBodyC cap width height stride fltMax t_l (st, m) =
        some (hystBody width height stride fltMax t_l st, m') ∧
      StackInv width height (hystBody width height stride fltMax t_l st) m' ∧
      (m' : Int) - (hystBody width height stride fltMax t_l st).stack.index =
        (m : Int) - st.stack.index + 1 := by
  have hp := h.stk st.stack.index (by omega) (le_refl _)
  have hpi := hp
  unfold interior at hpi
  have hcnt := h.cnt
  have hdepth := h.depth
  have hmN : (m : Int) ≤ width * height := by
    have h1 : m ≤ (width * height).toNat := by omega
    have h2 : 0 < (width * height).toNat := by omega
    have h3 : ((width * height).toNat : Int) = width * height :=
      Int.toNat_of_nonneg (by omega)
    rw [← h3]; exact_mod_cast h1
  have h1 : StackInv width height { st with stack := (pop st.stack).2 } m := by
    refine ⟨?_, ?_, hcnt, ?_⟩
    · show -1 ≤ st.stack.index - 1
      omega
    · intro k hk0 hk1
      simp only [pop] at hk1 ⊢
      exact h.stk k hk0 (by omega)
    · show st.stack.index - 1 + 1 ≤ (m : Int)
      omega
  unfold hystBodyC hystBody
  rw [if_pos ⟨by show 0 ≤ st.stack.index; omega, by show st.stack.index < cap; omega⟩]
  dsimp only
  have hpop : (pop st.stack).1 = st.stack.pos st.stack.index := rfl
  have hxlo : 1 ≤ (if (pop st.stack).1.1 > 1 then (pop st.stack).1.1 - 1 else 1) := by
    split_ifs <;> omega
  have hxhi : (if (pop st.stack).1.1 < width - 2 then (pop st.stack).1.1 + 1
      else (pop st.stack).1.1) ≤ width - 2 := by
    rw [hpop]
    split_ifs <;> omega
  have hylo : 1 ≤ (if (pop st.stack).1.2 > 1 then (pop st.stack).1.2 - 1 else 1) := by
    split_ifs <;> omega
  have hyhi : (if (pop st.stack).1.2 < height - 2 then (pop st.stack).1.2 + 1
      else (pop st.stack).1.2) ≤ height - 2 := by
    rw [hpop]
    split_ifs <;> omega
  generalize (if (pop st.stack).1.1 > 1 then (pop st.stack).1.1 - 1 else 1) = xMin at hxlo ⊢
  generalize (if (pop st.stack).1.1 < width - 2 then (pop st.stack).1.1 + 1
      else (pop st.stack).1.1) = xMax at hxhi ⊢
  generalize (if (pop st.stack).1.2 > 1 then (pop st.stack).1.2 - 1 else 1) = yMin at hylo ⊢
  generalize (if (pop st.stack).1.2 < height - 2 then (pop st.stack).1.2 + 1
      else (pop st.stack).1.2) = yMax at hyhi ⊢
  obtain ⟨m', e1, e2, e3⟩ := forLoop_trackC
    (fun _ (t : HystState α) (k : Nat) => StackInv width height t k ∧
      (k : Int) - t.stack.index = (m : Int) - st.stack.index + 1)
    yMin (yMax + 1)
    (fun yy s => forLoop xMin (xMax + 1)
      (fun xx s => hystVisit width stride fltMax t_l yy xx s) s)
    (fun yy s => forLoopM xMin (xMax + 1)
      (fun xx s => hystVisitC cap width stride fltMax t_l yy xx s) s)
    { st with stack := (pop st.stack).2 } m
    ⟨h1, by show (m : Int) - (st.stack.index - 1) = _; ring⟩
    (fun yy t k hy0 hy1 hP => by
      obtain ⟨k', f1, f2, f3⟩ := forLoop_trackC
        (fun _ (t : HystState α) (k : Nat) => StackInv width height t k ∧
          (k : Int) - t.stack.index = (m : Int) - st.stack.index + 1)
        xMin (xMax + 1)
        (fun xx s => hystVisit width stride fltMax t_l yy xx s)
        (fun xx s => hystVisitC cap width stride fltMax t_l yy xx s)
        t k hP
        (fun xx t2 k2 hx0 hx1 hP2 => by
          obtain ⟨k3, g1, g2, g3⟩ := @hystVisitC_ok α _ width height stride cap t_l fltMax
            hcap t2 k2 hP2.1 xx yy (by unfold interior; omega)
          exact ⟨k3, g1, g2, by rw [g3]; exact hP2.2⟩)
      exact ⟨k', f1, f2, f3⟩)
  exact ⟨m', e1, e2, e3⟩

/-- With fuel for the stack entries and the unmarked cells, the checked `while`
loop returns what the plain loop returns, with the stack empty. -/
theorem hystWhileC_ok (hcap : width * height ≤ cap) (fuel : Nat) :
    ∀ (st : HystState α) (m : Nat), StackInv width height st m →
      st.stack.index + 1 + ((width * height).toNat : Int) - (m : Int) ≤ (fuel : Int) →
      ∃ out m', hystWhile width height stride fltMax t_l fuel st = some out ∧
        hystWhileC cap width height stride fltMax t_l fuel (st, m) = some (out, m') ∧
        StackInv width height out m' ∧ out.stack.index = -1 := by
  induction fuel with
  | zero =>
    intro st m h hm
    have hi := h.idx
    have hd := h.depth
    have hc := h.cnt
    have hmN : (m : Int) ≤ ((width * height).toNat : Int) := by
      have : m ≤ (width * height).toNat := by omega
      exact_mod_cast this
    have : st.stack.index = -1 := by
      simp only [Nat.cast_zero] at hm; omega
    refine ⟨st, m, ?_, ?_, h, this⟩
    · simp [hystWhile, this]
    · simp [hystWhileC, this]
  | succ n ih =>
    intro st m h hm
    have hi := h.idx
    by_cases hidx : st.stack.index > -1
    · obtain ⟨m1, e1, e2, e3⟩ := @hystBodyC_ok α _ width height stride cap t_l fltMax hcap
        st m h hidx
      obtain ⟨out, m', f1, f2, f3, f4⟩ := ih _ m1 e2 (by push_cast at hm; omega)
      refine ⟨out, m', ?_, ?_, f3, f4⟩
      · rw [hystWhile, if_pos hidx]; exact f1
      · rw [hystWhileC, if_pos (by exact hidx), e1]; exact f2
    · refine ⟨st, m, ?_, ?_, h, by omega⟩
      · rw [hystWhile, if_neg hidx]
      · rw [hystWhileC, if_neg (by exact hidx)]

/-- A checked seed step on an empty stack returns what the plain step returns,
with the stack empty again. -/
theorem hystSeedC_ok (hcap : width * height ≤ cap) (fuel : Nat)
    (hfuel : (width * height).toNat ≤ fuel) {st : HystState α} {m : Nat} (y x : Int)
    (hq : interior width height x y) (h : StackInv width height st m)
    (hi : st.stack.index = -1) :
    ∃ out m', hystSeed fuel width height stride t_h t_l fltMax y x st = some out ∧
      hystSeedC cap fuel width height stride t_h t_l fltMax y x (st, m) = some (out, m') ∧
      StackInv width height out m' ∧ out.stack.index = -1 := by
  unfold hystSeed hystSeedC
  dsimp only
  rw [if_neg (not_not.mpr hi : ¬ st.stack.index ≠ -1)]
  by_cases hc : st.srcp (x + y * stride) < t_h ∨ st.stack.map (x + y * width) ≠ 0
  · rw [if_pos hc, if_pos hc]
    exact ⟨st, m, rfl, rfl, h, hi⟩
  · rw [if_neg hc, if_neg hc]
    have hm0 : st.stack.map (x + y * width) = 0 := by
      by_contra hne
      exact hc (Or.inr hne)
    obtain ⟨e1, e2, e3⟩ := @hystMarkC_ok α _ width height stride cap fltMax hcap st m h
      x y hq hm0
    obtain ⟨out, m', f1, f2, f3, f4⟩ := @hystWhileC_ok α _ width height stride cap t_l fltMax
      hcap fuel _ (m + 1) e2 (by
        rw [e3, hi]
        push_cast
        have : ((width * height).toNat : Int) ≤ (fuel : Int) := by exact_mod_cast hfuel
        omega)
    refine ⟨out, m', f1, ?_, f3, f4⟩
    rw [e1]
    exact f2

/-- The checked run of `hystersis` returns what the plain run returns: every
push and pop stays inside an array of `cap ≥ width * height` pairs, the stack
is empty at every seed pixel and at the end, and the pushes and the unmarked
cells add up to `width * height`. -/
theorem hystersisC_ok (hcap : width * height ≤ cap) (fuel : Nat)
    (hfuel : (width * height).toNat ≤ fuel) (srcp : Int → α) (stack : Stack) :
    ∃ out m, hystersis fuel srcp stack width height stride t_h t_l fltMax = some out ∧
      hystersisC cap fuel srcp stack width height stride t_h t_l fltMax = some (out, m) ∧
      StackInv width height out m ∧ out.stack.index = -1 := by
  have h0 : StackInv width height
      ({ srcp := srcp
         stack := { stack with
           map := fun i => if 0 ≤ i ∧ i < width * height then 0 else stack.map i
           index := -1 } } : HystState α) 0 := by
    refine ⟨le_refl _, ?_, ?_, ?_⟩
    · intro k hk0 hk1
      exact absurd hk1 (by show ¬ k ≤ -1; omega)
    · show 0 + unmarked width height
        (fun i => if 0 ≤ i ∧ i < width * height then 0 else stack.map i) = _
      unfold unmarked
      rw [Finset.filter_true_of_mem]
      · simp
      · intro i hi
        rw [Finset.mem_Ico] at hi
        simp [hi.1, hi.2]
    · show (-1 : Int) + 1 ≤ ((0 : Nat) : Int)
      simp
  unfold hystersis hystersisC
  obtain ⟨out, m, e1, e2, e3⟩ := forLoopM_trackC
    (fun _ (t : HystState α) (k : Nat) => StackInv width height t k ∧ t.stack.index = -1)
    1 (height - 1)
    (fun y s => forLoopM 1 (width - 1)
      (fun x s => hystSeed fuel width height stride t_h t_l fltMax y x s) s)
    (fun y s => forLoopM 1 (width - 1)
      (fun x s => hystSeedC cap fuel width height stride t_h t_l fltMax y x s) s)
    _ 0 ⟨h0, rfl⟩
    (fun y t k hy0 hy1 hP => by
      obtain ⟨t', k', f1, f2, f3⟩ := forLoopM_trackC
        (fun _ (t : HystState α) (k : Nat) => StackInv width height t k ∧ t.stack.index = -1)
        1 (width - 1)
        (fun x s => hystSeed fuel width height stride t_h t_l fltMax y x s)
        (fun x s => hystSeedC cap fuel width height stride t_h t_l fltMax y x s)
        t k hP
        (fun x t2 k2 hx0 hx1 hP2 => by
          obtain ⟨o, k3, g1, g2, g3, g4⟩ := @hystSeedC_ok α _ width height stride cap t_h t_l
            fltMax hcap fuel hfuel t2 k2 y x (by unfold interior; omega) hP2.1 hP2.2
          exact ⟨o, k3, g1, g2, g3, g4⟩)
      exact ⟨t', k', f1, f2, f3⟩)
  exact ⟨out, m, e1, e2, e3.1, e3.2⟩

end StackProof

/-- C19: for every buffer, stack, thresholds and dimensions, with an array of
`cap ≥ width * height` pairs and enough fuel for the `while` loop, `hystersis`
returns, and the run with every stack access checked returns the same state:
no push writes and no pop reads outside `[0, cap)`, no pop is executed on an
empty stack, the stack is empty each time a seed pixel is examined and when
the function returns; the pushes and the cells still unmarked add up to
`width * height` (each push marks a cell that was unmarked), so there are at
most `width * height` pushes. -/
theorem hystersis_stack_bounded {α : Type} [LinearOrder α] (srcp : Int → α) (stack : Stack)
    (width height stride cap : Int) (t_h t_l fltMax : α) (fuel : Nat)
    (hcap : width * height ≤ cap) (hfuel : (width * height).toNat ≤ fuel) :
    ∃ out pushes, hystersis fuel srcp stack width height stride t_h t_l fltMax = some out ∧
      hystersisC cap fuel srcp stack width height stride t_h t_l fltMax = some (out, pushes) ∧
      out.stack.index = -1 ∧
      pushes + unmarked width height out.stack.map = (width * height).toNat ∧
      pushes ≤ (width * height).toNat := by
  obtain ⟨out, m, h1, h2, h3, h4⟩ := @hystersisC_ok α _ width height stride cap t_h t_l fltMax
    hcap fuel hfuel srcp stack
  exact ⟨out, m, h1, h2, h4, h3.cnt, by have := h3.cnt; omega⟩

/-- The C19 theorem on a 4x3 plane with two bright interior pixels. -/
theorem hystersis_stack_bounded_witness :
    (4 : Int) * 3 ≤ 12 ∧ ((4 : Int) * 3).toNat ≤ 12 ∧
    ∃ out pushes,
      hystersis 12 (fun i : Int => if i = 5 ∨ i = 6 then (10 : Int) else 0)
        ⟨fun _ => 7, fun _ => (0, 0), 5⟩ 4 3 4 8 1 1000 = some out ∧
      hystersisC 12 12 (fun i : Int => if i = 5 ∨ i = 6 then (10 : Int) else 0)
        ⟨fun _ => 7, fun _ => (0, 0), 5⟩ 4 3 4 8 1 1000 = some (out, pushes) ∧
      out.stack.index = -1 ∧
      pushes + unmarked 4 3 out.stack.map = ((4 : Int) * 3).toNat ∧
      pushes ≤ ((4 : Int) * 3).toNat :=
  ⟨by decide, by decide,
    hystersis_stack_bounded (fun i : Int => if i = 5 ∨ i = 6 then (10 : Int) else 0)
      ⟨fun _ => 7, fun _ => (0, 0), 5⟩ 4 3 4 12 8 1 1000 12 (by decide) (by decide)⟩

section SkippedStages
variable {α : Type} [LinearOrderedField α] [FloorRing α]

/-- When `mode & 1` is set `gmDirImages` returns before the suppression
loops: its result does not depend on `nms`. -/
theorem gmDirImages_odd_nms (ops : FloatOps α) (srcp gimg dimg : Int → α)
    (width height stride nms nms' mode op : Int) (hm : and1 mode ≠ 0) :
    gmDirImages ops srcp gimg dimg width height stride nms mode op =
      gmDirImages ops srcp gimg dimg width height stride nms' mode op := by
  unfold gmDirImages
  simp only [if_pos hm]

/-- In modes -1, 1 and 3 the buffers the stages leave do not depend on `t_h`,
`t_l`, `nms` or the fuel. -/
theorem tcannyStages_odd_indep (fuel fuel' : Nat) (ops : FloatOps α) (d : TCannyData α)
    (t_h' t_l' : α) (nms' : Int) (srcp : Int → α) (b : Buffers α)
    (width height stride : Int) (offset : α) (hm : and1 d.mode ≠ 0) :
    tcannyStages fuel' ops { d with t_h := t_h', t_l := t_l', nms := nms' } srcp b
        width height stride offset =
      tcannyStages fuel ops d srcp b width height stride offset := by
  have hg : tcannyGradient ops { d with t_h := t_h', t_l := t_l', nms := nms' } srcp b
      width height stride offset = tcannyGradient ops d srcp b width height stride offset := by
    unfold tcannyGradient
    by_cases h1 : d.mode = -1
    · have h1' : ({ d with t_h := t_h', t_l := t_l', nms := nms' } : TCannyData α).mode = -1 := h1
      rw [if_neg (not_not.mpr h1), if_neg (not_not.mpr h1')]
      rfl
    · have h1' : ({ d with t_h := t_h', t_l := t_l', nms := nms' } : TCannyData α).mode ≠ -1 :=
        h1
      rw [if_pos h1, if_pos h1']
      exact gmDirImages_odd_nms ops _ _ _ width height stride nms' d.nms d.mode d.op hm
  rw [tcannyStages_odd fuel' ops _ srcp b width height stride offset (by exact hm),
    tcannyStages_odd fuel ops d srcp b width height stride offset hm, hg]

/-- In modes -1, 1 and 3 the output routine reads neither `t_h`, `t_l` nor `nms`. -/
theorem tcannyOutput_odd_indep (ops : FloatOps α) (d : TCannyData α)
    (t_h' t_l' : α) (nms' : Int) (b : Buffers α) (dstp : Int → Int)
    (width height stride : Int) (hm : d.mode = -1 ∨ d.mode = 1 ∨ d.mode = 3) :
    tcannyOutput ops { d with t_h := t_h', t_l := t_l', nms := nms' } b dstp
        width height stride =
      tcannyOutput ops d b dstp width height stride := by
  unfold tcannyOutput
  rcases hm with h | h | h
  · simp only [h, if_true]
  · simp only [h]
    rfl
  · simp only [h]
    rfl

/-- The float form of `tcannyOutput_odd_indep`. -/
theorem tcannyOutputF_odd_indep (ops : FloatOps α) (d : TCannyData α) (plane : Int)
    (t_h' t_l' : α) (nms' : Int) (b : Buffers α) (dstp : Int → α)
    (width height stride : Int) (offset : α) (hm : d.mode = -1 ∨ d.mode = 1 ∨ d.mode = 3) :
    tcannyOutputF ops { d with t_h := t_h', t_l := t_l', nms := nms' } plane b dstp
        width height stride offset =
      tcannyOutputF ops d plane b dstp width height stride offset := by
  unfold tcannyOutputF
  rcases hm with h | h | h
  · simp only [h, if_true]
  · simp only [h]
    rfl
  · simp only [h]
    rfl

end SkippedStages

/-- C22: for a configuration with mode -1, 1 or 3, every source plane, set of
buffers and fuel, the per-plane pipeline returns a destination plane, and the
run with `t_h`, `t_l` and `nms` replaced by any other values (and any other
fuel) returns the same destination plane, for integer and for float samples. -/
theorem skipped_stages_ignore_thresholds {α : Type} [LinearOrderedField α] [FloorRing α]
    (fuel fuel' : Nat) (ops : FloatOps α) (d : TCannyData α) (t_h' t_l' : α) (nms' : Int)
    (plane : Int) (srcp : Int → Int) (srcpF : Int → α) (b : Buffers α)
    (dstp : Int → Int) (dstpF : Int → α) (width height stride : Int)
    (hmode : d.mode = -1 ∨ d.mode = 1 ∨ d.mode = 3) :
    (∃ out, tcannyPlane fuel ops d plane srcp b dstp width height stride = some out ∧
      tcannyPlane fuel' ops { d with t_h := t_h', t_l := t_l', nms := nms' } plane srcp b dstp
        width height stride = some out) ∧
    (∃ out, tcannyPlaneF fuel ops d plane srcpF b dstpF width height stride = some out ∧
      tcannyPlaneF fuel' ops { d with t_h := t_h', t_l := t_l', nms := nms' } plane srcpF b
        dstpF width height stride = some out) := by
  have hm : and1 d.mode ≠ 0 := by
    rcases hmode with h | h | h <;> rw [h] <;> decide
  constructor
  · have hst := tcannyStages_odd fuel ops d (fun i => ((srcp i : Int) : α)) b
      width height stride (planeOffset d.vi plane) hm
    refine ⟨_, tcannyPlane_of_stages fuel ops d plane srcp b _ dstp width height stride hst, ?_⟩
    have hst' : tcannyStages fuel' ops { d with t_h := t_h', t_l := t_l', nms := nms' }
        (fun i => ((srcp i : Int) : α)) b width height stride
        (planeOffset ({ d with t_h := t_h', t_l := t_l', nms := nms' } : TCannyData α).vi
          plane) = _ :=
      (tcannyStages_odd_indep fuel fuel' ops d t_h' t_l' nms' _ b width height stride
        (planeOffset d.vi plane) hm).trans hst
    rw [tcannyPlane_of_stages fuel' ops _ plane srcp b _ dstp width height stride hst',
      tcannyOutput_odd_indep ops d t_h' t_l' nms' _ dstp width height stride hmode]
  · have hst := tcannyStages_odd fuel ops d srcpF b
      width height stride (planeOffset d.vi plane) hm
    refine ⟨_, tcannyPlaneF_of_stages fuel ops d plane srcpF b _ dstpF width height stride hst,
      ?_⟩
    have hst' : tcannyStages fuel' ops { d with t_h := t_h', t_l := t_l', nms := nms' }
        srcpF b width height stride
        (planeOffset ({ d with t_h := t_h', t_l := t_l', nms := nms' } : TCannyData α).vi
          plane) = _ :=
      (tcannyStages_odd_indep fuel fuel' ops d t_h' t_l' nms' _ b width height stride
        (planeOffset d.vi plane) hm).trans hst
    rw [tcannyPlaneF_of_stages fuel' ops _ plane srcpF b _ dstpF width height stride hst']
    exact congrArg some (tcannyOutputF_odd_indep ops d plane t_h' t_l' nms' _ dstpF
      width height stride _ hmode)

/-- The C22 theorem in mode 1 on a 4x4 plane with a three-tap box kernel over
the rationals: thresholds 8 and 1 with `nms = 3` against thresholds 100 and 50
with `nms = 0`. -/
theorem skipped_stages_ignore_thresholds_witness :
    ((1 : Int) = -1 ∨ (1 : Int) = 1 ∨ (1 : Int) = 3) ∧
    ∃ out,
      tcannyPlane 0 (⟨fun x => x, fun _ _ => 0, fun x => x, fun _ => 1, 3, 1000⟩ : FloatOps ℚ)
        (⟨⟨true, SampleType.stInteger, 8, 1, ColorFamily.cmGray⟩, 1 / 3, 8, 1, 50, 3, 1, 1,
          fun _ => true, 1, 256, fun _ => 1 / 3, 255 / 50, 255, fun _ => 0, fun _ => 0⟩ :
          TCannyData ℚ)
        0 (fun i => i % 256)
        ⟨fun _ => 0, fun _ => 0, fun _ => 0, ⟨fun _ => 0, fun _ => (0, 0), -1⟩⟩
        (fun _ => 0) 4 4 4 = some out ∧
      tcannyPlane 16 (⟨fun x => x, fun _ _ => 0, fun x => x, fun _ => 1, 3, 1000⟩ : FloatOps ℚ)
        (⟨⟨true, SampleType.stInteger, 8, 1, ColorFamily.cmGray⟩, 1 / 3, 100, 50, 50, 0, 1, 1,
          fun _ => true, 1, 256, fun _ => 1 / 3, 255 / 50, 255, fun _ => 0, fun _ => 0⟩ :
          TCannyData ℚ)
        0 (fun i => i % 256)
        ⟨fun _ => 0, fun _ => 0, fun _ => 0, ⟨fun _ => 0, fun _ => (0, 0), -1⟩⟩
        (fun _ => 0) 4 4 4 = some out :=
  ⟨by decide,
    (skipped_stages_ignore_thresholds 0 16
      (⟨fun x => x, fun _ _ => 0, fun x => x, fun _ => 1, 3, 1000⟩ : FloatOps ℚ)
      (⟨⟨true, SampleType.stInteger, 8, 1, ColorFamily.cmGray⟩, 1 / 3, 8, 1, 50, 3, 1, 1,
        fun _ => true, 1, 256, fun _ => 1 / 3, 255 / 50, 255, fun _ => 0, fun _ => 0⟩ :
        TCannyData ℚ)
      100 50 0 0 (fun i => i % 256) (fun _ => 0)
      ⟨fun _ => 0, fun _ => 0, fun _ => 0, ⟨fun _ => 0, fun _ => (0, 0), -1⟩⟩
      (fun _ => 0) (fun _ => 0) 4 4 4 (by decide)).1⟩

/-! ## The fine variant interpolates -/

theorem roundEven_cases (x : ℚ) : roundEven x = ⌊x⌋ ∨ roundEven x = ⌊x⌋ + 1 := by
  unfold roundEven
  dsimp only
  split_ifs <;> simp

/-- A value strictly within 1/2 of the integer `m` rounds to `m`. -/
theorem roundEven_eval (x : ℚ) (m : Int) (h1 : (m : ℚ) - 1 / 2 < x) (h2 : x < (m : ℚ) + 1 / 2) :
    roundEven x = m := by
  unfold roundEven
  dsimp only
  by_cases hx : (m : ℚ) ≤ x
  · have hf : ⌊x⌋ = m := by
      rw [Int.floor_eq_iff]; constructor
      · exact hx
      · linarith
    rw [hf, if_pos (by linarith)]
  · have hx' : x < m := not_le.mp hx
    have hf : ⌊x⌋ = m - 1 := by
      rw [Int.floor_eq_iff]; push_cast; constructor <;> linarith
    rw [hf]
    push_cast
    rw [if_neg (by linarith), if_pos (by linarith)]
    ring

/-- A tie goes to the even neighbour. -/
theorem roundEven_tie (x : ℚ) (m : Int) (hx : x = (m : ℚ) + 1 / 2) :
    roundEven x = if m % 2 = 0 then m else m + 1 := by
  have hf : ⌊x⌋ = m := by
    rw [Int.floor_eq_iff]; constructor <;> linarith
  unfold roundEven
  dsimp only
  rw [hf, if_neg (by linarith), if_neg (by linarith)]

theorem roundEven_int (m : Int) : roundEven (m : ℚ) = m :=
  roundEven_eval _ m (by linarith) (by linarith)

theorem roundEven_mono {x y : ℚ} (h : x ≤ y) : roundEven x ≤ roundEven y := by
  have hfl : ⌊x⌋ ≤ ⌊y⌋ := Int.floor_le_floor h
  rcases lt_or_eq_of_le hfl with hlt | heq
  · rcases roundEven_cases x with hx | hx <;> rcases roundEven_cases y with hy | hy <;> omega
  · unfold roundEven
    dsimp only
    rw [← heq]
    have hr : x - (⌊x⌋ : ℚ) ≤ y - (⌊x⌋ : ℚ) := by linarith
    split_ifs <;> first | omega | linarith

theorem roundEven_le {x : ℚ} {n : Int} (h : x ≤ (n : ℚ)) : roundEven x ≤ n := by
  have := roundEven_mono h
  rwa [roundEven_int] at this

theorem le_roundEven {x : ℚ} {n : Int} (h : (n : ℚ) ≤ x) : n ≤ roundEven x := by
  have := roundEven_mono h
  rwa [roundEven_int] at this

/-- The binary32 value of `q` from its binade `[2^e, 2^(e+1))`, `e ≥ -126`. -/
theorem f32_eval (q : ℚ) (e m : Int) (he1 : (2 : ℚ) ^ e ≤ |q|) (he2 : |q| < (2 : ℚ) ^ (e + 1))
    (he3 : -126 ≤ e) (hm : roundEven (q / 2 ^ (e - 23)) = m) :
    f32 q = (m : ℚ) * 2 ^ (e - 23) := by
  have hpos : 0 < |q| := lt_of_lt_of_le (by positivity) he1
  have hlog : Int.log 2 |q| = e := by
    apply le_antisymm
    · have := (Int.lt_zpow_iff_log_lt (by norm_num : 1 < 2) hpos).mp
        (by exact_mod_cast he2 : |q| < ((2 : ℕ) : ℚ) ^ (e + 1))
      omega
    · exact (Int.zpow_le_iff_le_log (by norm_num : 1 < 2) hpos).mp (by exact_mod_cast he1)
  have hE : f32Exp q = e := by
    unfold f32Exp; rw [hlog]; exact max_eq_left he3
  unfold f32
  rw [hE, hm]

theorem f32_zero : f32 0 = 0 := by
  unfold f32
  have : roundEven (0 / 2 ^ (f32Exp 0 - 23)) = 0 := by
    rw [zero_div]; exact roundEven_int 0
  rw [this]; simp

/-- The binary32 value of `q` in the subnormal range. -/
theorem f32_eval_sub (q : ℚ) (m : Int) (hq : |q| < (2 : ℚ) ^ (-126 : Int))
    (hm : roundEven (q / 2 ^ (-149 : Int)) = m) : f32 q = (m : ℚ) * 2 ^ (-149 : Int) := by
  by_cases h0 : q = 0
  · subst h0
    rw [zero_div] at hm
    have : m = 0 := by rw [← hm]; exact roundEven_int 0
    rw [f32_zero, this]; simp
  have hE : f32Exp q = -126 := by
    unfold f32Exp
    apply max_eq_right
    have hpos : 0 < |q| := abs_pos.mpr h0
    have := (Int.lt_zpow_iff_log_lt (by norm_num : 1 < 2) hpos).mp
      (by exact_mod_cast hq : |q| < ((2 : ℕ) : ℚ) ^ (-126 : Int))
    omega
  unfold f32
  rw [hE]
  have : (-126 : Int) - 23 = -149 := by norm_num
  rw [this, hm]

theorem f32_nonneg {q : ℚ} (h : 0 ≤ q) : 0 ≤ f32 q := by
  unfold f32
  apply mul_nonneg
  · have : (0 : Int) ≤ roundEven (q / 2 ^ (f32Exp q - 23)) :=
      le_roundEven (by push_cast; positivity)
    exact_mod_cast this
  · positivity

/-- Rounding to binary32 keeps the order of values that are not negative. -/
theorem f32_mono {a b : ℚ} (ha : 0 ≤ a) (h : a ≤ b) : f32 a ≤ f32 b := by
  rcases eq_or_lt_of_le ha with h0 | hpos
  · rw [← h0, f32_zero]; exact f32_nonneg (by linarith)
  have hb : 0 < b := lt_of_lt_of_le hpos h
  have hla : Int.log 2 |a| ≤ Int.log 2 |b| := by
    rw [abs_of_pos hpos, abs_of_pos hb]
    exact Int.log_mono_right hpos h
  have hE : f32Exp a ≤ f32Exp b := max_le_max hla (le_refl _)
  rcases eq_or_lt_of_le hE with heq | hlt
  · unfold f32
    rw [← heq]
    have hu : (0 : ℚ) < 2 ^ (f32Exp a - 23) := by positivity
    apply mul_le_mul_of_nonneg_right _ hu.le
    have : roundEven (a / 2 ^ (f32Exp a - 23)) ≤ roundEven (b / 2 ^ (f32Exp a - 23)) :=
      roundEven_mono (div_le_div_of_nonneg_right h hu.le)
    exact_mod_cast this
  · -- different binades: `f32 a ≤ 2 ^ (f32Exp a + 1) ≤ 2 ^ f32Exp b ≤ f32 b`
    have hEb : f32Exp b = Int.log 2 |b| := by
      unfold f32Exp at hlt ⊢
      apply max_eq_left
      by_contra hc
      rw [max_eq_right (by omega : Int.log 2 |b| ≤ -126)] at hlt
      have : (-126 : Int) ≤ max (Int.log 2 |a|) (-126) := le_max_right _ _
      omega
    have hb2 : (2 : ℚ) ^ f32Exp b ≤ b := by
      rw [hEb, abs_of_pos hb]
      exact_mod_cast Int.zpow_log_le_self (by norm_num : 1 < 2) hb
    have ha2 : a < (2 : ℚ) ^ (f32Exp a + 1) := by
      have h1 : a < ((2 : ℕ) : ℚ) ^ (Int.log 2 a + 1) :=
        Int.lt_zpow_succ_log_self (by norm_num : 1 < 2) a
      have h2 : Int.log 2 a + 1 ≤ f32Exp a + 1 := by
        unfold f32Exp; rw [abs_of_pos hpos]
        have := le_max_left (Int.log 2 a) (-126)
        omega
      have h3 : ((2 : ℕ) : ℚ) ^ (Int.log 2 a + 1) ≤ (2 : ℚ) ^ (f32Exp a + 1) := by
        push_cast
        exact zpow_le_zpow_right₀ (by norm_num) h2
      exact lt_of_lt_of_le h1 h3
    have hfa : f32 a ≤ (2 : ℚ) ^ (f32Exp a + 1) := by
      unfold f32
      have hu : (0 : ℚ) < 2 ^ (f32Exp a - 23) := by positivity
      have e1 : (2 : ℚ) ^ (f32Exp a + 1) = ((2 ^ 24 : Int) : ℚ) * 2 ^ (f32Exp a - 23) := by
        have : f32Exp a + 1 = 24 + (f32Exp a - 23) := by ring
        rw [this, zpow_add₀ (by norm_num : (2 : ℚ) ≠ 0)]
        norm_num
      rw [e1]
      apply mul_le_mul_of_nonneg_right _ hu.le
      have : roundEven (a / 2 ^ (f32Exp a - 23)) ≤ (2 ^ 24 : Int) := by
        apply roundEven_le
        rw [div_le_iff₀ hu, ← e1]
        exact ha2.le
      exact_mod_cast this
    have hfb : (2 : ℚ) ^ f32Exp b ≤ f32 b := by
      unfold f32
      have hu : (0 : ℚ) < 2 ^ (f32Exp b - 23) := by positivity
      have e1 : (2 : ℚ) ^ f32Exp b = ((2 ^ 23 : Int) : ℚ) * 2 ^ (f32Exp b - 23) := by
        have : f32Exp b = 23 + (f32Exp b - 23) := by ring
        nth_rewrite 1 [this]
        rw [zpow_add₀ (by norm_num : (2 : ℚ) ≠ 0)]
        norm_num
      rw [e1]
      apply mul_le_mul_of_nonneg_right _ hu.le
      have : (2 ^ 23 : Int) ≤ roundEven (b / 2 ^ (f32Exp b - 23)) := by
        apply le_roundEven
        rw [le_div_iff₀ hu, ← e1]
        exact hb2
      exact_mod_cast this
    calc f32 a ≤ (2 : ℚ) ^ (f32Exp a + 1) := hfa
      _ ≤ (2 : ℚ) ^ f32Exp b := zpow_le_zpow_right₀ (by norm_num) (by omega)
      _ ≤ f32 b := hfb

theorem f32_nonpos {q : ℚ} (h : q ≤ 0) : f32 q ≤ 0 := by
  unfold f32
  apply mul_nonpos_of_nonpos_of_nonneg
  · have hu : (0 : ℚ) < 2 ^ (f32Exp q - 23) := by positivity
    have : roundEven (q / 2 ^ (f32Exp q - 23)) ≤ (0 : Int) :=
      roundEven_le (by push_cast; exact div_nonpos_of_nonpos_of_nonneg h hu.le)
    exact_mod_cast this
  · positivity

/-- A value `m * 2^k` with `|m| < 2^24` and `k ≥ -149` is a binary32 value:
rounding leaves it as it is. -/
theorem f32_exact (q : ℚ) (m k : Int) (hq : q = (m : ℚ) * 2 ^ k) (hm : |m| < 2 ^ 24)
    (hk : -149 ≤ k) : f32 q = q := by
  by_cases h0 : q = 0
  · rw [h0, f32_zero]
  have hpos : 0 < |q| := abs_pos.mpr h0
  have hmq : |(m : ℚ)| < 16777216 := by
    have : ((|m| : Int) : ℚ) < ((2 ^ 24 : Int) : ℚ) := by exact_mod_cast hm
    rw [Int.cast_abs] at this
    norm_num at this
    exact this
  have hlt : |q| < ((2 : ℕ) : ℚ) ^ (k + 24) := by
    rw [hq, abs_mul, abs_of_pos (by positivity : (0 : ℚ) < 2 ^ k)]
    have e : ((2 : ℕ) : ℚ) ^ (k + 24) = (16777216 : ℚ) * 2 ^ k := by
      push_cast
      rw [add_comm, zpow_add₀ (by norm_num : (2 : ℚ) ≠ 0)]
      norm_num
    rw [e]
    exact mul_lt_mul_of_pos_right hmq (by positivity)
  have hlog : Int.log 2 |q| < k + 24 := (Int.lt_zpow_iff_log_lt (by norm_num : 1 < 2) hpos).mp hlt
  have hE : f32Exp q - 23 ≤ k := by
    unfold f32Exp
    have : max (Int.log 2 |q|) (-126) ≤ k + 23 := max_le (by omega) (by omega)
    omega
  unfold f32
  generalize f32Exp q = E at hE ⊢
  obtain ⟨d, hd⟩ : ∃ d : Nat, k = E - 23 + (d : Int) := ⟨(k - (E - 23)).toNat, by omega⟩
  have hu : (2 : ℚ) ^ (E - 23) ≠ 0 := by positivity
  have hdiv : q / 2 ^ (E - 23) = ((m * 2 ^ d : Int) : ℚ) := by
    rw [hq, hd, zpow_add₀ (by norm_num : (2 : ℚ) ≠ 0)]
    push_cast
    field_simp
    ring
  rw [hdiv, roundEven_int, ← hdiv]
  field_simp

/-- The conversion to `int` of a float in `[0, 2^31)` is the floor. -/
theorem castInt32_of_nonneg (x : ℚ) (h0 : 0 ≤ x) (h1 : x < 2 ^ 31) : castInt32 x = ⌊x⌋ := by
  unfold castInt32
  rw [truncToInt_of_nonneg _ h0]
  have f0 : 0 ≤ ⌊x⌋ := Int.floor_nonneg.mpr h0
  have f1 : ⌊x⌋ < 2 ^ 31 := by
    rw [Int.floor_lt]; exact_mod_cast h1
  rw [if_pos ⟨by omega, f1⟩]

/-! ## The kernel radius in binary32 -/

theorem gaussianRad32_eq (sigma : ℚ) :
    gaussianRad32 sigma = max (castInt32 (f32 (f32 (sigma * 3) + 1 / 2))) 1 ∧
      gaussianDia32 sigma = 2 * gaussianRad32 sigma + 1 := by
  unfold gaussianRad32 gaussianDia32
  rw [Int.shiftRight_eq_div_pow]
  have : ((2 ^ 1 : Nat) : Int) = 2 := by norm_num
  rw [this]
  constructor <;> omega

/-- The value `3 sigma + 0.5` as the program computes it is not negative for
`sigma ≥ 0`, and grows with `sigma`. -/
theorem radiusArg32_mono {s1 s2 : ℚ} (h1 : 0 ≤ s1) (h12 : s1 ≤ s2) :
    0 ≤ f32 (f32 (s1 * 3) + 1 / 2) ∧
      f32 (f32 (s1 * 3) + 1 / 2) ≤ f32 (f32 (s2 * 3) + 1 / 2) := by
  have a1 : 0 ≤ f32 (s1 * 3) := f32_nonneg (by linarith)
  have a2 : f32 (s1 * 3) ≤ f32 (s2 * 3) := f32_mono (by linarith) (by linarith)
  exact ⟨f32_nonneg (by linarith), f32_mono (by linarith) (by linarith)⟩

/-- C8 (amended): for `0 < sigma1 ≤ sigma` with `3 sigma + 0.5`, as computed
in binary32, below `2^30`: the radius `gaussianWeights` stores is
`max (floor (fl (fl (3 sigma) + 0.5))) 1 ≥ 1`, where `fl` rounds to binary32;
the kernel length is `2 radius + 1`, odd; the radius at `sigma1` is at most
the radius at `sigma`; and when neither rounding changes the value the radius
is `max (floor (3 sigma + 1/2)) 1`. -/
theorem gaussianRad32_radius (sigma1 sigma : ℚ) (h : 0 < sigma1) (h12 : sigma1 ≤ sigma)
    (hr : f32 (f32 (sigma * 3) + 1 / 2) < 2 ^ 30) :
    gaussianRad32 sigma = max ⌊f32 (f32 (sigma * 3) + 1 / 2)⌋ 1 ∧
      1 ≤ gaussianRad32 sigma ∧
      gaussianDia32 sigma = 2 * gaussianRad32 sigma + 1 ∧
      gaussianDia32 sigma % 2 = 1 ∧
      gaussianRad32 sigma1 ≤ gaussianRad32 sigma ∧
      (f32 (sigma * 3) = sigma * 3 → f32 (sigma * 3 + 1 / 2) = sigma * 3 + 1 / 2 →
        gaussianRad32 sigma = max ⌊3 * sigma + 1 / 2⌋ 1) := by
  obtain ⟨e1, e2⟩ := gaussianRad32_eq sigma
  obtain ⟨f1, -⟩ := gaussianRad32_eq sigma1
  obtain ⟨n1, m1⟩ := radiusArg32_mono h.le h12
  obtain ⟨n2, -⟩ := radiusArg32_mono (le_trans h.le h12) (le_refl sigma)
  have c2 := castInt32_of_nonneg _ n2 (by linarith)
  have c1 := castInt32_of_nonneg _ n1 (by linarith)
  have hrad : gaussianRad32 sigma = max ⌊f32 (f32 (sigma * 3) + 1 / 2)⌋ 1 := by rw [e1, c2]
  refine ⟨hrad, by rw [hrad]; exact le_max_right _ _, e2, by rw [e2]; omega, ?_, ?_⟩
  · rw [f1, c1, hrad]
    exact max_le_max (Int.floor_le_floor m1) (le_refl _)
  · intro x1 x2
    rw [hrad, x1, x2, mul_comm]

/-- The C8 theorem at `sigma1 = 1`, `sigma = 3/2`: radius 5. -/
theorem gaussianRad32_radius_witness :
    (0 : ℚ) < 1 ∧ (1 : ℚ) ≤ 3 / 2 ∧ f32 (f32 (3 / 2 * 3) + 1 / 2) < 2 ^ 30 ∧
    gaussianRad32 (3 / 2) = max ⌊f32 (f32 (3 / 2 * 3) + 1 / 2)⌋ 1 ∧
      1 ≤ gaussianRad32 (3 / 2) ∧
      gaussianDia32 (3 / 2) = 2 * gaussianRad32 (3 / 2) + 1 ∧
      gaussianDia32 (3 / 2) % 2 = 1 ∧
      gaussianRad32 1 ≤ gaussianRad32 (3 / 2) ∧
      (f32 (3 / 2 * 3) = 3 / 2 * 3 → f32 (3 / 2 * 3 + 1 / 2) = 3 / 2 * 3 + 1 / 2 →
        gaussianRad32 (3 / 2) = max ⌊3 * (3 / 2 : ℚ) + 1 / 2⌋ 1) := by
  have k1 : f32 (3 / 2 * 3) = 9 / 2 := by
    have := f32_exact (3 / 2 * 3) 9 (-1) (by norm_num) (by decide) (by decide)
    rw [this]; norm_num
  have k2 : f32 ((9 / 2 : ℚ) + 1 / 2) = 5 := by
    have := f32_exact ((9 / 2 : ℚ) + 1 / 2) 5 0 (by norm_num) (by decide) (by decide)
    rw [this]; norm_num
  have hr : f32 (f32 (3 / 2 * 3) + 1 / 2) < 2 ^ 30 := by
    rw [k1, k2]; norm_num
  exact ⟨by norm_num, by norm_num, hr,
    gaussianRad32_radius 1 (3 / 2) (by norm_num) (by norm_num) hr⟩

/-- Counterexample to C8 as stated: at the binary32 value
`sigma = 13981013 / 2^24` (0.833333313) the product `3 sigma` rounds to 2.5,
the sum with 0.5 is 3, and the radius is 3, while
`max (floor (3 sigma + 1/2)) 1` is 2. -/
theorem radius_rounds_up :
    (0 : ℚ) < 13981013 / 16777216 ∧ f32 (13981013 / 16777216) = 13981013 / 16777216 ∧
      gaussianRad32 (13981013 / 16777216) = 3 ∧
      max ⌊3 * (13981013 / 16777216 : ℚ) + 1 / 2⌋ 1 = 2 := by
  have k0 : f32 (13981013 / 16777216) = 13981013 / 16777216 :=
    f32_exact _ 13981013 (-24) (by norm_num) (by decide) (by decide)
  have k1 : f32 (13981013 / 16777216 * 3) = 5 / 2 := by
    rw [f32_eval (13981013 / 16777216 * 3) 1 10485760
      (by norm_num [abs_of_pos]) (by norm_num [abs_of_pos]) (by decide)
      (roundEven_eval _ _ (by norm_num) (by norm_num))]
    norm_num
  have k2 : f32 ((5 / 2 : ℚ) + 1 / 2) = 3 := by
    have := f32_exact ((5 / 2 : ℚ) + 1 / 2) 3 0 (by norm_num) (by decide) (by decide)
    rw [this]; norm_num
  refine ⟨by norm_num, k0, ?_, ?_⟩
  · rw [(gaussianRad32_eq _).1, k1, k2, castInt32_of_nonneg _ (by norm_num) (by norm_num)]
    have : ⌊(3 : ℚ)⌋ = 3 := by
      rw [Int.floor_eq_iff]; norm_num
    rw [this]; decide
  · have : ⌊3 * (13981013 / 16777216 : ℚ) + 1 / 2⌋ = 2 := by
      rw [Int.floor_eq_iff]; norm_num
    rw [this]; decide

/-! ## Configuration, on the arguments as passed -/

/-- The doubles whose binary32 value is not positive are those up to `2^-150`. -/
theorem f32_le_zero_iff (s : ℚ) : f32 s ≤ 0 ↔ s ≤ 2 ^ (-150 : Int) := by
  constructor
  · intro h
    by_contra hc
    have hs : (2 : ℚ) ^ (-150 : Int) < s := not_le.mp hc
    have hpos : 0 < f32 s := by
      by_cases hb : s < 2 ^ (-149 : Int)
      · have hs0 : 0 < s := lt_trans (by positivity) hs
        rw [f32_eval_sub s 1 (by rw [abs_of_pos hs0]; exact lt_trans hb (by norm_num))
          (roundEven_eval _ 1 (by
            rw [lt_div_iff₀ (by positivity)]; norm_num at hs ⊢; linarith) (by
            rw [div_lt_iff₀ (by positivity)]; norm_num at hb ⊢; linarith))]
        positivity
      · have hge : (2 : ℚ) ^ (-149 : Int) ≤ s := not_lt.mp hb
        have := f32_mono (by positivity) hge
        rw [f32_exact ((2 : ℚ) ^ (-149 : Int)) 1 (-149) (by norm_num) (by decide)
          (by decide)] at this
        exact lt_of_lt_of_le (by positivity) this
    exact absurd h (not_le.mpr hpos)
  · intro h
    by_cases h0 : s ≤ 0
    · exact f32_nonpos h0
    · have hs0 : 0 < s := not_le.mp h0
      have := f32_mono hs0.le h
      have e : f32 ((2 : ℚ) ^ (-150 : Int)) = 0 := by
        rw [f32_eval_sub _ 0 (by norm_num [abs_of_pos]) (by
          rw [roundEven_tie _ 0 (by norm_num)]; decide)]
        simp
      rw [e] at this
      exact this

/-- The doubles whose binary32 value is below 1 are those below `1 - 2^-25`. -/
theorem f32_lt_one_iff (g : ℚ) : f32 g < 1 ↔ g < 1 - 2 ^ (-25 : Int) := by
  constructor
  · intro h
    by_contra hc
    have hg : (1 : ℚ) - 2 ^ (-25 : Int) ≤ g := not_lt.mp hc
    have := f32_mono (by norm_num) hg
    have e : f32 ((1 : ℚ) - 2 ^ (-25 : Int)) = 1 := by
      rw [f32_eval _ (-1) 16777216 (by norm_num [abs_of_pos]) (by norm_num [abs_of_pos])
        (by decide) (by
          rw [roundEven_tie _ 16777215 (by norm_num)]; decide)]
      norm_num
    rw [e] at this
    exact absurd h (not_lt.mpr this)
  · intro h
    by_cases h0 : g ≤ 0
    · exact lt_of_le_of_lt (f32_nonpos h0) one_pos
    have hg0 : 0 < g := not_le.mp h0
    by_cases hb : g ≤ 1 - 2 ^ (-24 : Int)
    · have := f32_mono hg0.le hb
      rw [f32_exact ((1 : ℚ) - 2 ^ (-24 : Int)) 16777215 (-24) (by norm_num) (by decide)
        (by decide)] at this
      exact lt_of_le_of_lt this (by norm_num)
    · have hb' : (1 : ℚ) - 2 ^ (-24 : Int) < g := not_le.mp hb
      rw [f32_eval g (-1) 16777215
        (by rw [abs_of_pos hg0]; norm_num at hb' ⊢; linarith)
        (by rw [abs_of_pos hg0]; norm_num at h ⊢; linarith) (by decide)
        (roundEven_eval _ 16777215 (by
            rw [lt_div_iff₀ (by positivity)]; norm_num at hb' ⊢; linarith) (by
            rw [div_lt_iff₀ (by positivity)]; norm_num at h ⊢; linarith))]
      norm_num

/-- The tests of `tcannyCreate` on the converted arguments fail exactly on the
inputs of `invalidInput32`. -/
theorem createInvalid_cast_iff (args : TCannyArgs ℚ) :
    createInvalid (castFloatArgs args) ↔ invalidInput32 args := by
  unfold createInvalid invalidInput32 castFloatArgs
  dsimp only
  have e1 : (Option.map f32 args.sigma).getD (3 / 2) ≤ 0 ↔
      ∃ s, args.sigma = some s ∧ s ≤ 2 ^ (-150 : Int) := by
    cases h : args.sigma with
    | none =>
      simp only [Option.map_none', Option.getD_none]
      constructor
      · intro h'; norm_num at h'
      · rintro ⟨s, hs, _⟩; cases hs
    | some s => simp [f32_le_zero_iff]
  have e2 : (args.nms.getD 3 < 0 ∨ args.nms.getD 3 > 3) ↔
      ∃ n, args.nms = some n ∧ ¬ (0 ≤ n ∧ n ≤ 3) := by
    cases h : args.nms with
    | none => simp
    | some n => simp; omega
  have e3 : (args.mode.getD 0 < -1 ∨ args.mode.getD 0 > 3) ↔
      ∃ m, args.mode = some m ∧ ¬ (-1 ≤ m ∧ m ≤ 3) := by
    cases h : args.mode with
    | none => simp
    | some n => simp; omega
  have e4 : (args.op.getD 1 < 0 ∨ args.op.getD 1 > 2) ↔
      ∃ o, args.op = some o ∧ ¬ (0 ≤ o ∧ o ≤ 2) := by
    cases h : args.op with
    | none => simp
    | some n => simp; omega
  have e5 : (Option.map f32 args.gmmax).getD 50 < 1 ↔
      ∃ g, args.gmmax = some g ∧ g < 1 - 2 ^ (-25 : Int) := by
    cases h : args.gmmax with
    | none =>
      simp only [Option.map_none', Option.getD_none]
      constructor
      · intro h'; norm_num at h'
      · rintro ⟨s, hs, _⟩; cases hs
    | some s => simp [f32_lt_one_iff]
  have e7 : ((∃ n ∈ args.planes.getD [], n < 0 ∨ n ≥ args.clip.numPlanes) ∨
      ¬ (args.planes.getD []).Nodup) ↔
      ∃ l, args.planes = some l ∧
        ((∃ n ∈ l, ¬ (0 ≤ n ∧ n < args.clip.numPlanes)) ∨ ¬ l.Nodup) := by
    cases h : args.planes with
    | none => simp
    | some l =>
      simp only [Option.getD_some, Option.some.injEq, exists_eq_left']
      have : ∀ n : Int, (n < 0 ∨ n ≥ args.clip.numPlanes) ↔
          ¬ (0 ≤ n ∧ n < args.clip.numPlanes) := by intro n; omega
      simp only [this]
  rw [e1, e2, e3, e4, e5, ← e7]


/-- C17 (amended): on the arguments as the caller passes them, `tcannyCreate`
returns a configuration error, whether or not the weights can be allocated,
if and only if sigma is at most `2^-150` (its binary32 value is not
positive), `nms`, `mode` or `op` is out of range, `gmmax` is below
`1 - 2^-25` (its binary32 value is below 1), the clip format is not constant,
is integer with more than 16 bits or is float with other than 32 bits, or a
plane index is out of range or listed twice; the only other error is the
failed allocation of the weights; otherwise the filter is created and
processes exactly the listed planes, and all three planes when the list is
absent or empty. -/
theorem tcannyCreate32_rejects_iff (ops : FloatOps ℚ) (args : TCannyArgs ℚ) :
    (∀ mallocOk, (∃ e, tcannyCreate32 ops args mallocOk = .error e ∧
        e ≠ CreateError.mallocWeights) ↔ invalidInput32 args) ∧
    (∀ mallocOk, (∃ e, tcannyCreate32 ops args mallocOk = .error e) ↔
      (invalidInput32 args ∨ mallocOk = false)) ∧
    (¬ invalidInput32 args → ∃ d, tcannyCreate32 ops args true = .ok d ∧
      ∀ i, d.process i = true ↔
        if args.planes.getD [] = [] then 0 ≤ i ∧ i < 3 else i ∈ args.planes.getD []) := by
  have hiff := createInvalid_cast_iff args
  have hacc : ¬ invalidInput32 args → ∃ d, tcannyCreate32 ops args true = .ok d ∧
      ∀ i, d.process i = true ↔
        if args.planes.getD [] = [] then 0 ≤ i ∧ i < 3 else i ∈ args.planes.getD [] := by
    intro hv
    obtain ⟨d, hd, -, -, -, -, -, -, -, -, -, hproc, -, -⟩ :=
      tcannyCreate_accept ops (castFloatArgs args) (fun h => hv (hiff.mp h))
    refine ⟨d, hd, ?_⟩
    intro i
    rw [hproc]
    have hpl : (castFloatArgs args).planes = args.planes := rfl
    rw [hpl]
    cases hl : args.planes with
    | none => simp [propNumElements]
    | some l =>
      cases l with
      | nil => simp [propNumElements]
      | cons a t =>
        simp only [propNumElements, Option.getD_some, Bool.or_eq_true, decide_eq_true_eq,
          List.length_cons, reduceCtorEq, if_false]
        constructor
        · rintro (h | h)
          · split_ifs at h
            · simp only [decide_eq_true_eq] at h
              push_cast at h; omega
          · exact h
        · exact fun h => Or.inr h
  have hrej : ∀ mallocOk, invalidInput32 args →
      ∃ e, tcannyCreate32 ops args mallocOk = .error e ∧ e ≠ CreateError.mallocWeights :=
    fun mallocOk hv => tcannyCreate_reject ops (castFloatArgs args) mallocOk (hiff.mpr hv)
  have hmal : ¬ invalidInput32 args →
      tcannyCreate32 ops args false = .error CreateError.mallocWeights :=
    fun hv => tcannyCreate_malloc ops (castFloatArgs args) (fun h => hv (hiff.mp h))
  refine ⟨?_, ?_, hacc⟩
  · intro mallocOk
    constructor
    · rintro ⟨e, he, hne⟩
      by_contra hv
      cases mallocOk with
      | true =>
        obtain ⟨d, hd, -⟩ := hacc hv
        rw [hd] at he
        cases he
      | false =>
        rw [hmal hv] at he
        cases he
        exact hne rfl
    · exact hrej mallocOk
  · intro mallocOk
    constructor
    · rintro ⟨e, he⟩
      by_contra hc
      push_neg at hc
      obtain ⟨hv, hm⟩ := hc
      have hm' : mallocOk = true := by simpa using hm
      subst hm'
      obtain ⟨d, hd, -⟩ := hacc hv
      rw [hd] at he
      cases he
    · rintro (hv | hm)
      · obtain ⟨e, he, -⟩ := hrej mallocOk hv
        exact ⟨e, he⟩
      · subst hm
        by_cases hv : invalidInput32 args
        · obtain ⟨e, he, -⟩ := hrej false hv
          exact ⟨e, he⟩
        · exact ⟨_, hmal hv⟩

/-- Counterexample to C17 as stated, on an 8-bit gray clip: `sigma = 2^-160`
is positive, the input is valid in the spec's sense, and the filter is
rejected for every allocation outcome; `gmmax = 1 - 2^-27` is below 1, the
input is invalid in the spec's sense, and the filter is created. -/
theorem create_decides_on_binary32_values :
    (¬ specInvalid (⟨⟨true, SampleType.stInteger, 8, 1, ColorFamily.cmGray⟩,
        some (2 ^ (-160 : Int)), none, none, none, none, none, none, none⟩ : TCannyArgs ℚ) ∧
      ∀ (ops : FloatOps ℚ) (mallocOk : Bool),
        tcannyCreate32 ops ⟨⟨true, SampleType.stInteger, 8, 1, ColorFamily.cmGray⟩,
          some (2 ^ (-160 : Int)), none, none, none, none, none, none, none⟩ mallocOk =
          .error CreateError.sigma) ∧
    (specInvalid (⟨⟨true, SampleType.stInteger, 8, 1, ColorFamily.cmGray⟩,
        none, none, none, none, none, none, some (1 - 2 ^ (-27 : Int)), none⟩ :
        TCannyArgs ℚ) ∧
      ∀ ops : FloatOps ℚ, ∃ d,
        tcannyCreate32 ops ⟨⟨true, SampleType.stInteger, 8, 1, ColorFamily.cmGray⟩,
          none, none, none, none, none, none, some (1 - 2 ^ (-27 : Int)), none⟩ true =
          .ok d ∧ d.gmmax = 1) := by
  refine ⟨⟨?_, ?_⟩, ⟨?_, ?_⟩⟩
  · unfold specInvalid
    simp only [Option.some.injEq, exists_eq_left', reduceCtorEq, false_and, exists_false,
      false_or, not_or, not_le]
    refine ⟨by positivity, ?_, ?_⟩
    · simp
    · simp
  · intro ops mallocOk
    have hs : f32 ((2 : ℚ) ^ (-160 : Int)) ≤ 0 := (f32_le_zero_iff _).mpr (by norm_num)
    unfold tcannyCreate32 castFloatArgs tcannyCreate
    simp only [Option.map_some', propGetFloat_default, Option.getD_some]
    rw [if_pos hs]
  · unfold specInvalid
    right; right; right; right; left
    exact ⟨_, rfl, by norm_num⟩
  · intro ops
    have hv : ¬ invalidInput32 (⟨⟨true, SampleType.stInteger, 8, 1, ColorFamily.cmGray⟩,
        none, none, none, none, none, none, some (1 - 2 ^ (-27 : Int)), none⟩ :
        TCannyArgs ℚ) := by
      unfold invalidInput32
      simp only [Option.some.injEq, exists_eq_left', reduceCtorEq, false_and, exists_false,
        false_or, not_or, not_lt]
      refine ⟨by norm_num, ?_, ?_⟩
      · simp
      · simp
    obtain ⟨d, hd, -, -, -, -, -, hgm, -⟩ :=
      tcannyCreate_accept ops (castFloatArgs _) (fun h => hv ((createInvalid_cast_iff _).mp h))
    refine ⟨d, hd, ?_⟩
    rw [hgm]
    have hg1 : f32 ((1 : ℚ) - 2 ^ (-27 : Int)) = 1 := by
      rw [f32_eval _ (-1) 16777216 (by norm_num [abs_of_pos]) (by norm_num [abs_of_pos])
        (by decide) (roundEven_eval _ 16777216 (by norm_num) (by norm_num))]
      norm_num
    show ((some ((1 : ℚ) - 2 ^ (-27 : Int))).map f32).getD 50 = 1
    rw [Option.map_some', Option.getD_some, hg1]

/-! ## Rounding half-up in binary32 -/

/-- With the exact pi the directions the weight bound covers are all of
`[0, pi]` but `pi / 2`. -/
theorem fine_band_exact (dir : ℝ) (h : dir ≠ Real.pi / 2) :
    dir ≤ Real.pi / 4 ∨ (Real.pi / 4 ≤ dir ∧ dir < Real.pi / 2) ∨
      (Real.pi - Real.pi / 2 < dir ∧ dir < 3 * Real.pi / 4) ∨ Real.pi - Real.pi / 4 ≤ dir := by
  rcases le_or_lt dir (Real.pi / 4) with a | a
  · exact Or.inl a
  rcases lt_or_le dir (Real.pi / 2) with b | b
  · exact Or.inr (Or.inl ⟨a.le, b⟩)
  rcases lt_or_le dir (3 * Real.pi / 4) with c | c
  · refine Or.inr (Or.inr (Or.inl ⟨?_, c⟩))
    have : Real.pi / 2 < dir := lt_of_le_of_ne b (Ne.symm h)
    linarith
  · exact Or.inr (Or.inr (Or.inr (by linarith)))

end TCanny
